import Mathlib

/-!
# Block read/write set of the L0 ledger (`core/ledger/state/blkrwset.go`)

A shallow embedding of `BLKRWSet` and of the operations on it, followed by the
properties proved about them.

Conventions of the embedding:

* a Go `[]byte` is `Bytes = Option (List Nat)`; `none` is the nil slice, which the
  code tells apart from an empty one (`val != nil`);
* a Go `map[string]V` is a `GoMap V`: either the nil map or a made map, a list of
  entries without duplicate keys.  `range` visits the entries in list order, one of
  the orders the Go runtime may choose;
* keys are kept as `String`; the conversions `[]byte(ckey)` / `string(key)` are the
  identity;
* the entries of the maps (`*KVRead`, `*KVWrite`) are never nil pointers, while a
  `*KVRWSet` argument of `merge` may be nil and is an `Option`;
* a method that mutates its receiver returns the receiver's state after the call;
* `uint32` fields are `Nat`, with an explicit `% 2^32` where the code adds.
-/

namespace L0

/-! ## Byte slices -/

/-- A Go byte slice; `none` is `nil`. -/
abbrev Bytes := Option (List Nat)

/-- The bytes a slice holds; the nil slice holds none. -/
def Bytes.content (b : Bytes) : List Nat := b.getD []

/-- Go `bytes.Compare`: lexicographic comparison of the contents, so a nil slice
and an empty slice compare equal. -/
def bytesCompare (a b : Bytes) : Int :=
  if a.content = b.content then 0 else if a.content < b.content then -1 else 1

/-! ## Go maps keyed by strings -/

/-- A made (non-nil) Go map: its entries, no key twice. -/
def KVMap (V : Type) : Type := { l : List (String × V) // (l.map Prod.fst).Nodup }

/-- The map `make(map[string]V)` returns. -/
def KVMap.empty {V : Type} : KVMap V := ⟨[], List.nodup_nil⟩

/-- Index expression `m[k]` with the comma-ok form: the entry stored under `k`. -/
def KVMap.get? {V : Type} (m : KVMap V) (k : String) : Option V :=
  (m.1.find? (fun e => e.1 == k)).map Prod.snd

/-- Assignment `m[k] = v`: the old entry for `k`, if any, is replaced. -/
def KVMap.set {V : Type} (m : KVMap V) (k : String) (v : V) : KVMap V :=
  ⟨(k, v) :: m.1.filter (fun e => e.1 != k), by
    have hsub : ((m.1.filter (fun e => e.1 != k)).map Prod.fst).Sublist (m.1.map Prod.fst) :=
      (List.filter_sublist m.1).map Prod.fst
    simp only [List.map_cons, List.nodup_cons]
    refine ⟨?_, m.2.sublist hsub⟩
    intro hmem
    obtain ⟨e, he, hk⟩ := List.mem_map.1 hmem
    have := (List.mem_filter.1 he).2
    simp [hk] at this⟩

/-- A Go map value: the nil map or a made one. -/
inductive GoMap (V : Type) : Type where
  | nil : GoMap V
  | made (m : KVMap V) : GoMap V

/-- Test `m == nil`. -/
def GoMap.isNil {V : Type} : GoMap V → Bool
  | .nil => true
  | .made _ => false

/-- Entries visited by `for k, v := range m`; a nil map has none. -/
def GoMap.range {V : Type} : GoMap V → List (String × V)
  | .nil => []
  | .made m => m.1

/-- Lookup `v, ok := m[k]`; a nil map holds nothing. -/
def GoMap.get? {V : Type} : GoMap V → String → Option V
  | .nil, _ => none
  | .made m, k => m.get? k

/-- Assignment `m[k] = v`; `none` is the run-time panic of an assignment to an
entry of a nil map. -/
def GoMap.set {V : Type} : GoMap V → String → V → Option (GoMap V)
  | .nil, _, _ => none
  | .made m, k, v => some (.made (m.set k v))

/-! ## Read/write sets -/

/-- Entry of a read set (`KVRead`). -/
structure KVRead where
  Value : Bytes
  deriving DecidableEq, Repr

/-- Entry of a write set (`KVWrite`); `IsDelete` marks a tombstone. -/
structure KVWrite where
  Value : Bytes
  IsDelete : Bool
  deriving DecidableEq, Repr

/-- Read set and write set of one namespace (`KVRWSet`). -/
structure KVRWSet where
  Reads : GoMap KVRead
  Writes : GoMap KVWrite

/-- Modelled from the spec: `NewKVRWSet`, whose body is not part of the sources at
hand; a fresh set has made, empty `Reads` and `Writes` (the setters assign into
them without a nil test). -/
def NewKVRWSet : KVRWSet := { Reads := .made KVMap.empty, Writes := .made KVMap.empty }

/-- A transaction (`*types.Transaction`), known here only by its identity. -/
structure Transaction where
  id : Nat
  deriving DecidableEq, Repr

/-- The state of a `BLKRWSet`.  The three mutexes carry no data; `exit` is the
number of signals buffered in the channel of capacity one; the storage handle
`dbHandler` is passed to the operations that read it. -/
structure BLKRWSet where
  chainCodeSet : KVRWSet
  balanceSet : KVRWSet
  assetSet : KVRWSet
  chainCodeCF : String
  balanceCF : String
  assetCF : String
  txs : List Transaction
  transferTxs : List Transaction
  errTxs : List Transaction
  BlockIndex : Nat
  TxIndex : Nat
  curTxIndex : Nat
  waiting : Bool
  exit : Nat

/-- `NewBLKRWSet`. -/
def NewBLKRWSet : BLKRWSet :=
  { chainCodeSet := NewKVRWSet
    balanceSet := NewKVRWSet
    assetSet := NewKVRWSet
    chainCodeCF := "scontract"
    balanceCF := "balance"
    assetCF := "asset"
    txs := []
    transferTxs := []
    errTxs := []
    BlockIndex := 0
    TxIndex := 0
    curTxIndex := 0
    waiting := false
    exit := 0 }

/-! ## merge -/

/-- Why a call of `merge` did not return `nil`. -/
inductive MergeFail where
  /-- The error `"<namespace> readset conflict -- ..."` for the composite key. -/
  | conflict (ns : String) (ckey : String)
  /-- A run-time panic: nil pointer dereference or assignment into a nil map. -/
  | panic
  /-- The send on `exit` found the single slot taken and waits for a receiver. -/
  | blocked
  deriving DecidableEq, Repr

/-- One of the three read loops of `merge`: the first candidate entry whose key the
block has already read with a different value. -/
def readConflict (blkReads cand : GoMap KVRead) : Option String :=
  (cand.range.find? (fun e =>
    match blkReads.get? e.1 with
    | some trset => decide (bytesCompare trset.Value e.2.Value ≠ 0)
    | none => false)).map Prod.fst

/-- One of the three write loops of `merge`: `blkWrites[ckey] = wset` for every
candidate entry. -/
def overlayWrites (blkWrites : GoMap KVWrite) : List (String × KVWrite) → Option (GoMap KVWrite)
  | [] => some blkWrites
  | (ckey, wset) :: rest =>
    match blkWrites.set ckey wset with
    | none => none
    | some w => overlayWrites w rest

/-- The tail of `merge` (lines 479-494): bookkeeping of the transaction lists, then
the barrier counter and the wake-up signal. -/
def mergeFinish (blk : BLKRWSet) (rejected : Bool) (tx : Transaction)
    (ttxs : Option (List Transaction)) (txIndex : Nat) : Except MergeFail BLKRWSet :=
  let blk1 : BLKRWSet :=
    if rejected then { blk with errTxs := blk.errTxs ++ [tx] }
    else { blk with txs := blk.txs ++ [tx], transferTxs := blk.transferTxs ++ ttxs.getD [] }
  let blk2 : BLKRWSet := { blk1 with curTxIndex := (txIndex + 1) % 2 ^ 32 }
  if blk2.waiting && blk2.TxIndex == blk2.curTxIndex then
    if blk2.exit < 1 then .ok { blk2 with exit := blk2.exit + 1 } else .error .blocked
  else .ok blk2

/-- `BLKRWSet.merge`.  A nil `*KVRWSet` argument is `none`; reading its `Reads`
field panics. -/
def merge (blk : BLKRWSet) (chainCodeSet assetSet balanceSet : Option KVRWSet)
    (tx : Transaction) (ttxs : Option (List Transaction)) (txIndex : Nat) :
    Except MergeFail BLKRWSet :=
  match chainCodeSet with
  | none => .error .panic
  | some cc =>
  match readConflict blk.chainCodeSet.Reads cc.Reads with
  | some ckey => .error (.conflict "chaincode" ckey)
  | none =>
  match assetSet with
  | none => .error .panic
  | some as =>
  match readConflict blk.assetSet.Reads as.Reads with
  | some ckey => .error (.conflict "asset" ckey)
  | none =>
  match balanceSet with
  | none => .error .panic
  | some bs =>
  match readConflict blk.balanceSet.Reads bs.Reads with
  | some ckey => .error (.conflict "balance" ckey)
  | none =>
  match overlayWrites blk.chainCodeSet.Writes cc.Writes.range with
  | none => .error .panic
  | some ccW =>
  match overlayWrites blk.assetSet.Writes as.Writes.range with
  | none => .error .panic
  | some asW =>
  match overlayWrites blk.balanceSet.Writes bs.Writes.range with
  | none => .error .panic
  | some bsW =>
  mergeFinish
    { blk with
      chainCodeSet := { blk.chainCodeSet with Writes := ccW }
      assetSet := { blk.assetSet with Writes := asW }
      balanceSet := { blk.balanceSet with Writes := bsW } }
    (chainCodeSet.isNone && assetSet.isNone && bs.Reads.isNil && ttxs.isNone)
    tx ttxs txIndex

/-- Some key of the candidate's read set is also in the block's read set, recorded
there with a value of different bytes. -/
def ReadsConflict (blkReads cand : GoMap KVRead) : Prop :=
  ∃ k r t, cand.get? k = some r ∧ blkReads.get? k = some t ∧ t.Value.content ≠ r.Value.content

/-- The map `after` is the last-wins overlay of `cand` on `before`: every key of
`cand` has the entry `cand` gives it, every other key what `before` gave it. -/
def IsOverlay (before cand after : GoMap KVWrite) : Prop :=
  (∀ k w, cand.get? k = some w → after.get? k = some w) ∧
  (∀ k, cand.get? k = none → after.get? k = before.get? k)

/-! ## The merge barrier: SetBlock, wait and sequences of merges -/

/-- `BLKRWSet.SetBlock`: `exit` becomes a fresh, empty channel. -/
def SetBlock (blk : BLKRWSet) (blkIndex txNum : Nat) : BLKRWSet :=
  { blk with
    BlockIndex := blkIndex
    TxIndex := txNum
    curTxIndex := 0
    exit := 0
    assetSet := NewKVRWSet
    balanceSet := NewKVRWSet
    chainCodeSet := NewKVRWSet
    txs := []
    transferTxs := [] }

/-- `BLKRWSet.wait`: when `TxIndex` and `curTxIndex` agree the call returns at once;
otherwise it receives from `exit`, which takes a buffered signal when there is one
and else does not return before a merge sends one (`none`). -/
def wait (blk : BLKRWSet) : Option BLKRWSet :=
  let blk1 : BLKRWSet := { blk with waiting := decide (blk.TxIndex ≠ blk.curTxIndex) }
  if blk1.waiting then
    if blk1.exit > 0 then some { blk1 with exit := blk1.exit - 1 } else none
  else some blk1

/-- The arguments of one call of `merge`. -/
structure MergeCall where
  chainCodeSet : Option KVRWSet
  assetSet : Option KVRWSet
  balanceSet : Option KVRWSet
  tx : Transaction
  ttxs : Option (List Transaction)
  txIndex : Nat

/-- A sequence of `merge` calls, one after the other (each call holds the three
locks for its whole body).  A call that returns a conflict leaves the block as it
was.  The result is the block after the last call and the indices of the calls
that completed, in order; `none` when a call panics or cannot complete its send. -/
def runMerges : BLKRWSet → List MergeCall → Option (BLKRWSet × List Nat)
  | blk, [] => some (blk, [])
  | blk, c :: rest =>
    match merge blk c.chainCodeSet c.assetSet c.balanceSet c.tx c.ttxs c.txIndex with
    | .ok blk1 =>
      match runMerges blk1 rest with
      | some (blkF, done) => some (blkF, c.txIndex :: done)
      | none => none
    | .error (.conflict _ _) => runMerges blk rest
    | .error _ => none

/-- The calls arrive in transaction-index order: every call carries the index the
block's counter stands at (0 first; a call that ended in a conflict is repeated
with the same index). -/
def InIndexOrder : BLKRWSet → List MergeCall → Prop
  | _, [] => True
  | blk, c :: rest =>
    c.txIndex = blk.curTxIndex ∧
      match merge blk c.chainCodeSet c.assetSet c.balanceSet c.tx c.ttxs c.txIndex with
      | .ok blk1 => InIndexOrder blk1 rest
      | .error _ => InIndexOrder blk rest

/-! ## Storage and composite keys

`ConstructCompositeKey` and the storage handle belong to packages outside the
sources at hand; the operations below take them as parameters. -/

/-- A key/value pair of a storage scan (`db.KeyValue`). -/
structure KeyValue where
  Key : String
  Value : Bytes
  deriving DecidableEq, Repr

/-- The methods of the storage handle (`*db.BlockchainDB`) the block set calls;
each takes the column family first. -/
structure BlockchainDB where
  Get : String → String → Except String Bytes
  GetByRange : String → String → String → List KeyValue
  GetByPrefix : String → String → List KeyValue

/-- The package variable `assetIDKeySuffix`. -/
def assetIDKeySuffix : String := "$"

/-- The package variable `assetIDKeyPrefix`. -/
def assetIDKeyPrefix : String := "asset"

/-- Modelled from the spec: `ConstructCompositeKey`, which is not part of the sources
at hand.  The key is the length-prefixed pair `len(ns) ‖ ns ‖ len(key) ‖ key`; a
length is written as the one character of that code, which is its varint for the
short components used in the examples below. -/
def specCompositeKey (ns key : String) : String :=
  String.singleton (Char.ofNat ns.length) ++ ns ++ String.singleton (Char.ofNat key.length) ++ key

/-! ## Contract state -/

section Operations

variable (ConstructCompositeKey : String → String → String) (dbHandler : BlockchainDB)

/-- `BLKRWSet.GetChainCodeState`: the value returned and the block after the call
(the method holds the read lock only and assigns to no field). -/
def GetChainCodeState (blk : BLKRWSet) (chaincodeAddr key : String) (committed : Bool) :
    Except String Bytes × BLKRWSet :=
  let ckey := ConstructCompositeKey chaincodeAddr key
  if !committed then
    match blk.chainCodeSet.Writes.get? ckey with
    | some kvw => (.ok kvw.Value, blk)
    | none =>
      match blk.chainCodeSet.Reads.get? ckey with
      | some kvr => (.ok kvr.Value, blk)
      | none => (dbHandler.Get blk.chainCodeCF ckey, blk)
  else (dbHandler.Get blk.chainCodeCF ckey, blk)

/-- `BLKRWSet.SetChainCodeState`; `none` is the panic of assigning into a nil map. -/
def SetChainCodeState (blk : BLKRWSet) (chaincodeAddr key : String) (value : Bytes) :
    Option BLKRWSet :=
  let ckey := ConstructCompositeKey chaincodeAddr key
  match blk.chainCodeSet.Writes.set ckey { Value := value, IsDelete := false } with
  | none => none
  | some w => some { blk with chainCodeSet := { blk.chainCodeSet with Writes := w } }

/-- `BLKRWSet.DelChainCodeState`; `none` is the panic of assigning into a nil map. -/
def DelChainCodeState (blk : BLKRWSet) (chaincodeAddr key : String) : Option BLKRWSet :=
  let ckey := ConstructCompositeKey chaincodeAddr key
  match blk.chainCodeSet.Writes.set ckey { Value := none, IsDelete := true } with
  | none => none
  | some w => some { blk with chainCodeSet := { blk.chainCodeSet with Writes := w } }

end Operations

/-! ## Balances -/

/-- Big-endian base-256 digits of `n`, most significant first, pushed in front of
`acc`; `fuel` bounds the number of digits. -/
def natBytesAux : Nat → Nat → List Nat → List Nat
  | 0, _, acc => acc
  | fuel + 1, n, acc => if n = 0 then acc else natBytesAux fuel (n / 256) (n % 256 :: acc)

/-- Go `(*big.Int).Bytes`: the absolute value as a big-endian byte slice (empty,
not nil, for zero). -/
def bigBytes (x : Int) : Bytes := some (natBytesAux x.natAbs x.natAbs [])

/-- Go `(*big.Int).SetBytes`: the bytes read as a big-endian unsigned integer. -/
def bigSetBytes (buf : Bytes) : Int :=
  ((buf.content.foldl (fun acc d => acc * 256 + d) 0 : Nat) : Int)

section Balances

variable (ConstructCompositeKey : String → String → String) (dbHandler : BlockchainDB)

/-- `BLKRWSet.GetBalanceState`; the returned `*big.Int` is `none` when nil. -/
def GetBalanceState (blk : BLKRWSet) (addr : String) (assetID : Nat) (committed : Bool) :
    Except String (Option Int) :=
  let ckey := ConstructCompositeKey addr (toString assetID ++ assetIDKeySuffix)
  let fromDB : Except String (Option Int) :=
    match dbHandler.Get blk.balanceCF ckey with
    | .error err => .error err
    | .ok value => .ok (some (bigSetBytes value))
  if !committed then
    match blk.balanceSet.Writes.get? ckey with
    | some kvw => if kvw.IsDelete then .ok none else .ok (some (bigSetBytes kvw.Value))
    | none =>
      match blk.balanceSet.Reads.get? ckey with
      | some kvr => .ok (some (bigSetBytes kvr.Value))
      | none => fromDB
  else fromDB

/-- `BLKRWSet.SetBalacneState`; `none` is the panic of assigning into a nil map. -/
def SetBalacneState (blk : BLKRWSet) (addr : String) (assetID : Nat) (amount : Int) :
    Option BLKRWSet :=
  let value := bigBytes amount
  let ckey := ConstructCompositeKey addr (toString assetID ++ assetIDKeySuffix)
  match blk.balanceSet.Writes.set ckey { Value := value, IsDelete := false } with
  | none => none
  | some w => some { blk with balanceSet := { blk.balanceSet with Writes := w } }

end Balances

/-! ## Range reads of contract state -/

/-- Go `strings.HasPrefix` and `bytes.HasPrefix`. -/
def HasPrefix (s pfx : String) : Bool := pfx.data.isPrefixOf s.data

/-- The operations of package `treap` that the range reads call.  The package is
outside the sources at hand, so the operations are a parameter: `Put c k v` is the
cache `c` after the call `c.Put(k, v)`, and `Iterator c start limit` lists the
key/value pairs that `c.Iterator(start, limit)` steps through with `Next`. -/
structure TreapOps (T : Type) where
  NewImmutable : T
  Put : T → String → Bytes → T
  Iterator : T → String → Option String → List (String × Bytes)

/-- Body of the two overlay loops: `if val := iter.Value(); val != nil { ret[key] = val }`. -/
def rangeOverlayStep (ret : KVMap Bytes) (e : String × Bytes) : KVMap Bytes :=
  if e.2.isSome then ret.set e.1 e.2 else ret

section RangeReads

variable (ConstructCompositeKey : String → String → String) (dbHandler : BlockchainDB)
variable {T : Type} (treap : TreapOps T)

/-- `BLKRWSet.GetChainCodeStateByRange`: the map returned (the error is always nil). -/
def GetChainCodeStateByRange (blk : BLKRWSet) (chaincodeAddr startKey endKey : String)
    (committed : Bool) : KVMap Bytes :=
  let chaincodePrefix := ConstructCompositeKey chaincodeAddr ""
  let ckeyStart := ConstructCompositeKey chaincodeAddr startKey
  let ckeyEnd := ConstructCompositeKey chaincodeAddr endKey
  let dbValues :=
    if endKey.length > 0 then dbHandler.GetByRange blk.chainCodeCF ckeyStart ckeyEnd
    else dbHandler.GetByPrefix blk.chainCodeCF ckeyStart
  let ret := dbValues.foldl (fun ret kv => ret.set kv.Key kv.Value) KVMap.empty
  if !committed then
    let cache := blk.chainCodeSet.Reads.range.foldl
      (fun cache e => if HasPrefix e.1 chaincodePrefix then treap.Put cache e.1 e.2.Value else cache)
      treap.NewImmutable
    let cache := blk.chainCodeSet.Writes.range.foldl
      (fun cache e => if HasPrefix e.1 chaincodePrefix then treap.Put cache e.1 e.2.Value else cache)
      cache
    if endKey.length > 0 then
      (treap.Iterator cache ckeyStart (some ckeyEnd)).foldl rangeOverlayStep ret
    else
      ((treap.Iterator cache startKey none).takeWhile (fun e => HasPrefix e.1 startKey)).foldl
        rangeOverlayStep ret
  else ret

end RangeReads

/-- Modelled from the spec: `Put` of package `treap`, an ordered in-memory map; the
entries are kept in lexicographic key order and a key that is already there gets
the new value. -/
def specTreapPut : List (String × Bytes) → String → Bytes → List (String × Bytes)
  | [], k, v => [(k, v)]
  | (k0, v0) :: rest, k, v =>
    if k = k0 then (k, v) :: rest
    else if k < k0 then (k, v) :: (k0, v0) :: rest
    else (k0, v0) :: specTreapPut rest k v

/-- Modelled from the spec: package `treap`, an ordered in-memory map; the iterator
over `[start, limit)` steps through the keys from `start` on, below `limit` when
one is given, in lexicographic order. -/
def specTreap : TreapOps (List (String × Bytes)) :=
  { NewImmutable := []
    Put := specTreapPut
    Iterator := fun cache start limit =>
      cache.filter (fun e => decide (start ≤ e.1) &&
        match limit with
        | some l => decide (e.1 < l)
        | none => true) }

/-! ## ApplyChanges -/

/-- The operation codes `db.OperationPut` and `db.OperationDelete`. -/
inductive Operation where
  | OperationPut
  | OperationDelete
  deriving DecidableEq, Repr

/-- One entry of a write batch (`db.WriteBatch`). -/
structure WriteBatch where
  CfName : String
  Operation : Operation
  Key : String
  Value : Bytes
  Typ : String
  deriving DecidableEq, Repr

/-- Modelled from the spec: `db.NewWriteBatch`, a constructor outside the sources at
hand, which records its five arguments. -/
def NewWriteBatch (cfName : String) (operation : Operation) (key : String) (value : Bytes)
    (typ : String) : WriteBatch :=
  { CfName := cfName, Operation := operation, Key := key, Value := value, Typ := typ }

/-- One of the three loops of `ApplyChanges` over the `Writes` of a namespace. -/
def writeBatchsOf (cf : String) (writes : GoMap KVWrite) : List WriteBatch :=
  writes.range.map (fun e =>
    if e.2.IsDelete then NewWriteBatch cf .OperationDelete e.1 none cf
    else NewWriteBatch cf .OperationPut e.1 e.2.Value cf)

/-- What `ApplyChanges` returns, with the block after the call. -/
structure ApplyResult where
  blk : BLKRWSet
  writeBatchs : List WriteBatch
  txs : List Transaction
  errTxs : List Transaction

/-- `BLKRWSet.ApplyChanges`; `none` while `wait` does not return. -/
def ApplyChanges (blk : BLKRWSet) : Option ApplyResult :=
  match wait blk with
  | none => none
  | some blk1 =>
    some
      { blk := blk1
        writeBatchs :=
          writeBatchsOf blk1.chainCodeCF blk1.chainCodeSet.Writes ++
            writeBatchsOf blk1.assetCF blk1.assetSet.Writes ++
            writeBatchsOf blk1.balanceCF blk1.balanceSet.Writes
        txs := blk1.txs ++ blk1.transferTxs
        errTxs := blk1.errTxs }

/-- The batch entry `e` is addressed to column family `cf` and does to `k` what the
write-set entry `w` says: a delete for a tombstone, else a put of its value. -/
def IsWriteOf (cf k : String) (w : KVWrite) (e : WriteBatch) : Prop :=
  e.CfName = cf ∧ e.Key = k ∧
    (if w.IsDelete then e.Operation = .OperationDelete
     else e.Operation = .OperationPut ∧ e.Value = w.Value)

/-- For every key of `writes` the batch holds an entry that does what the write-set
entry says, and it is the only entry of the batch for that column family and key. -/
def CoversWrites (batch : List WriteBatch) (cf : String) (writes : GoMap KVWrite) : Prop :=
  ∀ k w, writes.get? k = some w →
    (∃ e ∈ batch, IsWriteOf cf k w e) ∧
      batch.countP (fun e => decide (e.CfName = cf ∧ e.Key = k)) = 1

/-- A store whose contract column family holds the one key `key` with the bytes
`value`: a scan returns the key when it lies in the range `[start, limit)`, or has
the prefix, that is asked for (keys are compared as their characters). -/
def storeOf (key : String) (value : Bytes) : BlockchainDB :=
  { Get := fun cf k => if cf = "scontract" ∧ k = key then .ok value else .ok none
    GetByRange := fun cf start limit =>
      if cf = "scontract" ∧ start.data ≤ key.data ∧ key.data < limit.data then [⟨key, value⟩]
      else []
    GetByPrefix := fun cf pfx => if cf = "scontract" ∧ HasPrefix key pfx then [⟨key, value⟩] else [] }

/-- A store that holds the one contract key of `("cc", "k")` with the byte `1`, used
in the examples. -/
def sampleDB : BlockchainDB := storeOf (specCompositeKey "cc" "k") (some [1])

/-- A block with a put of `("cc", "k")` in the contract namespace and a tombstone for
asset 1 of `"a"` in the balance namespace, used in the examples. -/
def sampleBlock : BLKRWSet :=
  { NewBLKRWSet with
    chainCodeSet :=
      { Reads := .made KVMap.empty
        Writes := .made (KVMap.empty.set (specCompositeKey "cc" "k") ⟨some [1], false⟩) }
    balanceSet :=
      { Reads := .made KVMap.empty
        Writes := .made (KVMap.empty.set (specCompositeKey "a" "1$") ⟨none, true⟩) } }

/-- What `ApplyChanges` returns on `sampleBlock`. -/
def sampleResult : ApplyResult :=
  { blk := sampleBlock
    writeBatchs :=
      [⟨"scontract", .OperationPut, specCompositeKey "cc" "k", some [1], "scontract"⟩,
        ⟨"balance", .OperationDelete, specCompositeKey "a" "1$", none, "balance"⟩]
    txs := []
    errTxs := [] }

/-- A block that carries lists of an earlier block: one accepted, one transfer and one
rejected transaction, a write, and a counter at 1 of 1. -/
def usedBlock : BLKRWSet :=
  { sampleBlock with
    txs := [⟨7⟩]
    transferTxs := [⟨8⟩]
    errTxs := [⟨9⟩]
    BlockIndex := 4
    TxIndex := 1
    curTxIndex := 1 }

/-! ## Assets (`core/ledger/state/asset.go`) -/

/-- An account address (`accounts.Address`), held as the text its `String` method
gives; two addresses have equal `Bytes` exactly when they are equal. -/
abbrev Address := String

/-- The struct `Asset`. -/
structure Asset where
  ID : Nat
  Name : String
  Descr : String
  Precision : Nat
  Expiration : Nat
  Issuer : Address
  Owner : Address
  deriving DecidableEq, Repr

/-- What Go's `encoding/json` does in `Update`, as a parameter.  `J` is the type of the
values an untyped map (`map[string]interface{}`) holds.

* `UnmarshalAssetErr data` is the error of `json.Unmarshal(data, tAsset)`.
* `UnmarshalMap data` is the map after `json.Unmarshal(data, &m)` for a nil map `m`.
* `ofUint`, `ofString`, `ofAddress` give the untyped value under which a field of that
  type arrives in a map when a marshalled struct is unmarshalled into the map.
* `toUint32`, `toUint64`, `toString`, `toAddress` give the field that a value of a
  marshalled map leaves in a struct of a fresh `Asset`; `none` when the value does
  not decode into the field, which then keeps its zero value. -/
structure JSONLib (J : Type) where
  UnmarshalAssetErr : String → Option String
  UnmarshalMap : String → GoMap J
  ofUint : Nat → J
  ofString : String → J
  ofAddress : Address → J
  toUint32 : J → Option Nat
  toUint64 : J → Option Nat
  toString : J → Option String
  toAddress : J → Option Address

/-- The loop of `Update` (lines 59-63): a value of `newVal` is assigned into `oldVal`
only under a key that `oldVal` already has. -/
def mergeKnownKeys {J : Type} (oldVal : GoMap J) : List (String × J) → GoMap J
  | [] => oldVal
  | (k, val) :: rest =>
    match oldVal.get? k with
    | some _ =>
      match oldVal.set k val with
      | some m => mergeKnownKeys m rest
      | none => mergeKnownKeys oldVal rest
    | none => mergeKnownKeys oldVal rest

/-- Lines 55-57 of `Update`: the asset marshalled and read back into an untyped map,
one entry for each JSON tag of the struct. -/
def Asset.projection {J : Type} (json : JSONLib J) (asset : Asset) : GoMap J :=
  .made ((((((((KVMap.empty.set "owner" (json.ofAddress asset.Owner)).set "issuer"
    (json.ofAddress asset.Issuer)).set "expiration" (json.ofUint asset.Expiration)).set
    "precision" (json.ofUint asset.Precision)).set "descr" (json.ofString asset.Descr)).set
    "name" (json.ofString asset.Name)).set "id" (json.ofUint asset.ID)))

/-- Lines 65-67 of `Update`: the untyped map marshalled and read into a fresh `Asset`;
the error of the decoding is dropped, a field that does not decode stays zero. -/
def Asset.ofProjection {J : Type} (json : JSONLib J) (m : GoMap J) : Asset :=
  { ID := ((m.get? "id").bind json.toUint32).getD 0
    Name := ((m.get? "name").bind json.toString).getD ""
    Descr := ((m.get? "descr").bind json.toString).getD ""
    Precision := ((m.get? "precision").bind json.toUint64).getD 0
    Expiration := ((m.get? "expiration").bind json.toUint32).getD 0
    Issuer := ((m.get? "issuer").bind json.toAddress).getD ""
    Owner := ((m.get? "owner").bind json.toAddress).getD "" }

/-- The asset that lines 52-67 of `Update` build: the old asset's JSON projection,
overlaid with the values of `jsonStr` for the keys it already has, decoded into a
fresh `Asset`. -/
def mergedAsset {J : Type} (json : JSONLib J) (asset : Asset) (jsonStr : String) : Asset :=
  let newVal := json.UnmarshalMap jsonStr
  let oldVal := asset.projection json
  let oldVal := mergeKnownKeys oldVal newVal.range
  Asset.ofProjection json oldVal

/-- `Asset.Update`. -/
def Asset.Update {J : Type} (json : JSONLib J) (asset : Asset) (jsonStr : String) :
    Except String Asset :=
  if jsonStr.length = 0 then .ok asset
  else
    match json.UnmarshalAssetErr jsonStr with
    | some err => .error ("asset update failed: invalid json string for asset - " ++ err)
    | none =>
      let newAsset := mergedAsset json asset jsonStr
      if asset.ID ≠ newAsset.ID ∨ asset.Issuer ≠ newAsset.Issuer ∨ asset.Owner ≠ newAsset.Owner then
        .error "asset update failed: id, issuer, owner are readonly attribute"
      else .ok newAsset

/-! ### Numbers and strings in Go's untyped JSON maps -/

/-- The number of binary digits of `n`, counted with `fuel` steps. -/
def bitLenAux : Nat → Nat → Nat
  | 0, _ => 0
  | fuel + 1, n => if n = 0 then 0 else bitLenAux fuel (n / 2) + 1

/-- The value of the `float64` nearest to the natural number `n` (ties go to the even
mantissa), for `n` below `2^1024`: `n` itself below `2^53`, else `n` rounded to 53
significant bits. -/
def float64OfNat (n : Nat) : Nat :=
  if n < 2 ^ 53 then n
  else
    let e := bitLenAux n n - 53
    let q := n / 2 ^ e
    let r := n % 2 ^ e
    let half := 2 ^ (e - 1)
    let q1 := if r > half ∨ (r = half ∧ q % 2 = 1) then q + 1 else q
    q1 * 2 ^ e

/-- A value of an untyped map as `json.Unmarshal` fills it: a JSON number is a
`float64`, kept here by its value, which is a natural number for every number
that `Update` meets in an asset's projection; anything else is `other`. -/
inductive JVal where
  | num (f : Nat)
  | str (s : String)
  | null
  | other
  deriving DecidableEq, Repr

/-- Go's `encoding/json` on the fields of an asset.  A number arrives in an untyped map
as the nearest `float64`.  Written back, a `float64` up to `2^53` is printed as that
integer and decodes into an unsigned field that is wide enough; `large` says what
a greater one decodes to.  The parsing of a given text is the parameter `parse`,
the error of reading it into an `Asset` the parameter `err`. -/
def goJSON (err : String → Option String) (parse : String → GoMap JVal)
    (large : Nat → Option Nat) : JSONLib JVal :=
  { UnmarshalAssetErr := err
    UnmarshalMap := parse
    ofUint := fun n => .num (float64OfNat n)
    ofString := fun s => .str s
    ofAddress := fun a => .str a
    toUint32 := fun j =>
      match j with
      | .num f => if f < 2 ^ 32 then some f else none
      | _ => none
    toUint64 := fun j =>
      match j with
      | .num f => if f ≤ 2 ^ 53 then some f else large f
      | _ => none
    toString := fun j =>
      match j with
      | .str s => some s
      | _ => none
    toAddress := fun j =>
      match j with
      | .str s => some s
      | _ => none }

/-- The JSON library for the examples: the text `{"name":"x"}` parses to the map with
the one key `name`, the text `{"id":2}` to the map with the one key `id`, both
without error; every other text is taken to be no JSON.  No example sends a number
above `2^53` through a map, so what such a number decodes to is left out. -/
def sampleJSON : JSONLib JVal :=
  goJSON
    (fun s => if s = "\x7b\"name\":\"x\"\x7d" ∨ s = "\x7b\"id\":2\x7d" then none else some "invalid")
    (fun s =>
      if s = "\x7b\"name\":\"x\"\x7d" then .made (KVMap.empty.set "name" (.str "x"))
      else if s = "\x7b\"id\":2\x7d" then .made (KVMap.empty.set "id" (.num 2))
      else .nil)
    (fun _ => none)

/-! ## Validator: speculative accounts (`core/blockchain/validator/validator.go`) -/

/-- Modelled from the spec: `state.Balance`, whose file is not part of the sources at
hand: a mapping from asset ID to a signed big integer, plus a nonce counter.  An
asset without an entry has the amount zero. -/
structure Balance where
  Amounts : Nat → Int
  Nonce : Nat

/-- Modelled from the spec: `Balance.Get`, the amount held of an asset. -/
def Balance.Get (b : Balance) (id : Nat) : Int := b.Amounts id

/-- Modelled from the spec: `Balance.Add`, which adds `amount` to the amount held of
an asset. -/
def Balance.Add (b : Balance) (id : Nat) (amount : Int) : Balance :=
  { b with Amounts := fun i => if i = id then b.Amounts i + amount else b.Amounts i }

/-- Modelled from the spec: the transaction types of package `types`. -/
inductive TxType where
  | TypeIssue
  | TypeIssueUpdate
  | TypeAtomic
  | TypeAcrossChain
  | TypeMerged
  | TypeLuaContractInit
  | TypeJSContractInit
  | TypeContractInvoke
  | TypeContractQuery
  | TypeSecurity
  deriving DecidableEq, Repr

/-- Go `(*big.Int).Int64`: the low 64 bits of the value, read as a two's-complement
`int64`; the value itself when it lies in the `int64` range. -/
def bigInt64 (x : Int) : Int := (x + 2 ^ 63) % 2 ^ 64 - 2 ^ 63

/-- The state of a `Verification` that `VerifyTxs`, `updateAccount` and
`rollBackAccount` read and write.  A Go map is the function from keys to entries,
`none` where the map has no entry; an entry of `accounts` may be a nil pointer
(`some none`). -/
structure Verification where
  IsValid : Bool
  accounts : Address → Option (Option Balance)
  assets : Nat → Option Asset

/-- What the validator code calls and the sources at hand do not define: the
accessors of `*types.Transaction`, the chain coordinate of a chain name (the bytes
of `coordinate.HexToChainCoordinate`), `params.ChainID`, the ledger reads, and the
methods `isExist` and `checkTransaction` of `Verification`. -/
structure ValidatorEnv (J : Type) where
  FromChain : Transaction → String
  ToChain : Transaction → String
  GetType : Transaction → TxType
  Sender : Transaction → Address
  Recipient : Transaction → Address
  AssetID : Transaction → Nat
  Amount : Transaction → Int
  Fee : Transaction → Int
  Payload : Transaction → String
  HexToChainCoordinate : String → List Nat
  ChainID : List Nat
  GetBalanceFromDB : Address → Option Balance
  GetAssetFromDB : Nat → Option Asset
  isExist : Verification → Transaction → Bool
  checkTransaction : Verification → Transaction → Option String
  json : JSONLib J

section Validator

variable {J : Type} (env : ValidatorEnv J)

/-- `Verification.fetchAccount`: the account and the state after the call (an account
read from the ledger is entered into `accounts`, also when it is nil). -/
def fetchAccount (v : Verification) (address : Address) : Option Balance × Verification :=
  match v.accounts address with
  | some account => (account, v)
  | none =>
    let account := env.GetBalanceFromDB address
    (account, { v with accounts := fun a => if a = address then some account else v.accounts a })

/-- The effect on `accounts` of a change made through the pointer that `fetchAccount`
returned for `address`: the entry now holds the changed balance. -/
def storeAccount (v : Verification) (address : Address) (b : Balance) : Verification :=
  { v with accounts := fun a => if a = address then some (some b) else v.accounts a }

/-- The sender's half of `updateAccount` (lines 333-345): `false` when `updateAccount`
returns false here. -/
def updateSender (v : Verification) (tx : Transaction) : Bool × Verification :=
  let assetID := env.AssetID tx
  let plusAmount := bigInt64 (env.Amount tx)
  let plusFee := bigInt64 (env.Fee tx)
  let subAmount := -(env.Amount tx)
  let subFee := -(env.Fee tx)
  if env.HexToChainCoordinate (env.FromChain tx) = env.ChainID then
    match fetchAccount env v (env.Sender tx) with
    | (some senderAccont, v1) =>
      let b := (senderAccont.Add assetID subAmount).Add assetID subFee
      if (env.GetType tx ≠ .TypeIssue ∧ env.GetType tx ≠ .TypeIssueUpdate) ∧ b.Get assetID < 0 then
        (false, storeAccount v1 (env.Sender tx) ((b.Add assetID plusAmount).Add assetID plusFee))
      else (true, storeAccount v1 (env.Sender tx) b)
    | (none, v1) => (true, v1)
  else (true, v)

/-- The recipient's half of `updateAccount` (lines 347-359). -/
def updateReceiver (v : Verification) (tx : Transaction) : Bool × Verification :=
  let assetID := env.AssetID tx
  let plusAmount := bigInt64 (env.Amount tx)
  let plusFee := bigInt64 (env.Fee tx)
  let subAmount := -(env.Amount tx)
  let subFee := -(env.Fee tx)
  if env.HexToChainCoordinate (env.ToChain tx) = env.ChainID then
    match fetchAccount env v (env.Recipient tx) with
    | (some receiverAccount, v1) =>
      let b := (receiverAccount.Add assetID plusAmount).Add assetID plusFee
      if b.Get assetID < 0 then
        (false, storeAccount v1 (env.Recipient tx) ((b.Add assetID subAmount).Add assetID subFee))
      else (true, storeAccount v1 (env.Recipient tx) b)
    | (none, v1) => (true, v1)
  else (true, v)

/-- `Verification.updateAccount`: the result and the state after the call. -/
def updateAccount (v : Verification) (tx : Transaction) : Bool × Verification :=
  match updateSender env v tx with
  | (false, v1) => (false, v1)
  | (true, v1) => updateReceiver env v1 tx

/-- `Verification.rollBackAccount`: the state after the call. -/
def rollBackAccount (v : Verification) (tx : Transaction) : Verification :=
  let assetID := env.AssetID tx
  let plusAmount := bigInt64 (env.Amount tx)
  let plusFee := bigInt64 (env.Fee tx)
  let subAmount := -(env.Amount tx)
  let subFee := -(env.Fee tx)
  let v1 : Verification :=
    if env.HexToChainCoordinate (env.FromChain tx) = env.ChainID then
      match fetchAccount env v (env.Sender tx) with
      | (some senderAccont, v1) =>
        storeAccount v1 (env.Sender tx) ((senderAccont.Add assetID plusAmount).Add assetID plusFee)
      | (none, v1) => v1
    else v
  if env.HexToChainCoordinate (env.ToChain tx) = env.ChainID then
    match fetchAccount env v1 (env.Recipient tx) with
    | (some receiverAccount, v2) =>
      storeAccount v2 (env.Recipient tx) ((receiverAccount.Add assetID subAmount).Add assetID subFee)
    | (none, v2) => v2
  else v1

/-- The speculative balance of an address for an asset: the amount in the account
the validator works with, which is the entry of `accounts` when there is one and
the ledger's account otherwise; `none` when that account does not exist. -/
def speculativeBalance (v : Verification) (address : Address) (assetID : Nat) : Option Int :=
  match v.accounts address with
  | some account => account.map (fun b => b.Get assetID)
  | none => (env.GetBalanceFromDB address).map (fun b => b.Get assetID)

end Validator

/-- A validator environment for the examples: every chain name is local except `"01"`;
transaction 1 moves 10 of asset 1 from `"S"` to `"R"`, transaction 2 moves `2^63`
from `"A"` to `"B"`, transaction 3 moves `2^63` from `"A"` to chain `"01"`, every
other transaction moves 10 from `"S"` to `"T"`; fees are zero.  The ledger holds
100 for `"S"`, -50 for `"R"`, zero for `"T"` and `2^64` for `"A"` and `"B"`. -/
def sampleEnv : ValidatorEnv JVal :=
  { FromChain := fun _ => "00"
    ToChain := fun tx => if tx.id = 3 then "01" else "00"
    GetType := fun _ => .TypeAtomic
    Sender := fun tx => if tx.id = 2 ∨ tx.id = 3 then "A" else "S"
    Recipient := fun tx => if tx.id = 1 then "R" else if tx.id = 2 ∨ tx.id = 3 then "B" else "T"
    AssetID := fun _ => 1
    Amount := fun tx => if tx.id = 2 ∨ tx.id = 3 then 2 ^ 63 else 10
    Fee := fun _ => 0
    Payload := fun _ => ""
    HexToChainCoordinate := fun s => s.toList.map Char.toNat
    ChainID := [48, 48]
    GetBalanceFromDB := fun a =>
      if a = "S" then some ⟨fun i => if i = 1 then 100 else 0, 0⟩
      else if a = "R" then some ⟨fun i => if i = 1 then -50 else 0, 0⟩
      else if a = "T" then some ⟨fun _ => 0, 0⟩
      else if a = "A" ∨ a = "B" then some ⟨fun i => if i = 1 then 2 ^ 64 else 0, 0⟩
      else none
    GetAssetFromDB := fun id => if id = 1 then some ⟨1, "coin", "", 8, 0, "S", "S"⟩ else none
    isExist := fun _ _ => true
    checkTransaction := fun _ _ => none
    json := sampleJSON }

/-- A validator that has cached no account and no asset yet. -/
def sampleVerification : Verification :=
  { IsValid := true, accounts := fun _ => none, assets := fun _ => none }

/-- The sum, over the addresses of a list, of the speculative balances of an asset;
an address without an account counts as zero. -/
def totalBalance {J : Type} (env : ValidatorEnv J) (v : Verification) (addrs : List Address)
    (assetID : Nat) : Int :=
  (addrs.map (fun a => (speculativeBalance env v a assetID).getD 0)).sum

/-! ## Validator: VerifyTxs -/

section VerifyTxs

variable {J : Type} (env : ValidatorEnv J)

/-- The asset steps of one iteration of `VerifyTxs` (lines 254-293): the state to go
on with, or `none` when the transaction is put on the rejected list. -/
def verifyAsset (v : Verification) (tx : Transaction) : Option Verification :=
  let assetID := env.AssetID tx
  let asset : Option Asset :=
    match v.assets assetID with
    | some asset => some asset
    | none => env.GetAssetFromDB assetID
  if env.GetType tx ≠ .TypeIssue then
    match asset with
    | none => none
    | some asset =>
      if env.GetType tx = .TypeIssueUpdate ∧ (env.Payload tx).length > 0 then
        match asset.Update env.json (env.Payload tx) with
        | .error _ => none
        | .ok newAsset =>
          some { v with assets := fun id => if id = assetID then some newAsset else v.assets id }
      else some v
  else
    match asset with
    | none =>
      let asset : Asset :=
        { ID := assetID, Name := "", Descr := "", Precision := 0, Expiration := 0
          Issuer := env.Sender tx, Owner := env.Recipient tx }
      match asset.Update env.json (env.Payload tx) with
      | .error _ => none
      | .ok newAsset =>
        some { v with assets := fun id => if id = assetID then some newAsset else v.assets id }
    | some _ => none

/-- One iteration of the loop of `VerifyTxs`: `true` when the transaction is appended
to the accepted list, `false` when it is appended to the rejected list, and the
state after the iteration. -/
def verifyTx (v : Verification) (tx : Transaction) : Bool × Verification :=
  if !env.isExist v tx && (env.checkTransaction v tx).isSome then (false, v)
  else
    match verifyAsset env v tx with
    | none => (false, v)
    | some v1 => updateAccount env v1 tx

/-- What `VerifyTxs` returns, with the state after the call. -/
structure VerifyResult where
  ttxs : List Transaction
  etxs : List Transaction
  v : Verification

/-- The loop of `VerifyTxs` over the transactions still to visit. -/
def verifyLoop (v : Verification) (ttxs etxs : List Transaction) :
    List Transaction → VerifyResult
  | [] => { ttxs := ttxs, etxs := etxs, v := v }
  | tx :: rest =>
    match verifyTx env v tx with
    | (true, v1) => verifyLoop v1 (ttxs ++ [tx]) etxs rest
    | (false, v1) => verifyLoop v1 ttxs (etxs ++ [tx]) rest

/-- `Verification.VerifyTxs`. -/
def VerifyTxs (v : Verification) (txs : List Transaction) : VerifyResult :=
  if txs.length = 0 || !v.IsValid then { ttxs := txs, etxs := [], v := v }
  else verifyLoop env v [] [] txs

end VerifyTxs

/-- The elements of `txs` at the positions where `mask` holds `b`, in their order. -/
def pickByMask (mask : List Bool) (txs : List Transaction) (b : Bool) : List Transaction :=
  ((txs.zip mask).filter (fun p => p.2 == b)).map Prod.fst

/-! ## Contract values: the Lua serializer (`nvm/luavm/serialize.go`) -/

/-- A `float64`, held as its IEEE-754 bit pattern: numbers are compared by their
encoding. -/
abbrev Float64 := Fin (2 ^ 64)

/-- Modelled from the spec: `utils.Float64ToByte`, which is not part of the sources at
hand: the eight bytes of the bit pattern, least significant first. -/
def Float64ToByte (f : Float64) : List Nat :=
  [f.val % 256, f.val / 2 ^ 8 % 256, f.val / 2 ^ 16 % 256, f.val / 2 ^ 24 % 256,
    f.val / 2 ^ 32 % 256, f.val / 2 ^ 40 % 256, f.val / 2 ^ 48 % 256, f.val / 2 ^ 56 % 256]

/-- Modelled from the spec: `utils.ByteToFloat64`, which is not part of the sources at
hand: the bit pattern whose bytes, least significant first, are `data`. -/
def ByteToFloat64 (data : List Nat) : Float64 :=
  ⟨data.foldr (fun b acc => b + 256 * acc) 0 % 2 ^ 64, Nat.mod_lt _ (by decide)⟩

/-- The statement `data := make([]byte, n); buf.Read(data)` on a `bytes.Buffer`: the
`n` bytes of `data` afterwards, zero where the buffer ran out, and the rest of the
buffer. -/
def readBytes (n : Nat) (buf : List Nat) : List Nat × List Nat :=
  (buf.take n ++ List.replicate (n - buf.length) 0, buf.drop n)

/-- The number of times the loop `for i := 0; i < int(count); i++` runs for a `uint64`
count: none when the conversion to `int` is negative. -/
def loopCount (count : Nat) : Nat := if count < 2 ^ 63 then count else 0

mutual
/-- A Lua value (`lua.LValue`): a string (its bytes), a boolean, a number, a table,
or a value of another kind (nil, function, userdata, ...). -/
inductive LValue where
  | LString (s : List Nat)
  | LBool (b : Bool)
  | LNumber (f : Float64)
  | LTable (tb : LTable)
  | LOther
  deriving DecidableEq
/-- A Lua table (`*lua.LTable`): its entries, in the order `ForEach` visits them. -/
inductive LTable where
  | nil
  | cons (k v : LValue) (rest : LTable)
  deriving DecidableEq
end

/-- The number of entries `ForEach` visits (`ElementCount`). -/
def LTable.ElementCount : LTable → Nat
  | .nil => 0
  | .cons _ _ rest => rest.ElementCount + 1

/-- The keys of a table, in the order of its entries. -/
def LTable.keys : LTable → List LValue
  | .nil => []
  | .cons k _ rest => k :: rest.keys

/-- `tb.RawSet(key, value)` for a value that is not nil: the entry of `key` gets the
value, a new key is entered after the entries there are. -/
def LTable.RawSet : LTable → LValue → LValue → LTable
  | .nil, key, value => .cons key value .nil
  | .cons k v rest, key, value =>
    if k = key then .cons k value rest else .cons k v (LTable.RawSet rest key value)

/-- The type tags of the Lua serializer (`iota` from `lstringType`). -/
def lstringType : Nat := 0

/-- Tag of a boolean. -/
def lboolType : Nat := 1

/-- Tag of a number. -/
def lnumberType : Nat := 2

/-- Tag of a table. -/
def ltableTYpe : Nat := 3

section LuaSerializer

variable (VarInt : Nat → List Nat) (ReadVarInt : List Nat → Except String (Nat × List Nat))

mutual
/-- `lvalueToByte`: nil for a value of another kind. -/
def lvalueToByte : LValue → Bytes
  | .LString s => some ([lstringType] ++ VarInt s.length ++ s)
  | .LBool b => some [lboolType, if b then 1 else 0]
  | .LNumber f => some ([lnumberType] ++ Float64ToByte f)
  | .LTable tb => some ([ltableTYpe] ++ VarInt tb.ElementCount ++ tableToByte tb)
  | .LOther => none
/-- What the callback of `tb.ForEach` writes for the entries of a table. -/
def tableToByte : LTable → List Nat
  | .nil => []
  | .cons k v rest => (lvalueToByte k).content ++ (lvalueToByte v).content ++ tableToByte rest
end

mutual
/-- `byteToLValue` with a bound on the depth of its calls: the value read and the rest
of the buffer. -/
def byteToLValueFuel : Nat → List Nat → Except String (LValue × List Nat)
  | 0, _ => .error "out of fuel"
  | fuel + 1, buf =>
    match buf with
    | [] => .error "EOF"
    | tp :: buf =>
      if tp = lstringType then
        match ReadVarInt buf with
        | .error err => .error err
        | .ok (len, buf) => .ok (.LString (readBytes len buf).1, (readBytes len buf).2)
      else if tp = lboolType then
        match buf with
        | [] => .error "EOF"
        | bl :: buf => .ok (.LBool (decide (1 = bl)), buf)
      else if tp = lnumberType then
        if buf.length < 8 then .error "buf stream error"
        else .ok (.LNumber (ByteToFloat64 (buf.take 8)), buf.drop 8)
      else if tp = ltableTYpe then
        match ReadVarInt buf with
        | .error err => .error err
        | .ok (count, buf) => readEntries fuel (loopCount count) .nil buf
      else .error "not support data type"
/-- The loop of the table case of `byteToLValue`, with `count` rounds to go. -/
def readEntries : Nat → Nat → LTable → List Nat → Except String (LValue × List Nat)
  | _, 0, tb, buf => .ok (.LTable tb, buf)
  | 0, _ + 1, _, _ => .error "out of fuel"
  | fuel + 1, count + 1, tb, buf =>
    match byteToLValueFuel fuel buf with
    | .error err => .error err
    | .ok (k, buf) =>
      match byteToLValueFuel fuel buf with
      | .error err => .error err
      | .ok (v, buf) => readEntries fuel count (tb.RawSet k v) buf
end

/-- `byteToLValue`: every call reads at least one byte, so the length of the buffer
bounds the depth of the calls. -/
def byteToLValue (buf : List Nat) : Except String (LValue × List Nat) :=
  byteToLValueFuel ReadVarInt (buf.length + 1) buf

end LuaSerializer

mutual
/-- A Lua value built from strings, booleans, numbers and tables of such keys and
values, as Go holds it: lengths and counts fit an `int`, and the keys of a table
differ from one another. -/
def LValue.Serializable : LValue → Prop
  | .LString s => s.length < 2 ^ 63
  | .LBool _ => True
  | .LNumber _ => True
  | .LTable tb => tb.ElementCount < 2 ^ 63 ∧ tb.keys.Nodup ∧ LTable.Serializable tb
  | .LOther => False
/-- Every key and every value of the table is serializable. -/
def LTable.Serializable : LTable → Prop
  | .nil => True
  | .cons k v rest => LValue.Serializable k ∧ LValue.Serializable v ∧ LTable.Serializable rest
end

mutual
/-- A bound on the depth of the calls that read a value back. -/
def LValue.size : LValue → Nat
  | .LTable tb => LTable.size tb + 1
  | _ => 1
/-- The sum of the bounds of the keys and values of a table. -/
def LTable.size : LTable → Nat
  | .nil => 0
  | .cons k v rest => LValue.size k + LValue.size v + LTable.size rest
end

/-- The entries of `tb` entered after the entries of `acc`. -/
def LTable.append : LTable → LTable → LTable
  | .nil, tb => tb
  | .cons k v rest, tb => .cons k v (LTable.append rest tb)

/-- Modelled from the spec: a variable-length length prefix for the examples, seven
bits to a byte, least significant first, the high bit set on every byte but the
last (`utils.VarInt` is not part of the sources at hand). -/
def specVarIntAux : Nat → Nat → List Nat
  | 0, n => [n % 128]
  | fuel + 1, n => if n < 128 then [n] else (n % 128 + 128) :: specVarIntAux fuel (n / 128)

/-- Modelled from the spec: `utils.VarInt` for the examples. -/
def specVarInt (n : Nat) : List Nat := specVarIntAux n n

/-- Modelled from the spec: `utils.ReadVarInt` for the examples, the inverse of
`specVarInt`: the number read and the rest of the buffer. -/
def specReadVarInt : List Nat → Except String (Nat × List Nat)
  | [] => .error "EOF"
  | b :: rest =>
    if b < 128 then .ok (b, rest)
    else
      match specReadVarInt rest with
      | .ok (m, rest1) => .ok (b - 128 + 128 * m, rest1)
      | .error err => .error err

/-- A Lua table for the examples: the string key `"a"` with the value true, and the
number key with bit pattern of `1.0` with a table that holds `"k"` under `"n"`. -/
def sampleLValue : LValue :=
  .LTable (.cons (.LString [97]) (.LBool true)
    (.cons (.LNumber ⟨4607182418800017408, by decide⟩)
      (.LTable (.cons (.LString [110]) (.LString [107]) .nil)) .nil))

/-! ## Contract values: the JS serializer (`nvm/jsvm/serialize.go`) -/

mutual
/-- A JS value (`otto.Value`): a boolean, null, a number, a string (its bytes), a
plain object (class `Object`) with its properties, an object of another class with
the properties that `Keys()` lists (an array, class `Array`, whose keys are its
indices `0`, `1`, ...; a function; a date; ...), or a value that is no object
(undefined). -/
inductive JSValue where
  | JSBoolean (b : Bool)
  | JSNull
  | JSNumber (f : Float64)
  | JSString (s : List Nat)
  | JSObject (props : JSProps)
  | JSClassObject (cls : String) (props : JSProps)
  | JSOther
  deriving DecidableEq
/-- The properties of an object, in the order of `Keys()`: key and value. -/
inductive JSProps where
  | nil
  | cons (k : List Nat) (v : JSValue) (rest : JSProps)
  deriving DecidableEq
end

/-- The number of keys of an object (`len(keys)`). -/
def JSProps.length : JSProps → Nat
  | .nil => 0
  | .cons _ _ rest => rest.length + 1

/-- The keys of an object, in order. -/
def JSProps.keys : JSProps → List (List Nat)
  | .nil => []
  | .cons k _ rest => k :: rest.keys

/-- The assignment `mp[k] = v` on the Go map from which the object is made: the entry
of `k` gets the value, a new key is entered after the entries there are. -/
def JSProps.set : JSProps → List Nat → JSValue → JSProps
  | .nil, key, value => .cons key value .nil
  | .cons k v rest, key, value =>
    if k = key then .cons k value rest else .cons k v (JSProps.set rest key value)

/-- The properties of `b` entered after the properties of `a`. -/
def JSProps.append : JSProps → JSProps → JSProps
  | .nil, b => b
  | .cons k v rest, b => .cons k v (JSProps.append rest b)

/-- The type tags of the JS serializer (`iota` from `stringType`). -/
def stringType : Nat := 0

/-- Tag of a boolean. -/
def boolType : Nat := 1

/-- Tag of a number. -/
def numberType : Nat := 2

/-- Tag of an object. -/
def objectType : Nat := 3

/-- Tag of null. -/
def nullType : Nat := 4

section JSSerializer

variable (VarInt : Nat → List Nat) (ReadVarInt : List Nat → Except String (Nat × List Nat))

mutual
/-- `jsvalueToByte`: the bytes returned, nil for a value that is no object.  The
branch `IsObject()` takes an object of any class and writes its keys and their
values, so an array is written as the plain object with its indices as keys.  The
error is always nil: `ToBoolean`, `ToFloat` and `ToString` do not fail on a value
of the kind just tested. -/
def jsvalueToByte : JSValue → Bytes
  | .JSBoolean v => some [boolType, if v then 1 else 0]
  | .JSNull => some [nullType]
  | .JSNumber v => some ([numberType] ++ Float64ToByte v)
  | .JSString v => some ([stringType] ++ VarInt v.length ++ v)
  | .JSObject props => some ([objectType] ++ VarInt props.length ++ propsToByte props)
  | .JSClassObject _ props => some ([objectType] ++ VarInt props.length ++ propsToByte props)
  | .JSOther => none
/-- The loop of the object case of `jsvalueToByte`: key, then value. -/
def propsToByte : JSProps → List Nat
  | .nil => []
  | .cons k v rest => VarInt k.length ++ k ++ (jsvalueToByte v).content ++ propsToByte rest
end

mutual
/-- `byteToJSvalue` with a bound on the depth of its calls: the value read and the rest
of the buffer.  The object case returns `ottoVM.ToValue(mp)` for the Go map `mp`,
a plain object whatever the class of the object written. -/
def byteToJSvalueFuel : Nat → List Nat → Except String (JSValue × List Nat)
  | 0, _ => .error "out of fuel"
  | fuel + 1, buf =>
    match buf with
    | [] => .error "EOF"
    | tp :: buf =>
      if tp = stringType then
        match ReadVarInt buf with
        | .error err => .error err
        | .ok (len, buf) => .ok (.JSString (readBytes len buf).1, (readBytes len buf).2)
      else if tp = boolType then
        match buf with
        | [] => .error "EOF"
        | b :: buf => .ok (.JSBoolean (decide (b = 1)), buf)
      else if tp = numberType then
        if buf.length < 8 then .error "buf stream error"
        else .ok (.JSNumber (ByteToFloat64 (buf.take 8)), buf.drop 8)
      else if tp = nullType then .ok (.JSNull, buf)
      else if tp = objectType then
        match ReadVarInt buf with
        | .error err => .error err
        | .ok (count, buf) => readProps fuel (loopCount count) .nil buf
      else .ok (.JSNull, buf)
/-- The loop of the object case of `byteToJSvalue`, with `count` rounds to go. -/
def readProps : Nat → Nat → JSProps → List Nat → Except String (JSValue × List Nat)
  | _, 0, mp, buf => .ok (.JSObject mp, buf)
  | 0, _ + 1, _, _ => .error "out of fuel"
  | fuel + 1, count + 1, mp, buf =>
    match ReadVarInt buf with
    | .error err => .error err
    | .ok (len, buf) =>
      match byteToJSvalueFuel fuel (readBytes len buf).2 with
      | .error err => .error err
      | .ok (v, buf1) => readProps fuel count (mp.set (readBytes len buf).1 v) buf1
end

/-- `byteToJSvalue`: every call reads at least one byte, so the length of the buffer
bounds the depth of the calls. -/
def byteToJSvalue (buf : List Nat) : Except String (JSValue × List Nat) :=
  byteToJSvalueFuel ReadVarInt (buf.length + 1) buf

end JSSerializer

mutual
/-- A JS value built from strings, booleans, numbers, null and plain objects of such
property values, as Go holds it: lengths and counts fit an `int`, and the keys of
an object differ from one another.  An array, or another object that is not of
class `Object`, is not among them, at any depth. -/
def JSValue.Serializable : JSValue → Prop
  | .JSBoolean _ => True
  | .JSNull => True
  | .JSNumber _ => True
  | .JSString s => s.length < 2 ^ 63
  | .JSObject props => props.length < 2 ^ 63 ∧ props.keys.Nodup ∧ JSProps.Serializable props
  | .JSClassObject _ _ => False
  | .JSOther => False
/-- Every key and every value of the object is serializable. -/
def JSProps.Serializable : JSProps → Prop
  | .nil => True
  | .cons k v rest => k.length < 2 ^ 63 ∧ JSValue.Serializable v ∧ JSProps.Serializable rest
end

mutual
/-- A bound on the depth of the calls that read a value back. -/
def JSValue.size : JSValue → Nat
  | .JSObject props => JSProps.size props + 1
  | _ => 1
/-- The sum of the bounds of the values of an object, one more for each key. -/
def JSProps.size : JSProps → Nat
  | .nil => 0
  | .cons _ v rest => JSValue.size v + JSProps.size rest + 1
end

/-- The JS array `[true]` for the examples: class `Array`, the one key `0`. -/
def sampleJSArray : JSValue := .JSClassObject "Array" (.cons [48] (.JSBoolean true) .nil)

/-- A JS object for the examples: `a` is true, `n` is null, `o` is an object whose `s`
is the string `k`. -/
def sampleJSValue : JSValue :=
  .JSObject (.cons [97] (.JSBoolean true)
    (.cons [110] .JSNull
      (.cons [111] (.JSObject (.cons [115] (.JSString [107]) .nil)) .nil)))

/-! ## Values of both script flavours -/

mutual
/-- A value that both flavours can hold: a string, a boolean, a number, or a table
(Lua) or object (JS) with string keys over such values. -/
inductive SValue where
  | SString (s : List Nat)
  | SBool (b : Bool)
  | SNumber (f : Float64)
  | STable (entries : SEntries)
/-- The entries of such a table: key and value. -/
inductive SEntries where
  | nil
  | cons (k : List Nat) (v : SValue) (rest : SEntries)
end

mutual
/-- The value as a Lua value. -/
def SValue.toLua : SValue → LValue
  | .SString s => .LString s
  | .SBool b => .LBool b
  | .SNumber f => .LNumber f
  | .STable entries => .LTable (SEntries.toLua entries)
/-- The entries as a Lua table with string keys. -/
def SEntries.toLua : SEntries → LTable
  | .nil => .nil
  | .cons k v rest => .cons (.LString k) (SValue.toLua v) (SEntries.toLua rest)
end

mutual
/-- The value as a JS value. -/
def SValue.toJS : SValue → JSValue
  | .SString s => .JSString s
  | .SBool b => .JSBoolean b
  | .SNumber f => .JSNumber f
  | .STable entries => .JSObject (SEntries.toJS entries)
/-- The entries as the properties of a JS object. -/
def SEntries.toJS : SEntries → JSProps
  | .nil => .nil
  | .cons k v rest => .cons k (SValue.toJS v) (SEntries.toJS rest)
end

mutual
/-- The number of table entries in a value, at every depth. -/
def SValue.entryCount : SValue → Nat
  | .STable entries => SEntries.entryCount entries
  | _ => 0
/-- The number of entries of a table, those of nested tables included. -/
def SEntries.entryCount : SEntries → Nat
  | .nil => 0
  | .cons _ v rest => SValue.entryCount v + SEntries.entryCount rest + 1
end

/-! ## Validator: request batches (`makeRequestBatch`) -/

/-- Modelled from the spec: `SortedLinkedList.IterElement`, of a package outside the
sources at hand: the callback is called on the elements in the order of the list
until it returns `true`.  The callback is a closure; `S` is the state of the
variables it captures, returned as they stand after the last call. -/
def IterElement {S E : Type} (f : S → E → Bool × S) : S → List E → S
  | s, [] => s
  | s, element :: rest =>
    match f s element with
    | (true, s1) => s1
    | (false, s1) => IterElement f s1 rest

/-- The variables of `makeRequestBatch` that its callback captures; `to_` is the
variable `to`. -/
structure RequestBatch where
  requestBatch : List Transaction
  to_ : String

section MakeRequestBatch

variable {J : Type} (env : ValidatorEnv J) (BatchSize : Int)

/-- The callback of `makeRequestBatch` (lines 105-114): the value it returns and the
captured variables after the call.  `BatchSize` is `v.consenter.BatchSize()`. -/
def requestBatchStep (s : RequestBatch) (tx : Transaction) : Bool × RequestBatch :=
  let to_ := if s.to_ = "" then env.ToChain tx else s.to_
  if env.ToChain tx = to_ ∧ (s.requestBatch.length : Int) ≤ BatchSize then
    (false, { requestBatch := s.requestBatch ++ [tx], to_ := to_ })
  else (true, { requestBatch := s.requestBatch, to_ := to_ })

/-- `Verification.makeRequestBatch` on a mempool whose iteration order is `txpool`
(the reset of the timer carries no data). -/
def makeRequestBatch (txpool : List Transaction) : List Transaction :=
  (IterElement (requestBatchStep env BatchSize) { requestBatch := [], to_ := "" } txpool).requestBatch

end MakeRequestBatch

/-- The environment of the examples with one more transaction: transaction 0 names no
destination chain (its `ToChain` is the empty string). -/
def batchEnv : ValidatorEnv JVal :=
  { sampleEnv with ToChain := fun tx => if tx.id = 0 then "" else sampleEnv.ToChain tx }

/-! ## Blockchain coordinator (`core/blockchain/blockchain.go`) -/

/-- A hash (`crypto.Hash`), held as its bytes. -/
abbrev Hash := List Nat

/-- Modelled from the spec: `types.BlockHeader`, of a package outside the sources at
hand, with the fields that `types.NewBlock` is given. -/
structure BlockHeader where
  PreviousHash : Hash
  TimeStamp : Nat
  Height : Nat
  Nonce : Nat
  TxsMerkleHash : Hash
  deriving DecidableEq, Repr

/-- Modelled from the spec: `types.Block`, a header and the transactions. -/
structure Block where
  Header : BlockHeader
  Transactions : List Transaction
  deriving DecidableEq, Repr

/-- Modelled from the spec: `types.NewBlock`, which records its arguments. -/
def NewBlock (previousHash : Hash) (timeStamp height nonce : Nat) (txsMerkleHash : Hash)
    (txs : List Transaction) : Block :=
  { Header :=
      { PreviousHash := previousHash, TimeStamp := timeStamp, Height := height, Nonce := nonce
        TxsMerkleHash := txsMerkleHash }
    Transactions := txs }

/-- A consensus output (`consensus.OutputTxs`): the committed transactions, their
height and their time. -/
structure OutputTxs where
  Txs : List Transaction
  Height : Nat
  Time : Nat
  deriving DecidableEq, Repr

/-- The state of a `Blockchain` and of the package counters its consensus loop
updates.  `L` is the state of the ledger.  `orphans` holds the values of the
elements of the `container/list`, front first; the counters are `int64` in the
code and are kept without wrap-around, which they do not reach. -/
structure Blockchain (L : Type) where
  currentBlockHeader : BlockHeader
  ledger : L
  orphans : List OutputTxs
  synced : Bool
  allBlockCnt : Nat
  allTransactionCnt : Nat

/-- What the coordinator calls and the sources at hand do not define: the hash of a
header, the height the ledger reports (`ledger.Height()`, whose error the loop
drops) and the network stack.  `Relay` gives the current header and the ledger
after the call `bc.pm.Relay(blk)`: whatever the network does with the block, it
reaches the coordinator through these two only. -/
structure ChainEnv (L : Type) where
  Hash : BlockHeader → Hash
  Height : L → Nat
  Relay : BlockHeader × L → Block → BlockHeader × L

/-- `Ledger.AppendBlock` (`core/ledger/ledger.go`): in the sources at hand the whole
body is commented out and the method returns nil, so the ledger stays as it is. -/
def AppendBlock {L : Type} (ledger : L) (_block : Block) (_flag : Bool) : L := ledger

section Coordinator

variable {L : Type} (env : ChainEnv L)

/-- `Blockchain.GenerateBlock`; the Merkle root is the zero hash. -/
def GenerateBlock (bc : Blockchain L) (txs : List Transaction) (createTime : Nat) : Block :=
  NewBlock (env.Hash bc.currentBlockHeader) createTime
    ((bc.currentBlockHeader.Height + 1) % 2 ^ 32) 100 (List.replicate 32 0) txs

/-- `Blockchain.processConsensusOutput`. -/
def processConsensusOutput (bc : Blockchain L) (output : OutputTxs) : Blockchain L :=
  let blk := GenerateBlock env bc output.Txs output.Time
  if blk.Header.Height = output.Height then
    let r := env.Relay (bc.currentBlockHeader, bc.ledger) blk
    { bc with currentBlockHeader := r.1, ledger := r.2 }
  else bc

/-- `Blockchain.ProcessBlock`: the result and the coordinator after the call
(`notify.BlockNotify` leaves it alone). -/
def ProcessBlock (bc : Blockchain L) (blk : Block) (flag : Bool) : Bool × Blockchain L :=
  if blk.Header.PreviousHash = env.Hash bc.currentBlockHeader then
    (true, { bc with ledger := AppendBlock bc.ledger blk flag, currentBlockHeader := blk.Header })
  else (false, bc)

/-- Go `(*list.List).Front` on a list of `len` elements: the position of the first
element, or nil for an empty list. -/
def listFront (len : Nat) : Option Nat := if len = 0 then none else some 0

/-- Go `(*list.Element).Next` for the element that stands, or stood until the loop
body removed it, at position `i`.  `Remove` clears the `next`, `prev` and `list`
fields of the element it unlinks, so `Next` of a removed element is nil; `len` is
the length of the list now. -/
def elementNext (len i : Nat) (removed : Bool) : Option Nat :=
  if removed then none else if i + 1 < len then some (i + 1) else none

/-- The variables of the orphan loop: the coordinator, the local `height`, and the
outputs handed to `processConsensusOutput` so far. -/
structure Drain (L : Type) where
  bc : Blockchain L
  height : Nat
  log : List OutputTxs

/-- The loop over the orphan list (lines 198-209), from the element `elem` on;
`fuel` bounds the number of iterations. -/
def drainOrphans : Nat → Option Nat → Drain L → Drain L
  | 0, _, st => st
  | _ + 1, none, st => st
  | fuel + 1, some i, st =>
    match st.bc.orphans[i]? with
    | none => st
    | some ocommitedTxs =>
      if ocommitedTxs.Height < st.height then
        let bc1 : Blockchain L := { st.bc with orphans := st.bc.orphans.eraseIdx i }
        drainOrphans fuel (elementNext bc1.orphans.length i true) { st with bc := bc1 }
      else if ocommitedTxs.Height = st.height then
        let bc1 : Blockchain L := { st.bc with orphans := st.bc.orphans.eraseIdx i }
        let bc2 := processConsensusOutput env bc1 ocommitedTxs
        drainOrphans fuel (elementNext bc2.orphans.length i true)
          { bc := bc2, height := (st.height + 1) % 2 ^ 32, log := st.log ++ [ocommitedTxs] }
      else st

/-- The branches of one iteration of the loop of `StartConsensusService` (lines
186-214) for the output `commitedTxs`: the coordinator afterwards and the outputs
handed to `processConsensusOutput`, in order. -/
def consensusBranch (bc : Blockchain L) (commitedTxs : OutputTxs) :
    Blockchain L × List OutputTxs :=
  let height := (env.Height bc.ledger + 1) % 2 ^ 32
  if commitedTxs.Height = height then
    let bc1 : Blockchain L := if !bc.synced then { bc with synced := true } else bc
    (processConsensusOutput env bc1 commitedTxs, [commitedTxs])
  else if commitedTxs.Height > height then
    let bc1 : Blockchain L := { bc with orphans := bc.orphans ++ [commitedTxs] }
    let st := drainOrphans env (bc1.orphans.length + 1) (listFront bc1.orphans.length)
      { bc := bc1, height := height, log := [] }
    if st.bc.orphans.length > 100 then
      ({ st.bc with orphans := st.bc.orphans.tail }, st.log)
    else (st.bc, st.log)
  else (bc, [])

/-- One iteration of the loop of `StartConsensusService` (lines 182-227): the
branches, then the statistics.  `none` is the panic of the integer division
`allProcessBlock.Nanoseconds() / allTransactionCnt` by zero, which the
statistics reach at every tenth output while no output has carried a
transaction. -/
def consensusOutput (bc : Blockchain L) (commitedTxs : OutputTxs) :
    Option (Blockchain L × List OutputTxs) :=
  let r := consensusBranch env bc commitedTxs
  let bc2 : Blockchain L :=
    { r.1 with
      allBlockCnt := r.1.allBlockCnt + 1
      allTransactionCnt := r.1.allTransactionCnt + commitedTxs.Txs.length }
  if bc2.allBlockCnt % 10 = 0 ∧ bc2.allTransactionCnt = 0 then none else some (bc2, r.2)

/-- The loop of `StartConsensusService` on the outputs that arrive on the channel, in
arrival order: the coordinator after the last one and all the outputs handed to
`processConsensusOutput`, in order. -/
def consensusLoop : Blockchain L → List OutputTxs → Option (Blockchain L × List OutputTxs)
  | bc, [] => some (bc, [])
  | bc, commitedTxs :: rest =>
    match consensusOutput env bc commitedTxs with
    | none => none
    | some (bc1, log1) =>
      match consensusLoop bc1 rest with
      | none => none
      | some (bcF, log2) => some (bcF, log1 ++ log2)

end Coordinator

/-- A chain for the examples: the ledger is its own height, a header hashes to its
height and its time, and a relayed block becomes the tip at once: the current
header is the header of the block and the ledger is as high as the block. -/
def sampleChainEnv : ChainEnv Nat :=
  { Hash := fun h => [h.Height, h.TimeStamp]
    Height := fun l => l
    Relay := fun _ blk => (blk.Header, blk.Header.Height) }

/-- A coordinator at height 1 with an empty orphan list. -/
def sampleChain : Blockchain Nat :=
  { currentBlockHeader := ⟨[], 0, 1, 100, List.replicate 32 0⟩
    ledger := 1
    orphans := []
    synced := false
    allBlockCnt := 0
    allTransactionCnt := 0 }

/-- The consensus output of height `h` in the examples: one transaction, time `h`. -/
def sampleOutput (h : Nat) : OutputTxs := { Txs := [⟨h⟩], Height := h, Time := h }

/-- A coordinator at height 1 whose orphan list is full: it holds the outputs of the
heights 10 to 109. -/
def fullChain : Blockchain Nat :=
  { sampleChain with orphans := (List.range 100).map (fun i => sampleOutput (i + 10)) }

/-- The coordinator `fullChain` after the output of height 200 has arrived. -/
def fullChainAfter : Blockchain Nat :=
  { fullChain with
    orphans := fullChain.orphans.tail ++ [sampleOutput 200]
    allBlockCnt := 1
    allTransactionCnt := 1 }

/-! ## Balances of an address (`GetBalanceStates`) -/

/-- Go `strconv.ParseUint(s, 10, 32)`: the value of a non-empty string of decimal
digits that is below `2^32`; a sign, any other character, the empty string and a
greater value are errors. -/
def ParseUint32 (s : String) : Except String Nat :=
  if s.data = [] then .error "invalid syntax"
  else if s.data.all Char.isDigit then
    let n := s.data.foldl (fun n c => n * 10 + (c.toNat - 48)) 0
    if n < 2 ^ 32 then .ok n else .error "value out of range"
  else .error "invalid syntax"

/-- The map `GetBalanceStates` returns: its keys, and the one `big.Int` (the variable
`amount`) that the entry of every key points to. -/
structure Balances where
  ids : List Nat
  amount : Int
  deriving DecidableEq, Repr

/-- The balance the returned map shows for an asset. -/
def Balances.get? (b : Balances) (assetID : Nat) : Option Int :=
  if assetID ∈ b.ids then some b.amount else none

/-- The last loop of `GetBalanceStates` (lines 241-249) over the entries of `ret`
still to visit; `amount.SetBytes(v)` overwrites the one `amount`. -/
def balancesLoop : List (String × Bytes) → Balances → Except String Balances
  | [], balances => .ok balances
  | (k, v) :: rest, balances =>
    if v.isSome then
      match ParseUint32 k with
      | .error err => .error err
      | .ok assetID =>
        balancesLoop rest
          { ids := if assetID ∈ balances.ids then balances.ids else assetID :: balances.ids
            amount := bigSetBytes v }
    else balancesLoop rest balances

section BalanceStates

variable (ConstructCompositeKey : String → String → String) (dbHandler : BlockchainDB)
variable {T : Type} (treap : TreapOps T)

/-- `BLKRWSet.GetBalanceStates`; `pfx` is the variable `prefix`. -/
def GetBalanceStates (blk : BLKRWSet) (addr : String) (committed : Bool) :
    Except String Balances :=
  let pfx := ConstructCompositeKey addr ""
  let dbValues := dbHandler.GetByPrefix blk.balanceCF pfx
  let ret := dbValues.foldl (fun ret kv => ret.set kv.Key kv.Value) KVMap.empty
  let ret :=
    if !committed then
      let cache := blk.balanceSet.Reads.range.foldl
        (fun cache e => if HasPrefix e.1 pfx then treap.Put cache e.1 e.2.Value else cache)
        treap.NewImmutable
      let cache := blk.balanceSet.Writes.range.foldl
        (fun cache e => if HasPrefix e.1 pfx then treap.Put cache e.1 e.2.Value else cache)
        cache
      ((treap.Iterator cache pfx none).takeWhile (fun e => HasPrefix e.1 pfx)).foldl
        rangeOverlayStep ret
    else ret
  balancesLoop ret.1 { ids := [], amount := 0 }

end BalanceStates

/-- A second composite key for the examples: namespace and key joined by the
character of code zero, so that the key of `(ns, "")` is a prefix of every key of
the namespace `ns`. -/
def sepCompositeKey (ns key : String) : String := ns ++ "\x00" ++ key

/-! ## The JS worker (`vm/jsvm/jsvm.go`)

The types of package `vm` (`WorkerProc`, `ContractData`, the handler interface) and
the interpreter are outside the sources at hand.  A `*vm.WorkerProc` is an address
into a heap of worker procedures, so that the worker and a job may hold the same
one; a handler is known by its identity. -/

/-- A value of type `interface{}` that the worker passes on. -/
inductive GoValue where
  | nil
  | bool (b : Bool)
  | str (s : String)
  | bytes (b : Bytes)
  deriving DecidableEq, Repr

/-- The fields of `vm.ContractData` that the worker reads. -/
structure ContractData where
  ContractCode : String
  ContractAddr : String
  ContractParams : List String
  Transaction : Transaction
  deriving DecidableEq, Repr

/-- The fields of `vm.WorkerProc` that the worker reads and writes; a nil handler and
a nil `*ContractData` are `none`.  The two queues are known by their entries. -/
structure WorkerProc where
  L0Handler : Option Nat
  ContractData : Option ContractData
  StateChangeQueue : List String
  TransferQueue : List String
  deriving DecidableEq, Repr

/-- The value `state.CallBackResponse`. -/
structure CallBackResponse where
  IsCanRedo : Bool
  Err : Option String
  Result : GoValue
  deriving DecidableEq, Repr

/-- A call of a handler, as the worker made it: `Transfer` with its argument, or
`CallBack` with its argument and the error it returned. -/
inductive JsEvent where
  | transfer (handler : Nat) (tx : Transaction)
  | callBack (handler : Nat) (response : CallBackResponse) (err : Option String)
  deriving DecidableEq, Repr

/-- The state of a `JsWorker`: its fields `isInit`, `isCanRedo` and `workerProc` (an
address), the heap of worker procedures, the state `W` of everything the handlers
and the interpreter see, and the calls of handlers made so far. -/
structure JsWorker (W : Type) where
  isInit : Bool
  isCanRedo : Bool
  workerProc : Nat
  heap : Nat → WorkerProc
  world : W
  log : List JsEvent

/-- Why a call into the worker did not return: a run-time panic (a nil handler, a nil
`*ContractData`, a failed type assertion), or the bound on nested calls of the
model. -/
inductive JsFail where
  | panic
  | outOfFuel
  deriving DecidableEq, Repr

/-- What the worker calls and the sources at hand do not define, each with the state
`W` before and after the call: the type of a transaction, the methods `Transfer`
and `CallBack` of a handler, `exporter`, the run of a contract function by the
interpreter (`execContract`, which recovers from panics itself), and the calls
into the state of the contract (`StoreContractCode`, `GetContractCode`,
`CCallCommit`). -/
structure JsEnv (W : Type) where
  GetType : Transaction → TxType
  Transfer : W → Nat → Transaction → Option String × W
  CallBack : W → Nat → CallBackResponse → Option String × W
  exporter : W → WorkerProc → W
  execContract : W → Option ContractData → String → (GoValue × Option String) × W
  StoreContractCode : W → WorkerProc → W
  GetContractCode : W → WorkerProc → Except String String × W
  CCallCommit : W → WorkerProc → Option String × W

/-- `JsWorker.workerInit` on a new worker: `workerProc` is the address `fresh` of an
empty `vm.WorkerProc`. -/
def workerInit {W : Type} (world : W) (heap : Nat → WorkerProc) (fresh : Nat) : JsWorker W :=
  { isInit := true
    isCanRedo := false
    workerProc := fresh
    heap := fun p => if p = fresh then ⟨none, none, [], []⟩ else heap p
    world := world
    log := [] }

section JsWorker

variable {W : Type} (env : JsEnv W)

/-- `JsWorker.txTransfer`: the error returned and the worker after the call. -/
def txTransfer (worker : JsWorker W) : Except JsFail (Option String × JsWorker W) :=
  match (worker.heap worker.workerProc).L0Handler,
    (worker.heap worker.workerProc).ContractData with
  | some handler, some cd =>
    let r := env.Transfer worker.world handler cd.Transaction
    .ok (r.1.map (fun err => "Transfer failed..., err_msg: " ++ err),
      { worker with world := r.2, log := worker.log ++ [.transfer handler cd.Transaction] })
  | _, _ => .error .panic

/-- `JsWorker.resetProc`. -/
def resetProc (worker : JsWorker W) (wp : Nat) : JsWorker W :=
  { worker with
    workerProc := wp
    world := env.exporter worker.world (worker.heap wp)
    heap := fun p =>
      if p = wp then { worker.heap wp with StateChangeQueue := [], TransferQueue := [] }
      else worker.heap p }

/-- The common end of `InitContract` and `InvokeExecute`: run the contract function,
then commit. -/
def execAndCommit (worker : JsWorker W) (wp : Nat) (funcName : String) :
    Except JsFail ((GoValue × Option String) × JsWorker W) :=
  let r := env.execContract worker.world (worker.heap wp).ContractData funcName
  let worker1 : JsWorker W := { worker with world := r.2 }
  match r.1.1 with
  | .bool ok =>
    if !ok || r.1.2.isSome then .ok ((.bool ok, r.1.2), worker1)
    else
      let c := env.CCallCommit worker1.world (worker1.heap worker1.workerProc)
      let worker2 : JsWorker W := { worker1 with world := c.2 }
      match c.1 with
      | some err => .ok ((.bool false, some err), worker2)
      | none => .ok ((.bool ok, none), worker2)
  | _ => .error .panic

/-- `JsWorker.InitContract`. -/
def InitContract (worker : JsWorker W) (wp : Nat) :
    Except JsFail ((GoValue × Option String) × JsWorker W) :=
  match txTransfer env worker with
  | .error f => .error f
  | .ok (some err, worker1) => .ok ((.nil, some err), worker1)
  | .ok (none, worker1) =>
    let worker2 := resetProc env worker1 wp
    match (worker2.heap worker2.workerProc).ContractData with
    | none => .error .panic
    | some _ =>
      let worker3 : JsWorker W :=
        { worker2 with
          world := env.StoreContractCode worker2.world (worker2.heap worker2.workerProc) }
      execAndCommit env worker3 wp "L0Init"

/-- `JsWorker.InvokeExecute`. -/
def InvokeExecute (worker : JsWorker W) (wp : Nat) :
    Except JsFail ((GoValue × Option String) × JsWorker W) :=
  match txTransfer env worker with
  | .error f => .error f
  | .ok (some err, worker1) => .ok ((.nil, some err), worker1)
  | .ok (none, worker1) =>
    let worker2 := resetProc env worker1 wp
    match (worker2.heap wp).ContractData with
    | none => .error .panic
    | some cd =>
      if cd.ContractCode.length = 0 then
        let g := env.GetContractCode worker2.world (worker2.heap worker2.workerProc)
        let worker3 : JsWorker W := { worker2 with world := g.2 }
        match g.1 with
        | .error _ => .ok ((.nil, some "can't get contract code"), worker3)
        | .ok code =>
          let worker4 : JsWorker W :=
            { worker3 with
              heap := fun p =>
                if p = wp then
                  { worker3.heap wp with ContractData := some { cd with ContractCode := code } }
                else worker3.heap p }
          execAndCommit env worker4 wp "L0Invoke"
      else execAndCommit env worker2 wp "L0Invoke"

/-- `JsWorker.QueryContract`. -/
def QueryContract (worker : JsWorker W) (wp : Nat) :
    Except JsFail ((GoValue × Option String) × JsWorker W) :=
  let worker1 := resetProc env worker wp
  let r := env.execContract worker1.world (worker1.heap wp).ContractData "L0Query"
  let worker2 : JsWorker W := { worker1 with world := r.2 }
  match r.1.2 with
  | some err => .ok ((.bytes none, some err), worker2)
  | none =>
    match r.1.1 with
    | .str s => .ok ((.bytes (some (s.toUTF8.toList.map UInt8.toNat)), none), worker2)
    | _ => .error .panic

/-- `JsWorker.requestHandle`. -/
def requestHandle (worker : JsWorker W) (wp : Nat) :
    Except JsFail ((GoValue × Option String) × JsWorker W) :=
  match (worker.heap wp).ContractData with
  | none => .error .panic
  | some cd =>
    let txType := env.GetType cd.Transaction
    if txType = .TypeJSContractInit then InitContract env worker wp
    else if txType = .TypeContractInvoke then InvokeExecute env worker wp
    else if txType = .TypeContractQuery then QueryContract env worker wp
    else .ok ((.nil, some "luavm no method match transaction type"), worker)

/-- `JsWorker.ExecJob` for the job `data`, the address of its `WorkerProc`; `fuel`
bounds the depth of the nested calls of `ExecJob`. -/
def ExecJob : Nat → JsWorker W → Nat → Except JsFail (GoValue × JsWorker W)
  | 0, _, _ => .error .outOfFuel
  | fuel + 1, worker, data =>
    match requestHandle env worker data with
    | .error f => .error f
    | .ok ((result, err), worker1) =>
      match (worker1.heap data).L0Handler with
      | none => .error .panic
      | some handler =>
        let response : CallBackResponse :=
          { IsCanRedo := !worker1.isCanRedo, Err := err, Result := result }
        let r := env.CallBack worker1.world handler response
        let worker2 : JsWorker W :=
          { worker1 with world := r.2, log := worker1.log ++ [.callBack handler response r.1] }
        if r.1.isSome && !worker2.isCanRedo then
          match ExecJob fuel { worker2 with isCanRedo := true } data with
          | .error f => .error f
          | .ok (_, worker3) => .ok (result, worker3)
        else .ok (result, worker2)

/-- `JsWorker.VmJob`. -/
def VmJob (fuel : Nat) (worker : JsWorker W) (data : Nat) :
    Except JsFail (GoValue × JsWorker W) :=
  ExecJob env fuel { worker with isCanRedo := false } data

end JsWorker

/-- The `CallBack` events of a list of events, in order. -/
def callBacks : List JsEvent → List (CallBackResponse × Option String)
  | [] => []
  | .transfer _ _ :: rest => callBacks rest
  | .callBack _ response err :: rest => (response, err) :: callBacks rest

/-- The worker `w1` is `w` after calls that leave `isCanRedo` alone and call no
`CallBack`. -/
def Extends {W : Type} (w w1 : JsWorker W) : Prop :=
  w1.isCanRedo = w.isCanRedo ∧ ∃ evs, w1.log = w.log ++ evs ∧ callBacks evs = []

/-- The `Transfer` events of a list of events, in order. -/
def transfers : List JsEvent → List (Nat × Transaction)
  | [] => []
  | .transfer handler tx :: rest => (handler, tx) :: transfers rest
  | .callBack _ _ _ :: rest => transfers rest

/-- An environment for the examples: the state `W` counts the calls of `CallBack`;
transaction 1 is a query, transaction 3 an initialisation, every other one an
invocation; every transfer succeeds, every contract function returns `true`, a
query returns the text `"r"`; the handler 9 reports an error from every
`CallBack`, every other handler none. -/
def sampleJsEnv : JsEnv Nat :=
  { GetType := fun tx =>
      if tx.id = 1 then .TypeContractQuery else if tx.id = 3 then .TypeJSContractInit
      else .TypeContractInvoke
    Transfer := fun w _ _ => (none, w)
    CallBack := fun w handler _ => (if handler = 9 then some "conflict" else none, w + 1)
    exporter := fun w _ => w
    execContract := fun w _ funcName =>
      ((if funcName = "L0Query" then .str "r" else .bool true, none), w)
    StoreContractCode := fun w _ => w
    GetContractCode := fun w _ => (.ok "code", w)
    CCallCommit := fun w _ => (none, w) }

/-- The heap of the examples: at the address `n` the job of handler `n` for
transaction `n`, with the code `"c"`. -/
def sampleHeap : Nat → WorkerProc :=
  fun n => ⟨some n, some ⟨"c", "", [], ⟨n⟩⟩, [], []⟩

/-- A new worker for the examples; its empty `WorkerProc` is at address 0. -/
def sampleWorker : JsWorker Nat := workerInit 0 sampleHeap 0

/-- The worker of the examples after a query for the job at address 1: its
`workerProc` is that job. -/
def usedWorker : JsWorker Nat := resetProc sampleJsEnv sampleWorker 1

/-! ## The block that `merge` leaves behind -/

/-- The block after the tail of `merge` (lines 479-494), also when the send on `exit`
does not complete: the lists and the counter are assigned before the send. -/
def mergeFinishBlock (blk : BLKRWSet) (rejected : Bool) (tx : Transaction)
    (ttxs : Option (List Transaction)) (txIndex : Nat) : BLKRWSet :=
  let blk1 : BLKRWSet :=
    if rejected then { blk with errTxs := blk.errTxs ++ [tx] }
    else { blk with txs := blk.txs ++ [tx], transferTxs := blk.transferTxs ++ ttxs.getD [] }
  let blk2 : BLKRWSet := { blk1 with curTxIndex := (txIndex + 1) % 2 ^ 32 }
  if blk2.waiting && blk2.TxIndex == blk2.curTxIndex then
    if blk2.exit < 1 then { blk2 with exit := blk2.exit + 1 } else blk2
  else blk2

/-- The block as a call of `merge` leaves it, however the call ends.  The three read
loops (lines 440-465) assign to nothing, so a call that ends in them, by a
conflict or by the panic of a nil candidate, leaves the block as it was; a write
loop that panics on a nil map of the block has assigned nothing itself, and the
loops before it have done their work. -/
def mergeBlock (blk : BLKRWSet) (chainCodeSet assetSet balanceSet : Option KVRWSet)
    (tx : Transaction) (ttxs : Option (List Transaction)) (txIndex : Nat) : BLKRWSet :=
  match chainCodeSet with
  | none => blk
  | some cc =>
  match readConflict blk.chainCodeSet.Reads cc.Reads with
  | some _ => blk
  | none =>
  match assetSet with
  | none => blk
  | some as =>
  match readConflict blk.assetSet.Reads as.Reads with
  | some _ => blk
  | none =>
  match balanceSet with
  | none => blk
  | some bs =>
  match readConflict blk.balanceSet.Reads bs.Reads with
  | some _ => blk
  | none =>
  match overlayWrites blk.chainCodeSet.Writes cc.Writes.range with
  | none => blk
  | some ccW =>
  let blk1 : BLKRWSet := { blk with chainCodeSet := { blk.chainCodeSet with Writes := ccW } }
  match overlayWrites blk.assetSet.Writes as.Writes.range with
  | none => blk1
  | some asW =>
  let blk2 : BLKRWSet := { blk1 with assetSet := { blk.assetSet with Writes := asW } }
  match overlayWrites blk.balanceSet.Writes bs.Writes.range with
  | none => blk2
  | some bsW =>
  mergeFinishBlock
    { blk2 with balanceSet := { blk.balanceSet with Writes := bsW } }
    (chainCodeSet.isNone && assetSet.isNone && bs.Reads.isNil && ttxs.isNone)
    tx ttxs txIndex

/-- A block that has read the contract key `"k"` with the byte 1 and has one accepted
transaction, with a waiting committer. -/
def readBlock : BLKRWSet :=
  { NewBLKRWSet with
    chainCodeSet :=
      { Reads := .made (KVMap.empty.set "k" ⟨some [1]⟩), Writes := .made KVMap.empty }
    txs := [⟨1⟩]
    TxIndex := 2
    curTxIndex := 1
    waiting := true }

/-- A candidate set that has read the key `"k"` with the byte 2 and writes the key
`"w"`. -/
def staleSet : KVRWSet :=
  { Reads := .made (KVMap.empty.set "k" ⟨some [2]⟩)
    Writes := .made (KVMap.empty.set "w" ⟨some [3], false⟩) }

/-! ## Write entries and the blocks the methods lead to -/

/-- Every tombstone of a write set carries no value.  This is how the entries are
built throughout `blkrwset.go`: the setters store `IsDelete: false`, the deleters
`Value: nil` with `IsDelete: true`. -/
def TombstonesNil (writes : GoMap KVWrite) : Prop :=
  ∀ k w, writes.get? k = some w → w.IsDelete = true → w.Value = none

section BlockMethods

variable (ConstructCompositeKey : String → String → String) (Serialize : Asset → Bytes)

/-- `BLKRWSet.DelBalanceState`; `none` is the panic of assigning into a nil map. -/
def DelBalanceState (blk : BLKRWSet) (addr : String) (assetID : Nat) : Option BLKRWSet :=
  let ckey := ConstructCompositeKey addr (toString assetID ++ assetIDKeySuffix)
  match blk.balanceSet.Writes.set ckey { Value := none, IsDelete := true } with
  | none => none
  | some w => some { blk with balanceSet := { blk.balanceSet with Writes := w } }

/-- `BLKRWSet.SetAssetState`; `Serialize` is `utils.Serialize`, of a package outside the
sources at hand; `none` is the panic of assigning into a nil map. -/
def SetAssetState (blk : BLKRWSet) (assetID : Nat) (assetInfo : Asset) : Option BLKRWSet :=
  let value := Serialize assetInfo
  let ckey := ConstructCompositeKey assetIDKeyPrefix (toString assetID ++ assetIDKeySuffix)
  match blk.assetSet.Writes.set ckey { Value := value, IsDelete := false } with
  | none => none
  | some w => some { blk with assetSet := { blk.assetSet with Writes := w } }

/-- `BLKRWSet.DelAssetState`; `none` is the panic of assigning into a nil map. -/
def DelAssetState (blk : BLKRWSet) (assetID : Nat) : Option BLKRWSet :=
  let ckey := ConstructCompositeKey assetIDKeyPrefix (toString assetID ++ assetIDKeySuffix)
  match blk.assetSet.Writes.set ckey { Value := none, IsDelete := true } with
  | none => none
  | some w => some { blk with assetSet := { blk.assetSet with Writes := w } }

/-- The blocks that calls of the methods of `blkrwset.go` lead to from the block
`NewBLKRWSet` returns.  These are all the methods that assign to a field of the
block or to an entry of its maps: `SetBlock`, `merge` with any arguments and however
it ends, `wait` (which `ApplyChanges` calls; a call that has not returned yet has set
`waiting`), and the six setters and deleters with any arguments. -/
inductive Reachable : BLKRWSet → Prop where
  | NewBLKRWSet : Reachable NewBLKRWSet
  | SetBlock (blk : BLKRWSet) (blkIndex txNum : Nat) :
      Reachable blk → Reachable (SetBlock blk blkIndex txNum)
  | merge (blk : BLKRWSet) (chainCodeSet assetSet balanceSet : Option KVRWSet)
      (tx : Transaction) (ttxs : Option (List Transaction)) (txIndex : Nat) :
      Reachable blk →
        Reachable (mergeBlock blk chainCodeSet assetSet balanceSet tx ttxs txIndex)
  | wait (blk blk1 : BLKRWSet) : Reachable blk → wait blk = some blk1 → Reachable blk1
  | waiting (blk : BLKRWSet) :
      Reachable blk → Reachable { blk with waiting := decide (blk.TxIndex ≠ blk.curTxIndex) }
  | SetChainCodeState (blk blk1 : BLKRWSet) (chaincodeAddr key : String) (value : Bytes) :
      Reachable blk →
        SetChainCodeState ConstructCompositeKey blk chaincodeAddr key value = some blk1 →
        Reachable blk1
  | DelChainCodeState (blk blk1 : BLKRWSet) (chaincodeAddr key : String) :
      Reachable blk →
        DelChainCodeState ConstructCompositeKey blk chaincodeAddr key = some blk1 →
        Reachable blk1
  | SetBalacneState (blk blk1 : BLKRWSet) (addr : String) (assetID : Nat) (amount : Int) :
      Reachable blk →
        SetBalacneState ConstructCompositeKey blk addr assetID amount = some blk1 →
        Reachable blk1
  | DelBalanceState (blk blk1 : BLKRWSet) (addr : String) (assetID : Nat) :
      Reachable blk →
        DelBalanceState ConstructCompositeKey blk addr assetID = some blk1 → Reachable blk1
  | SetAssetState (blk blk1 : BLKRWSet) (assetID : Nat) (assetInfo : Asset) :
      Reachable blk →
        SetAssetState ConstructCompositeKey Serialize blk assetID assetInfo = some blk1 →
        Reachable blk1
  | DelAssetState (blk blk1 : BLKRWSet) (assetID : Nat) :
      Reachable blk →
        DelAssetState ConstructCompositeKey blk assetID = some blk1 → Reachable blk1

end BlockMethods

/-- The store of the examples for the composite key with a separator: it holds the
contract key of `("cc", "k")` with the byte `1`. -/
def sepDB : BlockchainDB := storeOf (sepCompositeKey "cc" "k") (some [1])

/-- A new block that has deleted the contract key of `("cc", "k")`, under the
composite key with a separator. -/
def sepDeletedBlock : BLKRWSet :=
  { NewBLKRWSet with
    chainCodeSet :=
      { Reads := .made KVMap.empty
        Writes := .made (KVMap.empty.set (sepCompositeKey "cc" "k") ⟨none, true⟩) } }

/-- A block of one transaction after the merge of that transaction, which writes
nothing: the transaction is on the accepted list. -/
def mergedBlock : BLKRWSet :=
  mergeBlock (SetBlock NewBLKRWSet 1 1) (some NewKVRWSet) (some NewKVRWSet) (some NewKVRWSet)
    ⟨7⟩ none 0

/-- A new block in which the contract key `("cc", "k")` holds a tombstone and the key
`("cc", "j")` the byte 4. -/
def deletedBlock : BLKRWSet :=
  { NewBLKRWSet with
    chainCodeSet :=
      { Reads := .made KVMap.empty
        Writes := .made ((KVMap.empty.set (specCompositeKey "cc" "j") ⟨some [4], false⟩).set
          (specCompositeKey "cc" "k") ⟨none, true⟩) } }

/-! ## Properties of the map model -/

theorem KVMap.get?_eq_some_iff_mem {V : Type} (m : KVMap V) (k : String) (v : V) :
    m.get? k = some v ↔ (k, v) ∈ m.1 := by
  obtain ⟨l, hl⟩ := m
  simp only [KVMap.get?]
  induction l with
  | nil => simp
  | cons e l ih =>
    obtain ⟨k0, v0⟩ := e
    simp only [List.map_cons, List.nodup_cons] at hl
    by_cases hk : k0 = k
    · subst hk
      have hnot : (k0, v) ∉ l := fun h => hl.1 (List.mem_map.2 ⟨(k0, v), h, rfl⟩)
      simp [List.find?_cons, hnot, eq_comm]
    · have hne : ¬ ((k, v) = (k0, v0)) := fun h => hk (by cases h; rfl)
      simp [List.find?_cons, hk, hne, ih hl.2]

theorem KVMap.get?_set_same {V : Type} (m : KVMap V) (k : String) (v : V) :
    (m.set k v).get? k = some v := by
  simp [KVMap.get?, KVMap.set, List.find?_cons]

theorem KVMap.get?_set_other {V : Type} (m : KVMap V) (k k0 : String) (v : V) (h : k0 ≠ k) :
    (m.set k0 v).get? k = m.get? k := by
  obtain ⟨l, hl⟩ := m
  simp only [KVMap.get?, KVMap.set, List.find?_cons]
  have hk : ((k0 == k) = false) := by simp [h]
  simp only [hk]
  congr 1
  clear hl
  induction l with
  | nil => rfl
  | cons e l ih =>
    by_cases he : e.1 = k0
    · have h1 : (e.1 != k0) = false := by simp [he]
      have h2 : (e.1 == k) = false := by simp [he, h]
      simp [List.filter_cons, List.find?_cons, h1, h2, ih]
    · have h1 : (e.1 != k0) = true := by simp [he]
      simp only [List.filter_cons, h1, if_true, List.find?_cons, ih]

theorem GoMap.get?_eq_some_iff {V : Type} (m : GoMap V) (k : String) (v : V) :
    m.get? k = some v ↔ (k, v) ∈ m.range := by
  cases m with
  | nil => simp [GoMap.get?, GoMap.range]
  | made m => exact KVMap.get?_eq_some_iff_mem m k v

theorem GoMap.range_nodup {V : Type} (m : GoMap V) : (m.range.map Prod.fst).Nodup := by
  cases m with
  | nil => simp [GoMap.range]
  | made m => exact m.2

theorem GoMap.get?_set_self {V : Type} (m m1 : GoMap V) (k : String) (v : V)
    (h : m.set k v = some m1) : m1.get? k = some v := by
  cases m with
  | nil => simp [GoMap.set] at h
  | made m =>
    simp only [GoMap.set, Option.some.injEq] at h
    subst h
    exact KVMap.get?_set_same m k v

theorem GoMap.get?_set_ne {V : Type} (m m1 : GoMap V) (k k0 : String) (v : V)
    (h : m.set k0 v = some m1) (hne : k0 ≠ k) : m1.get? k = m.get? k := by
  cases m with
  | nil => simp [GoMap.set] at h
  | made m =>
    simp only [GoMap.set, Option.some.injEq] at h
    subst h
    exact KVMap.get?_set_other m k k0 v hne

theorem bytesCompare_ne_zero_iff (a b : Bytes) :
    bytesCompare a b ≠ 0 ↔ a.content ≠ b.content := by
  unfold bytesCompare
  split_ifs <;> simp_all

/-! ## merge: conflict detection and overlay -/

theorem readConflict_isSome_iff (blkReads cand : GoMap KVRead) :
    (∃ k, readConflict blkReads cand = some k) ↔ ReadsConflict blkReads cand := by
  unfold readConflict ReadsConflict
  constructor
  · rintro ⟨k, hk⟩
    obtain ⟨e, he, rfl⟩ := Option.map_eq_some'.1 hk
    have hp := List.find?_some he
    have hmem := List.mem_of_find?_eq_some he
    cases hget : blkReads.get? e.1 with
    | none => simp [hget] at hp
    | some t =>
      simp only [hget, decide_eq_true_eq] at hp
      exact ⟨e.1, e.2, t, (GoMap.get?_eq_some_iff cand e.1 e.2).2 hmem, hget,
        (bytesCompare_ne_zero_iff _ _).1 hp⟩
  · rintro ⟨k, r, t, hc, hb, hne⟩
    have hmem := (GoMap.get?_eq_some_iff cand k r).1 hc
    have hsome : (cand.range.find? (fun e =>
        match blkReads.get? e.1 with
        | some trset => decide (bytesCompare trset.Value e.2.Value ≠ 0)
        | none => false)).isSome := by
      rw [List.find?_isSome]
      refine ⟨(k, r), hmem, ?_⟩
      simp only [hb, decide_eq_true_eq]
      exact (bytesCompare_ne_zero_iff _ _).2 hne
    obtain ⟨e, he⟩ := Option.isSome_iff_exists.1 hsome
    exact ⟨e.1, by rw [he]; rfl⟩

theorem readConflict_eq_none_iff (blkReads cand : GoMap KVRead) :
    readConflict blkReads cand = none ↔ ¬ ReadsConflict blkReads cand := by
  rw [← readConflict_isSome_iff]
  cases readConflict blkReads cand <;> simp

theorem mergeFinish_ne_conflict (blk : BLKRWSet) (rejected : Bool) (tx : Transaction)
    (ttxs : Option (List Transaction)) (txIndex : Nat) (ns k : String) :
    mergeFinish blk rejected tx ttxs txIndex ≠ .error (.conflict ns k) := by
  unfold mergeFinish
  simp only
  split_ifs <;> simp

/-- C1: `merge` returns a readset-conflict error exactly when some key of one of the
candidate's three `Reads` maps is present in the block's `Reads` of the same
namespace with a value of different bytes. -/
theorem merge_conflict_iff (blk : BLKRWSet) (cc ast bs : KVRWSet) (tx : Transaction)
    (ttxs : Option (List Transaction)) (txIndex : Nat) :
    (∃ ns k, merge blk (some cc) (some ast) (some bs) tx ttxs txIndex
        = .error (.conflict ns k)) ↔
      (ReadsConflict blk.chainCodeSet.Reads cc.Reads ∨
        ReadsConflict blk.assetSet.Reads ast.Reads ∨
        ReadsConflict blk.balanceSet.Reads bs.Reads) := by
  simp only [← readConflict_isSome_iff]
  unfold merge
  simp only
  cases h1 : readConflict blk.chainCodeSet.Reads cc.Reads with
  | some k1 => simp
  | none =>
    cases h2 : readConflict blk.assetSet.Reads ast.Reads with
    | some k2 => simp
    | none =>
      cases h3 : readConflict blk.balanceSet.Reads bs.Reads with
      | some k3 => simp
      | none =>
        simp only [exists_false, or_self, reduceCtorEq, iff_false, not_exists]
        intro ns k
        split
        · simp
        · split
          · simp
          · split
            · simp
            · exact mergeFinish_ne_conflict _ _ _ _ _ _ _

theorem overlayWrites_get? (l : List (String × KVWrite)) :
    ∀ (w w1 : GoMap KVWrite), (l.map Prod.fst).Nodup → overlayWrites w l = some w1 →
      (∀ k v, (k, v) ∈ l → w1.get? k = some v) ∧
      (∀ k, k ∉ l.map Prod.fst → w1.get? k = w.get? k) := by
  induction l with
  | nil =>
    intro w w1 _ h
    simp only [overlayWrites, Option.some.injEq] at h
    subst h
    simp
  | cons e l ih =>
    obtain ⟨k0, v0⟩ := e
    intro w w1 hnd h
    simp only [List.map_cons, List.nodup_cons] at hnd
    simp only [overlayWrites] at h
    cases hset : w.set k0 v0 with
    | none => simp [hset] at h
    | some w0 =>
      simp only [hset] at h
      obtain ⟨ih1, ih2⟩ := ih w0 w1 hnd.2 h
      constructor
      · intro k v hmem
        rcases List.mem_cons.1 hmem with heq | hmem
        · have hk : k0 = k := (congrArg Prod.fst heq).symm
          have hv : v0 = v := (congrArg Prod.snd heq).symm
          subst hk hv
          rw [ih2 k0 hnd.1]
          exact GoMap.get?_set_self w w0 k0 v0 hset
        · exact ih1 k v hmem
      · intro k hk
        simp only [List.map_cons, List.mem_cons, not_or] at hk
        rw [ih2 k hk.2]
        exact GoMap.get?_set_ne w w0 k k0 v0 hset (fun h => hk.1 h.symm)

theorem overlayWrites_isOverlay (before cand after : GoMap KVWrite)
    (h : overlayWrites before cand.range = some after) : IsOverlay before cand after := by
  obtain ⟨h1, h2⟩ := overlayWrites_get? cand.range before after (GoMap.range_nodup cand) h
  constructor
  · intro k w hk
    exact h1 k w ((GoMap.get?_eq_some_iff cand k w).1 hk)
  · intro k hk
    apply h2
    intro hmem
    obtain ⟨e, he, rfl⟩ := List.mem_map.1 hmem
    have := (GoMap.get?_eq_some_iff cand e.1 e.2).2 he
    rw [hk] at this
    cases this

theorem mergeFinish_ok_sets (blk blk1 : BLKRWSet) (rejected : Bool) (tx : Transaction)
    (ttxs : Option (List Transaction)) (txIndex : Nat)
    (h : mergeFinish blk rejected tx ttxs txIndex = .ok blk1) :
    blk1.chainCodeSet = blk.chainCodeSet ∧ blk1.assetSet = blk.assetSet ∧
      blk1.balanceSet = blk.balanceSet := by
  unfold mergeFinish at h
  simp only at h
  split_ifs at h <;> cases h <;> simp

/-- C2: when `merge` succeeds, in each of the three namespaces the block's `Writes`
afterwards give every key of the candidate's `Writes` the candidate's entry and
every other key the entry it had before the merge. -/
theorem merge_ok_writes_overlay (blk blk1 : BLKRWSet) (cc ast bs : KVRWSet)
    (tx : Transaction) (ttxs : Option (List Transaction)) (txIndex : Nat)
    (h : merge blk (some cc) (some ast) (some bs) tx ttxs txIndex = .ok blk1) :
    IsOverlay blk.chainCodeSet.Writes cc.Writes blk1.chainCodeSet.Writes ∧
      IsOverlay blk.assetSet.Writes ast.Writes blk1.assetSet.Writes ∧
      IsOverlay blk.balanceSet.Writes bs.Writes blk1.balanceSet.Writes := by
  unfold merge at h
  simp only at h
  split at h
  · cases h
  split at h
  · cases h
  split at h
  · cases h
  split at h
  · cases h
  rename_i ccW hcc
  split at h
  · cases h
  rename_i asW hast
  split at h
  · cases h
  rename_i bsW hbs
  obtain ⟨e1, e2, e3⟩ := mergeFinish_ok_sets _ _ _ _ _ _ h
  rw [e1, e2, e3]
  exact ⟨overlayWrites_isOverlay _ _ _ hcc, overlayWrites_isOverlay _ _ _ hast,
    overlayWrites_isOverlay _ _ _ hbs⟩

/-- Witness for C2: a candidate that writes `"k"` in the contract namespace is merged
into a fresh block at index 0. -/
theorem merge_ok_writes_overlay_witness :
    IsOverlay NewBLKRWSet.chainCodeSet.Writes
        (GoMap.made (KVMap.empty.set "k" ⟨some [1], false⟩))
        (GoMap.made (KVMap.empty.set "k" ⟨some [1], false⟩)) ∧
      IsOverlay NewBLKRWSet.assetSet.Writes NewKVRWSet.Writes NewKVRWSet.Writes ∧
      IsOverlay NewBLKRWSet.balanceSet.Writes NewKVRWSet.Writes NewKVRWSet.Writes :=
  merge_ok_writes_overlay NewBLKRWSet
    { NewBLKRWSet with
      chainCodeSet :=
        { Reads := .made KVMap.empty, Writes := .made (KVMap.empty.set "k" ⟨some [1], false⟩) }
      txs := [⟨7⟩]
      curTxIndex := 1 }
    { Reads := .made KVMap.empty, Writes := .made (KVMap.empty.set "k" ⟨some [1], false⟩) }
    NewKVRWSet NewKVRWSet ⟨7⟩ none 0 rfl

/-! ## The merge barrier -/

theorem two_pow_32 : (2 : Nat) ^ 32 = 4294967296 := by norm_num

theorem mergeFinish_ok_counter (blk blk1 : BLKRWSet) (rejected : Bool) (tx : Transaction)
    (ttxs : Option (List Transaction)) (txIndex : Nat)
    (h : mergeFinish blk rejected tx ttxs txIndex = .ok blk1) :
    blk1.curTxIndex = (txIndex + 1) % 2 ^ 32 ∧ blk1.TxIndex = blk.TxIndex := by
  unfold mergeFinish at h
  simp only at h
  split_ifs at h <;> cases h <;> simp

theorem merge_ok_counter (blk blk1 : BLKRWSet) (cc ast bs : Option KVRWSet)
    (tx : Transaction) (ttxs : Option (List Transaction)) (txIndex : Nat)
    (h : merge blk cc ast bs tx ttxs txIndex = .ok blk1) :
    blk1.curTxIndex = (txIndex + 1) % 2 ^ 32 ∧ blk1.TxIndex = blk.TxIndex := by
  unfold merge at h
  simp only at h
  repeat' split at h
  all_goals first
    | cases h
    | (have hfin := mergeFinish_ok_counter _ _ _ _ _ _ h; exact hfin)

theorem runMerges_inIndexOrder (calls : List MergeCall) :
    ∀ (blk blkF : BLKRWSet) (done : List Nat),
      runMerges blk calls = some (blkF, done) → InIndexOrder blk calls →
      blk.curTxIndex < 2 ^ 32 →
      blkF.TxIndex = blk.TxIndex ∧
        blkF.curTxIndex = (blk.curTxIndex + done.length) % 2 ^ 32 ∧
        ∀ i, blk.curTxIndex ≤ i → i < blk.curTxIndex + done.length → i % 2 ^ 32 ∈ done := by
  induction calls with
  | nil =>
    intro blk blkF done hrun _ hlt
    simp only [runMerges, Option.some.injEq, Prod.mk.injEq] at hrun
    obtain ⟨rfl, rfl⟩ := hrun
    refine ⟨rfl, ?_, ?_⟩
    · simp only [List.length_nil, Nat.add_zero]
      exact (Nat.mod_eq_of_lt hlt).symm
    · intro i h1 h2
      simp at h2
      omega
  | cons c rest ih =>
    intro blk blkF done hrun hord hlt
    simp only [runMerges] at hrun
    simp only [InIndexOrder] at hord
    obtain ⟨hidx, hord⟩ := hord
    cases hm : merge blk c.chainCodeSet c.assetSet c.balanceSet c.tx c.ttxs c.txIndex with
    | error e =>
      rw [hm] at hrun hord
      cases e with
      | conflict ns k => exact ih blk blkF done hrun hord hlt
      | panic => cases hrun
      | blocked => cases hrun
    | ok blk1 =>
      rw [hm] at hrun hord
      simp only at hrun hord
      obtain ⟨hcur, htx⟩ := merge_ok_counter _ _ _ _ _ _ _ _ hm
      cases hr : runMerges blk1 rest with
      | none => rw [hr] at hrun; cases hrun
      | some r =>
        obtain ⟨blkF1, done1⟩ := r
        rw [hr] at hrun
        simp only [Option.some.injEq, Prod.mk.injEq] at hrun
        obtain ⟨rfl, rfl⟩ := hrun
        have hlt1 : blk1.curTxIndex < 2 ^ 32 := by
          rw [hcur]; exact Nat.mod_lt _ (by norm_num)
        obtain ⟨h1, h2, h3⟩ := ih blk1 blkF1 done1 hr hord hlt1
        simp only [two_pow_32] at *
        refine ⟨h1.trans htx, ?_, ?_⟩
        · rw [h2, hcur, hidx]
          simp only [List.length_cons]
          omega
        · intro i hi1 hi2
          simp only [List.length_cons] at hi2
          by_cases hie : i = blk.curTxIndex
          · subst hie
            rw [Nat.mod_eq_of_lt hlt, ← hidx]
            exact List.mem_cons_self _ _
          · have hmem := h3 (blk1.curTxIndex + (i - blk.curTxIndex - 1)) (by omega) (by omega)
            have heq : (blk1.curTxIndex + (i - blk.curTxIndex - 1)) % 4294967296
                = i % 4294967296 := by
              rw [hcur, hidx]
              omega
            rw [heq] at hmem
            exact List.mem_cons_of_mem _ hmem

/-- C3, as the code has it: after `SetBlock(h, n)`, for every sequence of `merge`
calls that arrive in transaction-index order, the condition that releases
`ApplyChanges` (`curTxIndex == TxIndex`) holds only once a merge has completed for
every transaction index below `n`. -/
theorem barrier_open_only_after_all_merges (blk0 blkF : BLKRWSet) (h n : Nat)
    (calls : List MergeCall) (done : List Nat)
    (hrun : runMerges (SetBlock blk0 h n) calls = some (blkF, done))
    (hord : InIndexOrder (SetBlock blk0 h n) calls)
    (hopen : blkF.curTxIndex = blkF.TxIndex) (i : Nat) (hi : i < n) : i ∈ done := by
  have hlt : (SetBlock blk0 h n).curTxIndex < 2 ^ 32 := by simp [SetBlock]
  obtain ⟨h1, h2, h3⟩ := runMerges_inIndexOrder calls _ blkF done hrun hord hlt
  simp only [two_pow_32] at *
  have hn : blkF.TxIndex = n := by rw [h1]; rfl
  have hc : (SetBlock blk0 h n).curTxIndex = 0 := rfl
  rw [hc] at h2 h3
  have hlen : n ≤ done.length := by
    rw [← hn, ← hopen, h2]
    simp only [Nat.zero_add]
    exact Nat.mod_le _ _
  have hn32 : n < 4294967296 := by
    rw [← hn, ← hopen, h2]
    exact Nat.mod_lt _ (by norm_num)
  have := h3 i (Nat.zero_le _) (by omega)
  rwa [Nat.mod_eq_of_lt (by omega)] at this

/-- Witness for C3: a block of one transaction, whose merge arrives with index 0. -/
theorem barrier_open_only_after_all_merges_witness :
    runMerges (SetBlock NewBLKRWSet 1 1)
        [⟨some NewKVRWSet, some NewKVRWSet, some NewKVRWSet, ⟨7⟩, none, 0⟩]
      = some ({ SetBlock NewBLKRWSet 1 1 with txs := [⟨7⟩], curTxIndex := 1 }, [0]) ∧
      (0 : Nat) ∈ [0] :=
  ⟨rfl, barrier_open_only_after_all_merges NewBLKRWSet
    { SetBlock NewBLKRWSet 1 1 with txs := [⟨7⟩], curTxIndex := 1 } 1 1
    [⟨some NewKVRWSet, some NewKVRWSet, some NewKVRWSet, ⟨7⟩, none, 0⟩] [0]
    rfl ⟨rfl, trivial⟩ rfl 0 (by decide)⟩

/-- C3 as stated fails: after `SetBlock(1, 2)` a single merge that arrives with index 1
makes `curTxIndex` equal `TxIndex`, so `wait` returns, and no merge with index 0
has completed. -/
theorem barrier_open_before_all_merges :
    ∃ blkF done,
      runMerges (SetBlock NewBLKRWSet 1 2)
          [⟨some NewKVRWSet, some NewKVRWSet, some NewKVRWSet, ⟨7⟩, none, 1⟩]
        = some (blkF, done) ∧
      blkF.curTxIndex = blkF.TxIndex ∧ (wait blkF).isSome = true ∧ 0 ∉ done :=
  ⟨{ SetBlock NewBLKRWSet 1 2 with txs := [⟨7⟩], curTxIndex := 2 }, [1], rfl, rfl, rfl,
    by decide⟩

/-! ## Contract state reads -/

/-- What `GetChainCodeState` returns, by the statements of its body: with
`committed = true` what storage returns; with `committed = false` the `Value`
field of the block's `Writes` entry for the composite key when there is one,
otherwise the `Value` of the `Reads` entry when there is one, otherwise what
storage returns; and nil after `DelChainCodeState` of the key. -/
theorem GetChainCodeState_returns (ConstructCompositeKey : String → String → String)
    (dbHandler : BlockchainDB) (blk : BLKRWSet) (chaincodeAddr key : String) :
    (GetChainCodeState ConstructCompositeKey dbHandler blk chaincodeAddr key true).1
        = dbHandler.Get blk.chainCodeCF (ConstructCompositeKey chaincodeAddr key) ∧
      (∀ kvw, blk.chainCodeSet.Writes.get? (ConstructCompositeKey chaincodeAddr key) = some kvw →
        (GetChainCodeState ConstructCompositeKey dbHandler blk chaincodeAddr key false).1
          = .ok kvw.Value) ∧
      (∀ kvr, blk.chainCodeSet.Writes.get? (ConstructCompositeKey chaincodeAddr key) = none →
        blk.chainCodeSet.Reads.get? (ConstructCompositeKey chaincodeAddr key) = some kvr →
        (GetChainCodeState ConstructCompositeKey dbHandler blk chaincodeAddr key false).1
          = .ok kvr.Value) ∧
      (blk.chainCodeSet.Writes.get? (ConstructCompositeKey chaincodeAddr key) = none →
        blk.chainCodeSet.Reads.get? (ConstructCompositeKey chaincodeAddr key) = none →
        (GetChainCodeState ConstructCompositeKey dbHandler blk chaincodeAddr key false).1
          = dbHandler.Get blk.chainCodeCF (ConstructCompositeKey chaincodeAddr key)) ∧
      (∀ blk1, DelChainCodeState ConstructCompositeKey blk chaincodeAddr key = some blk1 →
        (GetChainCodeState ConstructCompositeKey dbHandler blk1 chaincodeAddr key false).1
          = .ok none) := by
  refine ⟨rfl, ?_, ?_, ?_, ?_⟩
  · intro kvw hw
    simp [GetChainCodeState, hw]
  · intro kvr hw hr
    simp [GetChainCodeState, hw, hr]
  · intro hw hr
    simp [GetChainCodeState, hw, hr]
  · intro blk1 hdel
    unfold DelChainCodeState at hdel
    simp only at hdel
    cases hset : blk.chainCodeSet.Writes.set (ConstructCompositeKey chaincodeAddr key)
        { Value := none, IsDelete := true } with
    | none => rw [hset] at hdel; cases hdel
    | some w =>
      rw [hset] at hdel
      simp only [Option.some.injEq] at hdel
      subst hdel
      have hget := GoMap.get?_set_self _ _ _ _ hset
      simp [GetChainCodeState, hget]

/-- A write that is no tombstone with a value keeps the property `TombstonesNil`. -/
theorem TombstonesNil_set (writes w1 : GoMap KVWrite) (k : String) (v : KVWrite)
    (h : TombstonesNil writes) (hset : writes.set k v = some w1)
    (hv : v.IsDelete = true → v.Value = none) : TombstonesNil w1 := by
  intro k1 w hget hdel
  by_cases hk : k = k1
  · subst hk
    rw [GoMap.get?_set_self writes w1 k v hset] at hget
    simp only [Option.some.injEq] at hget
    subst hget
    exact hv hdel
  · rw [GoMap.get?_set_ne writes w1 k1 k v hset hk] at hget
    exact h k1 w hget hdel

theorem TombstonesNil_new : TombstonesNil NewBLKRWSet.chainCodeSet.Writes := by
  intro k w hget
  simp [NewBLKRWSet, NewKVRWSet, GoMap.get?, KVMap.get?, KVMap.empty] at hget

/-- `SetChainCodeState` keeps the tombstones of the contract namespace without value. -/
theorem SetChainCodeState_tombstonesNil (ConstructCompositeKey : String → String → String)
    (blk blk1 : BLKRWSet) (chaincodeAddr key : String) (value : Bytes)
    (h : TombstonesNil blk.chainCodeSet.Writes)
    (hset : SetChainCodeState ConstructCompositeKey blk chaincodeAddr key value = some blk1) :
    TombstonesNil blk1.chainCodeSet.Writes := by
  unfold SetChainCodeState at hset
  simp only at hset
  split at hset
  · cases hset
  · rename_i w hw
    simp only [Option.some.injEq] at hset
    subst hset
    exact TombstonesNil_set _ _ _ _ h hw (fun hd => by cases hd)

/-- `DelChainCodeState` keeps the tombstones of the contract namespace without value. -/
theorem DelChainCodeState_tombstonesNil (ConstructCompositeKey : String → String → String)
    (blk blk1 : BLKRWSet) (chaincodeAddr key : String)
    (h : TombstonesNil blk.chainCodeSet.Writes)
    (hset : DelChainCodeState ConstructCompositeKey blk chaincodeAddr key = some blk1) :
    TombstonesNil blk1.chainCodeSet.Writes := by
  unfold DelChainCodeState at hset
  simp only at hset
  split at hset
  · cases hset
  · rename_i w hw
    simp only [Option.some.injEq] at hset
    subst hset
    exact TombstonesNil_set _ _ _ _ h hw (fun _ => rfl)

/-- A merge that succeeds keeps the tombstones of the contract namespace without value
when the candidate's are. -/
theorem merge_ok_tombstonesNil (blk blk1 : BLKRWSet) (cc ast bs : KVRWSet) (tx : Transaction)
    (ttxs : Option (List Transaction)) (txIndex : Nat)
    (h : TombstonesNil blk.chainCodeSet.Writes) (hcand : TombstonesNil cc.Writes)
    (hm : merge blk (some cc) (some ast) (some bs) tx ttxs txIndex = .ok blk1) :
    TombstonesNil blk1.chainCodeSet.Writes := by
  unfold merge at hm
  simp only at hm
  split at hm
  · cases hm
  split at hm
  · cases hm
  split at hm
  · cases hm
  split at hm
  · cases hm
  rename_i ccW hcc
  split at hm
  · cases hm
  split at hm
  · cases hm
  obtain ⟨e1, -, -⟩ := mergeFinish_ok_sets _ _ _ _ _ _ hm
  rw [e1]
  obtain ⟨o1, o2⟩ := overlayWrites_isOverlay _ _ _ hcc
  intro k w hget hdel
  cases hk : cc.Writes.get? k with
  | some w0 =>
    have := o1 k w0 hk
    simp only at hget
    rw [this] at hget
    simp only [Option.some.injEq] at hget
    subst hget
    exact hcand k w0 hk hdel
  | none =>
    have := o2 k hk
    simp only at hget
    rw [this] at hget
    exact h k w hget hdel

/-- C4: on a block whose contract tombstones carry no value (as every entry built in
`blkrwset.go` does), `GetChainCodeState(addr, key, committed)` returns: with
`committed = true` what storage returns, whatever the block holds; with
`committed = false` the value of the block's `Writes` entry for the composite key
when there is one, absent (nil) when that entry is a tombstone, otherwise the value
of the `Reads` entry when there is one, otherwise what storage returns. -/
theorem GetChainCodeState_value (ConstructCompositeKey : String → String → String)
    (dbHandler : BlockchainDB) (blk : BLKRWSet) (chaincodeAddr key : String)
    (htomb : TombstonesNil blk.chainCodeSet.Writes) :
    (GetChainCodeState ConstructCompositeKey dbHandler blk chaincodeAddr key true).1
        = dbHandler.Get blk.chainCodeCF (ConstructCompositeKey chaincodeAddr key) ∧
      (∀ kvw, blk.chainCodeSet.Writes.get? (ConstructCompositeKey chaincodeAddr key) = some kvw →
        (GetChainCodeState ConstructCompositeKey dbHandler blk chaincodeAddr key false).1
          = .ok (if kvw.IsDelete then none else kvw.Value)) ∧
      (∀ kvr, blk.chainCodeSet.Writes.get? (ConstructCompositeKey chaincodeAddr key) = none →
        blk.chainCodeSet.Reads.get? (ConstructCompositeKey chaincodeAddr key) = some kvr →
        (GetChainCodeState ConstructCompositeKey dbHandler blk chaincodeAddr key false).1
          = .ok kvr.Value) ∧
      (blk.chainCodeSet.Writes.get? (ConstructCompositeKey chaincodeAddr key) = none →
        blk.chainCodeSet.Reads.get? (ConstructCompositeKey chaincodeAddr key) = none →
        (GetChainCodeState ConstructCompositeKey dbHandler blk chaincodeAddr key false).1
          = dbHandler.Get blk.chainCodeCF (ConstructCompositeKey chaincodeAddr key)) := by
  obtain ⟨h1, h2, h3, h4, -⟩ :=
    GetChainCodeState_returns ConstructCompositeKey dbHandler blk chaincodeAddr key
  refine ⟨h1, ?_, h3, h4⟩
  intro kvw hw
  rw [h2 kvw hw]
  by_cases hd : kvw.IsDelete = true
  · rw [if_pos hd, htomb _ kvw hw hd]
  · rw [if_neg hd]

theorem deletedBlock_tombstonesNil : TombstonesNil deletedBlock.chainCodeSet.Writes := by
  have h1 := TombstonesNil_set NewBLKRWSet.chainCodeSet.Writes
    (.made (KVMap.empty.set (specCompositeKey "cc" "j") ⟨some [4], false⟩))
    (specCompositeKey "cc" "j") ⟨some [4], false⟩ TombstonesNil_new rfl (fun hd => by cases hd)
  exact TombstonesNil_set _ _ (specCompositeKey "cc" "k") ⟨none, true⟩ h1 rfl (fun _ => rfl)

/-- Witness for C4: in `deletedBlock` the deleted key `("cc", "k")` is read as absent
and the key `("cc", "j")` as the byte written; a key the block does not hold and the
committed read go to storage. -/
theorem GetChainCodeState_value_witness :
    (GetChainCodeState specCompositeKey sampleDB deletedBlock "cc" "k" false).1 = .ok none ∧
      (GetChainCodeState specCompositeKey sampleDB deletedBlock "cc" "j" false).1
        = .ok (some [4]) ∧
      (GetChainCodeState specCompositeKey sampleDB deletedBlock "cc" "k" true).1
        = .ok (some [1]) :=
  ⟨(GetChainCodeState_value specCompositeKey sampleDB deletedBlock "cc" "k"
      deletedBlock_tombstonesNil).2.1 ⟨none, true⟩ rfl,
    (GetChainCodeState_value specCompositeKey sampleDB deletedBlock "cc" "j"
      deletedBlock_tombstonesNil).2.1 ⟨some [4], false⟩ rfl,
    (GetChainCodeState_value specCompositeKey sampleDB deletedBlock "cc" "k"
      deletedBlock_tombstonesNil).1⟩

/-- The hypothesis on the tombstones is needed: `GetChainCodeState` does not read
`IsDelete`, so an entry put together by hand as a tombstone with a value would be
read as that value.  No statement of `blkrwset.go` builds such an entry. -/
theorem GetChainCodeState_tombstone_with_value :
    ∃ blk1,
      merge NewBLKRWSet
          (some { Reads := .made KVMap.empty
                  Writes := .made (KVMap.empty.set (specCompositeKey "cc" "k") ⟨some [2], true⟩) })
          (some NewKVRWSet) (some NewKVRWSet) ⟨7⟩ none 0 = .ok blk1 ∧
      blk1.chainCodeSet.Writes.get? (specCompositeKey "cc" "k") = some ⟨some [2], true⟩ ∧
      (GetChainCodeState specCompositeKey sampleDB blk1 "cc" "k" false).1 = .ok (some [2]) ∧
      (GetChainCodeState specCompositeKey sampleDB blk1 "cc" "k" false).1 ≠ .ok none :=
  ⟨_, rfl, rfl, rfl, fun h =>
    absurd (show (Except.ok (some [2]) : Except String Bytes) = .ok none from h) (by simp)⟩

/-- C5, as the code has it: when `GetChainCodeState(addr, key, false)` finds the
composite key in neither `Writes` nor `Reads`, it returns what storage returns and
the block afterwards is the block before: the key is still not in `Reads`. -/
theorem GetChainCodeState_records_nothing (ConstructCompositeKey : String → String → String)
    (dbHandler : BlockchainDB) (blk : BLKRWSet) (chaincodeAddr key : String)
    (hw : blk.chainCodeSet.Writes.get? (ConstructCompositeKey chaincodeAddr key) = none)
    (hr : blk.chainCodeSet.Reads.get? (ConstructCompositeKey chaincodeAddr key) = none) :
    (GetChainCodeState ConstructCompositeKey dbHandler blk chaincodeAddr key false).1
        = dbHandler.Get blk.chainCodeCF (ConstructCompositeKey chaincodeAddr key) ∧
      (GetChainCodeState ConstructCompositeKey dbHandler blk chaincodeAddr key false).2 = blk ∧
      (GetChainCodeState ConstructCompositeKey dbHandler blk chaincodeAddr key
          false).2.chainCodeSet.Reads.get? (ConstructCompositeKey chaincodeAddr key) = none := by
  simp [GetChainCodeState, hw, hr]

/-- Witness for C5: a fresh block over a store that holds the key. -/
theorem GetChainCodeState_records_nothing_witness :
    (GetChainCodeState specCompositeKey sampleDB NewBLKRWSet "cc" "k" false).1
        = sampleDB.Get NewBLKRWSet.chainCodeCF (specCompositeKey "cc" "k") ∧
      (GetChainCodeState specCompositeKey sampleDB NewBLKRWSet "cc" "k" false).2 = NewBLKRWSet ∧
      (GetChainCodeState specCompositeKey sampleDB NewBLKRWSet "cc" "k"
          false).2.chainCodeSet.Reads.get? (specCompositeKey "cc" "k") = none :=
  GetChainCodeState_records_nothing specCompositeKey sampleDB NewBLKRWSet "cc" "k" rfl rfl

/-- C5 as stated fails: the read falls through to storage, which returns the byte
`1`, and the block's contract `Reads` afterwards still hold nothing for the key. -/
theorem GetChainCodeState_read_not_recorded :
    NewBLKRWSet.chainCodeSet.Writes.get? (specCompositeKey "cc" "k") = none ∧
      NewBLKRWSet.chainCodeSet.Reads.get? (specCompositeKey "cc" "k") = none ∧
      (GetChainCodeState specCompositeKey sampleDB NewBLKRWSet "cc" "k" false).1
        = .ok (some [1]) ∧
      (GetChainCodeState specCompositeKey sampleDB NewBLKRWSet "cc" "k"
          false).2.chainCodeSet.Reads.get? (specCompositeKey "cc" "k") = none :=
  ⟨rfl, rfl, rfl, rfl⟩

/-! ## Balances -/

theorem foldl_bytes_shift (l : List Nat) :
    ∀ a : Nat, l.foldl (fun acc d => acc * 256 + d) a
      = a * 256 ^ l.length + l.foldl (fun acc d => acc * 256 + d) 0 := by
  induction l with
  | nil => intro a; simp
  | cons d l ih =>
    intro a
    simp only [List.foldl_cons, List.length_cons]
    rw [ih (a * 256 + d), ih (0 * 256 + d)]
    ring

theorem foldl_natBytesAux (fuel : Nat) :
    ∀ (n : Nat) (acc : List Nat), n ≤ fuel →
      (natBytesAux fuel n acc).foldl (fun acc d => acc * 256 + d) 0
        = n * 256 ^ acc.length + acc.foldl (fun acc d => acc * 256 + d) 0 := by
  induction fuel with
  | zero =>
    intro n acc hn
    have : n = 0 := by omega
    subst this
    simp [natBytesAux]
  | succ fuel ih =>
    intro n acc hn
    simp only [natBytesAux]
    split_ifs with h0
    · subst h0; simp
    · have hdiv : n / 256 ≤ fuel := by
        have := Nat.div_lt_self (Nat.pos_of_ne_zero h0) (by norm_num : 1 < 256)
        omega
      rw [ih (n / 256) (n % 256 :: acc) hdiv]
      simp only [List.foldl_cons, List.length_cons]
      rw [foldl_bytes_shift acc (0 * 256 + n % 256)]
      have hn256 : n = 256 * (n / 256) + n % 256 := (Nat.div_add_mod n 256).symm
      generalize n / 256 = q at *
      generalize n % 256 = r at *
      subst hn256
      ring

theorem bigSetBytes_bigBytes (x : Int) : bigSetBytes (bigBytes x) = (x.natAbs : Int) := by
  unfold bigSetBytes bigBytes
  simp only [Bytes.content, Option.getD_some]
  rw [foldl_natBytesAux x.natAbs x.natAbs [] le_rfl]
  simp

/-- What `GetBalanceState` returns right after `SetBalacneState`, for any amount: its
absolute value. -/
theorem GetBalanceState_SetBalacneState_natAbs
    (ConstructCompositeKey : String → String → String) (dbHandler : BlockchainDB)
    (blk : BLKRWSet) (addr : String) (assetID : Nat) (amount : Int)
    (hmade : blk.balanceSet.Writes.isNil = false) :
    ∃ blk1, SetBalacneState ConstructCompositeKey blk addr assetID amount = some blk1 ∧
      GetBalanceState ConstructCompositeKey dbHandler blk1 addr assetID false
        = .ok (some (amount.natAbs : Int)) := by
  unfold SetBalacneState
  simp only
  cases hW : blk.balanceSet.Writes with
  | nil => rw [hW] at hmade; cases hmade
  | made m =>
    refine ⟨_, rfl, ?_⟩
    have hget := KVMap.get?_set_same m
      (ConstructCompositeKey addr (toString assetID ++ assetIDKeySuffix))
      { Value := bigBytes amount, IsDelete := false }
    simp [GetBalanceState, GoMap.get?, hget, bigSetBytes_bigBytes]

/-- For a non-negative amount the balance is read back as it was set: on a block
whose balance `Writes` map is made, `SetBalacneState(addr, assetID, amount)`
returns and `GetBalanceState(addr, assetID, false)` then returns `amount`. -/
theorem GetBalanceState_after_SetBalacneState
    (ConstructCompositeKey : String → String → String) (dbHandler : BlockchainDB)
    (blk : BLKRWSet) (addr : String) (assetID : Nat) (amount : Int)
    (hmade : blk.balanceSet.Writes.isNil = false) (hpos : 0 ≤ amount) :
    ∃ blk1, SetBalacneState ConstructCompositeKey blk addr assetID amount = some blk1 ∧
      GetBalanceState ConstructCompositeKey dbHandler blk1 addr assetID false
        = .ok (some amount) := by
  obtain ⟨blk1, h1, h2⟩ := GetBalanceState_SetBalacneState_natAbs ConstructCompositeKey
    dbHandler blk addr assetID amount hmade
  refine ⟨blk1, h1, ?_⟩
  rw [h2, Int.natAbs_of_nonneg hpos]

/-- An example: the amount 300 of asset 1 on a fresh block. -/
theorem GetBalanceState_after_SetBalacneState_witness :
    NewBLKRWSet.balanceSet.Writes.isNil = false ∧ (0 : Int) ≤ 300 ∧
      ∃ blk1, SetBalacneState specCompositeKey NewBLKRWSet "a" 1 300 = some blk1 ∧
        GetBalanceState specCompositeKey sampleDB blk1 "a" 1 false = .ok (some 300) :=
  ⟨rfl, by decide,
    GetBalanceState_after_SetBalacneState specCompositeKey sampleDB NewBLKRWSet "a" 1 300 rfl
      (by decide)⟩

/-- C6, as the code behaves: `SetBalacneState("a", 1, -5)` on a new block stores
`amount.Bytes()`, the bytes of the magnitude, and `GetBalanceState("a", 1, false)`
reads them back with `SetBytes`: it returns `5`, not the `-5` that was set. -/
theorem GetBalanceState_after_SetBalacneState_negative :
    ∃ blk1, SetBalacneState specCompositeKey NewBLKRWSet "a" 1 (-5) = some blk1 ∧
      GetBalanceState specCompositeKey sampleDB blk1 "a" 1 false = .ok (some 5) ∧
      GetBalanceState specCompositeKey sampleDB blk1 "a" 1 false ≠ .ok (some (-5)) :=
  ⟨_, rfl, rfl, fun h =>
    absurd (show (Except.ok (some 5) : Except String (Option Int)) = .ok (some (-5)) from h)
      (by simp)⟩

/-! ## Range reads of contract state -/

theorem KVMap.get?_set_isSome {V : Type} (m : KVMap V) (k k0 : String) (v : V)
    (h : (m.get? k).isSome = true) : ((m.set k0 v).get? k).isSome = true := by
  by_cases hk : k0 = k
  · subst hk
    rw [KVMap.get?_set_same]
    rfl
  · rw [KVMap.get?_set_other m k k0 v hk]
    exact h

theorem foldl_rangeOverlayStep_isSome (l : List (String × Bytes)) :
    ∀ (ret : KVMap Bytes) (k : String), (ret.get? k).isSome = true →
      ((l.foldl rangeOverlayStep ret).get? k).isSome = true := by
  induction l with
  | nil => intro ret k h; exact h
  | cons e l ih =>
    intro ret k h
    simp only [List.foldl_cons]
    apply ih
    unfold rangeOverlayStep
    split_ifs
    · exact KVMap.get?_set_isSome ret k e.1 e.2 h
    · exact h

theorem foldl_scan_isSome (dbValues : List KeyValue) :
    ∀ (ret : KVMap Bytes) (k : String),
      ((ret.get? k).isSome = true ∨ ∃ kv ∈ dbValues, kv.Key = k) →
      ((dbValues.foldl (fun ret kv => ret.set kv.Key kv.Value) ret).get? k).isSome = true := by
  induction dbValues with
  | nil =>
    intro ret k h
    rcases h with h | ⟨kv, hkv, _⟩
    · exact h
    · cases hkv
  | cons kv0 rest ih =>
    intro ret k h
    simp only [List.foldl_cons]
    apply ih
    rcases h with h | ⟨kv, hkv, hk⟩
    · exact Or.inl (KVMap.get?_set_isSome ret k kv0.Key kv0.Value h)
    · rcases List.mem_cons.1 hkv with heq | hmem
      · subst heq
        left
        rw [← hk, KVMap.get?_set_same]
        rfl
      · exact Or.inr ⟨kv, hmem, hk⟩

/-- C7, what the code does: whatever the treap does and whatever the block's `Writes`
hold, every key that the storage scan of `GetChainCodeStateByRange` returns is a
key of the map the call returns; so a stored key that the block has deleted with
`DelChainCodeState` is still in the result of the uncommitted range read. -/
theorem GetChainCodeStateByRange_keeps_deleted_key
    (ConstructCompositeKey : String → String → String) (dbHandler : BlockchainDB)
    {T : Type} (treap : TreapOps T) (blk blk1 : BLKRWSet)
    (chaincodeAddr key startKey endKey : String) (kv : KeyValue)
    (hdel : DelChainCodeState ConstructCompositeKey blk chaincodeAddr key = some blk1)
    (hkey : kv.Key = ConstructCompositeKey chaincodeAddr key)
    (hscan : kv ∈
      (if endKey.length > 0 then
        dbHandler.GetByRange blk1.chainCodeCF (ConstructCompositeKey chaincodeAddr startKey)
          (ConstructCompositeKey chaincodeAddr endKey)
      else dbHandler.GetByPrefix blk1.chainCodeCF (ConstructCompositeKey chaincodeAddr startKey))) :
    blk1.chainCodeSet.Writes.get? (ConstructCompositeKey chaincodeAddr key)
        = some { Value := none, IsDelete := true } ∧
      ((GetChainCodeStateByRange ConstructCompositeKey dbHandler treap blk1 chaincodeAddr
          startKey endKey false).get? (ConstructCompositeKey chaincodeAddr key)).isSome
        = true := by
  constructor
  · unfold DelChainCodeState at hdel
    simp only at hdel
    cases hset : blk.chainCodeSet.Writes.set (ConstructCompositeKey chaincodeAddr key)
        { Value := none, IsDelete := true } with
    | none => rw [hset] at hdel; cases hdel
    | some w =>
      rw [hset] at hdel
      simp only [Option.some.injEq] at hdel
      subst hdel
      exact GoMap.get?_set_self _ _ _ _ hset
  · have hret := foldl_scan_isSome _ KVMap.empty (ConstructCompositeKey chaincodeAddr key)
      (Or.inr ⟨kv, hscan, hkey⟩)
    unfold GetChainCodeStateByRange
    simp only [Bool.not_false, if_true]
    split_ifs with hend
    · rw [if_pos hend] at hret
      exact foldl_rangeOverlayStep_isSome _ _ _ hret
    · rw [if_neg hend] at hret
      exact foldl_rangeOverlayStep_isSome _ _ _ hret

/-- Witness for C7, the failing input: storage holds the key of `("cc", "k")` with the
byte `1`, the block deletes it, and the uncommitted read of the range from `a` to `z`
still returns the key, with the stored value.  The store returns what lies in the
range asked for, and the composite key joins namespace and key by a separator, so
that the tombstone is among the entries the read puts into its cache. -/
theorem GetChainCodeStateByRange_keeps_deleted_key_witness :
    DelChainCodeState sepCompositeKey NewBLKRWSet "cc" "k" = some sepDeletedBlock ∧
      (GetChainCodeStateByRange sepCompositeKey sepDB specTreap sepDeletedBlock
          "cc" "a" "z" false).get? (sepCompositeKey "cc" "k") = some (some [1]) ∧
      ((GetChainCodeStateByRange sepCompositeKey sepDB specTreap sepDeletedBlock
          "cc" "a" "z" false).get? (sepCompositeKey "cc" "k")).isSome = true :=
  ⟨rfl, by with_unfolding_all rfl,
    (GetChainCodeStateByRange_keeps_deleted_key sepCompositeKey sepDB specTreap NewBLKRWSet
      sepDeletedBlock "cc" "k" "a" "z" ⟨sepCompositeKey "cc" "k", some [1]⟩ rfl rfl
      (by decide)).2⟩

/-! ## ApplyChanges and SetBlock -/

theorem wait_some_fields (blk blk1 : BLKRWSet) (h : wait blk = some blk1) :
    blk1.chainCodeSet = blk.chainCodeSet ∧ blk1.assetSet = blk.assetSet ∧
      blk1.balanceSet = blk.balanceSet ∧ blk1.chainCodeCF = blk.chainCodeCF ∧
      blk1.assetCF = blk.assetCF ∧ blk1.balanceCF = blk.balanceCF ∧
      blk1.txs = blk.txs ∧ blk1.transferTxs = blk.transferTxs ∧ blk1.errTxs = blk.errTxs := by
  unfold wait at h
  simp only at h
  split_ifs at h <;> cases h <;> simp

theorem mem_writeBatchsOf (cf : String) (writes : GoMap KVWrite) (e : WriteBatch)
    (h : e ∈ writeBatchsOf cf writes) :
    ∃ k w, writes.get? k = some w ∧ IsWriteOf cf k w e := by
  unfold writeBatchsOf at h
  obtain ⟨⟨k, w⟩, hmem, rfl⟩ := List.mem_map.1 h
  refine ⟨k, w, (GoMap.get?_eq_some_iff writes k w).2 hmem, ?_⟩
  unfold IsWriteOf NewWriteBatch
  by_cases hd : w.IsDelete = true <;> simp [hd]

theorem writeBatchsOf_has (cf : String) (writes : GoMap KVWrite) (k : String) (w : KVWrite)
    (h : writes.get? k = some w) : ∃ e ∈ writeBatchsOf cf writes, IsWriteOf cf k w e := by
  have hmem := (GoMap.get?_eq_some_iff writes k w).1 h
  refine ⟨_, List.mem_map.2 ⟨(k, w), hmem, rfl⟩, ?_⟩
  unfold IsWriteOf NewWriteBatch
  by_cases hd : w.IsDelete = true <;> simp [hd]

theorem countP_key_eq_one (l : List (String × KVWrite)) (k : String) (w : KVWrite)
    (hnd : (l.map Prod.fst).Nodup) (hmem : (k, w) ∈ l) :
    l.countP (fun e => decide (e.1 = k)) = 1 := by
  induction l with
  | nil => cases hmem
  | cons e l ih =>
    simp only [List.map_cons, List.nodup_cons] at hnd
    rcases List.mem_cons.1 hmem with heq | hin
    · subst heq
      have hzero : l.countP (fun e => decide (e.1 = k)) = 0 := by
        rw [List.countP_eq_zero]
        intro e he hk
        simp only [decide_eq_true_eq] at hk
        exact hnd.1 (List.mem_map.2 ⟨e, he, hk⟩)
      simp [List.countP_cons, hzero]
    · have hne : e.1 ≠ k := by
        intro hk
        exact hnd.1 (List.mem_map.2 ⟨(k, w), hin, hk.symm⟩)
      simp [List.countP_cons, hne, ih hnd.2 hin]

theorem countP_writeBatchsOf_same (cf : String) (writes : GoMap KVWrite) (k : String)
    (w : KVWrite) (h : writes.get? k = some w) :
    (writeBatchsOf cf writes).countP (fun e => decide (e.CfName = cf ∧ e.Key = k)) = 1 := by
  have hmem := (GoMap.get?_eq_some_iff writes k w).1 h
  unfold writeBatchsOf
  rw [List.countP_map]
  rw [← countP_key_eq_one writes.range k w (GoMap.range_nodup writes) hmem]
  apply List.countP_congr
  intro e _
  unfold NewWriteBatch
  by_cases hd : e.2.IsDelete = true <;> simp [hd]

theorem countP_writeBatchsOf_other (cf cf1 : String) (writes : GoMap KVWrite) (k : String)
    (hne : cf1 ≠ cf) :
    (writeBatchsOf cf1 writes).countP (fun e => decide (e.CfName = cf ∧ e.Key = k)) = 0 := by
  rw [List.countP_eq_zero]
  intro e he
  obtain ⟨k1, w1, _, hw⟩ := mem_writeBatchsOf cf1 writes e he
  simp only [decide_eq_true_eq, not_and]
  intro hcf
  exact absurd (hw.1.symm.trans hcf) hne

/-- C8: the write batch `ApplyChanges` returns holds, for every key in the block's
`Writes` of each namespace, exactly one entry addressed to that namespace's column
family and key, a delete when the entry is a tombstone and a put of the entry's
value otherwise, and it holds no other entries (the three column families have
different names, as `NewBLKRWSet` sets them). -/
theorem ApplyChanges_writeBatchs (blk : BLKRWSet) (r : ApplyResult)
    (hret : ApplyChanges blk = some r)
    (hcf : blk.chainCodeCF ≠ blk.assetCF ∧ blk.chainCodeCF ≠ blk.balanceCF ∧
      blk.assetCF ≠ blk.balanceCF) :
    CoversWrites r.writeBatchs blk.chainCodeCF blk.chainCodeSet.Writes ∧
      CoversWrites r.writeBatchs blk.assetCF blk.assetSet.Writes ∧
      CoversWrites r.writeBatchs blk.balanceCF blk.balanceSet.Writes ∧
      ∀ e ∈ r.writeBatchs,
        (∃ k w, blk.chainCodeSet.Writes.get? k = some w ∧ IsWriteOf blk.chainCodeCF k w e) ∨
        (∃ k w, blk.assetSet.Writes.get? k = some w ∧ IsWriteOf blk.assetCF k w e) ∨
        (∃ k w, blk.balanceSet.Writes.get? k = some w ∧ IsWriteOf blk.balanceCF k w e) := by
  unfold ApplyChanges at hret
  cases hw : wait blk with
  | none => rw [hw] at hret; cases hret
  | some blk1 =>
    rw [hw] at hret
    simp only [Option.some.injEq] at hret
    subst hret
    obtain ⟨e1, e2, e3, e4, e5, e6, -, -, -⟩ := wait_some_fields blk blk1 hw
    simp only [e1, e2, e3, e4, e5, e6]
    obtain ⟨h12, h13, h23⟩ := hcf
    refine ⟨?_, ?_, ?_, ?_⟩
    · intro k w hk
      constructor
      · obtain ⟨e, he, hwr⟩ := writeBatchsOf_has blk.chainCodeCF _ k w hk
        exact ⟨e, List.mem_append_left _ (List.mem_append_left _ he), hwr⟩
      · rw [List.countP_append, List.countP_append,
          countP_writeBatchsOf_same _ _ k w hk,
          countP_writeBatchsOf_other _ _ _ k h12.symm,
          countP_writeBatchsOf_other _ _ _ k h13.symm]
    · intro k w hk
      constructor
      · obtain ⟨e, he, hwr⟩ := writeBatchsOf_has blk.assetCF _ k w hk
        exact ⟨e, List.mem_append_left _ (List.mem_append_right _ he), hwr⟩
      · rw [List.countP_append, List.countP_append,
          countP_writeBatchsOf_same _ _ k w hk,
          countP_writeBatchsOf_other _ _ _ k h12,
          countP_writeBatchsOf_other _ _ _ k h23.symm]
    · intro k w hk
      constructor
      · obtain ⟨e, he, hwr⟩ := writeBatchsOf_has blk.balanceCF _ k w hk
        exact ⟨e, List.mem_append_right _ he, hwr⟩
      · rw [List.countP_append, List.countP_append,
          countP_writeBatchsOf_same _ _ k w hk,
          countP_writeBatchsOf_other _ _ _ k h13,
          countP_writeBatchsOf_other _ _ _ k h23]
    · intro e he
      rcases List.mem_append.1 he with he | he
      · rcases List.mem_append.1 he with he | he
        · exact Or.inl (mem_writeBatchsOf _ _ e he)
        · exact Or.inr (Or.inl (mem_writeBatchsOf _ _ e he))
      · exact Or.inr (Or.inr (mem_writeBatchsOf _ _ e he))

/-- Witness for C8: the batch of `sampleBlock`, one put and one delete. -/
theorem ApplyChanges_writeBatchs_witness :
    ApplyChanges sampleBlock = some sampleResult ∧
      CoversWrites sampleResult.writeBatchs sampleBlock.chainCodeCF
        sampleBlock.chainCodeSet.Writes ∧
      CoversWrites sampleResult.writeBatchs sampleBlock.assetCF sampleBlock.assetSet.Writes ∧
      CoversWrites sampleResult.writeBatchs sampleBlock.balanceCF
        sampleBlock.balanceSet.Writes ∧
      ∀ e ∈ sampleResult.writeBatchs,
        (∃ k w, sampleBlock.chainCodeSet.Writes.get? k = some w ∧
          IsWriteOf sampleBlock.chainCodeCF k w e) ∨
        (∃ k w, sampleBlock.assetSet.Writes.get? k = some w ∧
          IsWriteOf sampleBlock.assetCF k w e) ∨
        (∃ k w, sampleBlock.balanceSet.Writes.get? k = some w ∧
          IsWriteOf sampleBlock.balanceCF k w e) :=
  ⟨rfl, ApplyChanges_writeBatchs sampleBlock sampleResult rfl (by decide)⟩

/-- C9, as the code has it: `ApplyChanges` returns the accepted list, which is the
block's accepted transactions followed by its transfer transactions, and the
rejected list, and it leaves the block's accepted and transfer lists as they
were: it clears nothing. -/
theorem ApplyChanges_keeps_lists (blk : BLKRWSet) (r : ApplyResult)
    (hret : ApplyChanges blk = some r) :
    r.txs = blk.txs ++ blk.transferTxs ∧ r.errTxs = blk.errTxs ∧
      r.blk.txs = blk.txs ∧ r.blk.transferTxs = blk.transferTxs := by
  unfold ApplyChanges at hret
  cases hw : wait blk with
  | none => rw [hw] at hret; cases hret
  | some blk1 =>
    rw [hw] at hret
    simp only [Option.some.injEq] at hret
    subst hret
    obtain ⟨-, -, -, -, -, -, e7, e8, e9⟩ := wait_some_fields blk blk1 hw
    simp [e7, e8, e9]

/-- Witness for C9: `ApplyChanges` on a block whose lists are not empty. -/
theorem ApplyChanges_keeps_lists_witness :
    ApplyChanges usedBlock
        = some ⟨usedBlock, sampleResult.writeBatchs, [⟨7⟩, ⟨8⟩], [⟨9⟩]⟩ ∧
      (⟨usedBlock, sampleResult.writeBatchs, [⟨7⟩, ⟨8⟩], [⟨9⟩]⟩ : ApplyResult).txs
        = [⟨7⟩] ++ [⟨8⟩] ∧
      (⟨usedBlock, sampleResult.writeBatchs, [⟨7⟩, ⟨8⟩], [⟨9⟩]⟩ : ApplyResult).errTxs
        = [⟨9⟩] ∧
      (⟨usedBlock, sampleResult.writeBatchs, [⟨7⟩, ⟨8⟩], [⟨9⟩]⟩ : ApplyResult).blk.txs
        = [⟨7⟩] ∧
      (⟨usedBlock, sampleResult.writeBatchs, [⟨7⟩, ⟨8⟩], [⟨9⟩]⟩ : ApplyResult).blk.transferTxs
        = [⟨8⟩] :=
  ⟨rfl, ApplyChanges_keeps_lists usedBlock
    ⟨usedBlock, sampleResult.writeBatchs, [⟨7⟩, ⟨8⟩], [⟨9⟩]⟩ rfl⟩

/-- C9 as stated fails: after `SetBlock(1, 1)` and the merge of transaction 7,
`ApplyChanges` returns and the block's accepted list still holds transaction 7. -/
theorem ApplyChanges_lists_not_cleared :
    ∃ blkM r,
      merge (SetBlock NewBLKRWSet 1 1) (some NewKVRWSet) (some NewKVRWSet) (some NewKVRWSet)
          ⟨7⟩ none 0 = .ok blkM ∧
      ApplyChanges blkM = some r ∧ r.txs = [⟨7⟩] ∧ r.blk.txs = [⟨7⟩] ∧ r.blk.txs ≠ [] :=
  ⟨{ SetBlock NewBLKRWSet 1 1 with txs := [⟨7⟩], curTxIndex := 1 },
    ⟨{ SetBlock NewBLKRWSet 1 1 with txs := [⟨7⟩], curTxIndex := 1 }, [], [⟨7⟩], []⟩,
    rfl, rfl, rfl, rfl, by decide⟩

/-- What `SetBlock` assigns, and what it leaves alone. -/
theorem SetBlock_fields (blk : BLKRWSet) (blkIndex txNum : Nat) :
    (SetBlock blk blkIndex txNum).chainCodeSet.Reads.range = [] ∧
      (SetBlock blk blkIndex txNum).chainCodeSet.Writes.range = [] ∧
      (SetBlock blk blkIndex txNum).assetSet.Reads.range = [] ∧
      (SetBlock blk blkIndex txNum).assetSet.Writes.range = [] ∧
      (SetBlock blk blkIndex txNum).balanceSet.Reads.range = [] ∧
      (SetBlock blk blkIndex txNum).balanceSet.Writes.range = [] ∧
      (SetBlock blk blkIndex txNum).txs = [] ∧
      (SetBlock blk blkIndex txNum).transferTxs = [] ∧
      (SetBlock blk blkIndex txNum).curTxIndex = 0 ∧
      (SetBlock blk blkIndex txNum).BlockIndex = blkIndex ∧
      (SetBlock blk blkIndex txNum).TxIndex = txNum ∧
      (SetBlock blk blkIndex txNum).errTxs = blk.errTxs :=
  ⟨rfl, rfl, rfl, rfl, rfl, rfl, rfl, rfl, rfl, rfl, rfl, rfl⟩

/-- The block that `merge` leaves has the rejected list it had: the branch that
appends to `errTxs` (line 480) needs a nil `chainCodeSet`, and with a nil
`chainCodeSet` the call has ended at line 440. -/
theorem mergeBlock_errTxs (blk : BLKRWSet) (cc ast bs : Option KVRWSet) (tx : Transaction)
    (ttxs : Option (List Transaction)) (txIndex : Nat) :
    (mergeBlock blk cc ast bs tx ttxs txIndex).errTxs = blk.errTxs := by
  unfold mergeBlock
  repeat' split
  all_goals first
    | rfl
    | (simp only [mergeFinishBlock, Option.isNone_some, Bool.false_and, Bool.false_eq_true,
        if_false]
       split_ifs <;> rfl)

/-- In every block that the methods lead to the rejected list is empty. -/
theorem Reachable.errTxs_nil (ConstructCompositeKey : String → String → String)
    (Serialize : Asset → Bytes) (blk : BLKRWSet)
    (h : Reachable ConstructCompositeKey Serialize blk) : blk.errTxs = [] := by
  induction h with
  | NewBLKRWSet => rfl
  | SetBlock blk blkIndex txNum _ ih => exact ih
  | merge blk cc ast bs tx ttxs txIndex _ ih => rw [mergeBlock_errTxs]; exact ih
  | wait blk blk1 _ hw ih =>
    have he := (wait_some_fields blk blk1 hw).2.2.2.2.2.2.2.2
    rw [he]; exact ih
  | waiting blk _ ih => exact ih
  | SetChainCodeState blk blk1 chaincodeAddr key value _ hs ih =>
    unfold L0.SetChainCodeState at hs
    simp only at hs
    split at hs
    · cases hs
    · cases hs; exact ih
  | DelChainCodeState blk blk1 chaincodeAddr key _ hs ih =>
    unfold L0.DelChainCodeState at hs
    simp only at hs
    split at hs
    · cases hs
    · cases hs; exact ih
  | SetBalacneState blk blk1 addr assetID amount _ hs ih =>
    unfold L0.SetBalacneState at hs
    simp only at hs
    split at hs
    · cases hs
    · cases hs; exact ih
  | DelBalanceState blk blk1 addr assetID _ hs ih =>
    unfold L0.DelBalanceState at hs
    simp only at hs
    split at hs
    · cases hs
    · cases hs; exact ih
  | SetAssetState blk blk1 assetID assetInfo _ hs ih =>
    unfold L0.SetAssetState at hs
    simp only at hs
    split at hs
    · cases hs
    · cases hs; exact ih
  | DelAssetState blk blk1 assetID _ hs ih =>
    unfold L0.DelAssetState at hs
    simp only at hs
    split at hs
    · cases hs
    · cases hs; exact ih

/-- C10: after `SetBlock(h, n)` on a block in whatever state the methods of
`blkrwset.go` have left it, the `Reads` and `Writes` of all three namespaces are
empty, the accepted, the transfer and the rejected list are empty,
`curTxIndex = 0`, `BlockIndex = h` and `TxIndex = n`.  `SetBlock` assigns all of
these but the rejected list, which is empty in every such block. -/
theorem SetBlock_resets (ConstructCompositeKey : String → String → String)
    (Serialize : Asset → Bytes) (blk : BLKRWSet)
    (hreach : Reachable ConstructCompositeKey Serialize blk) (blkIndex txNum : Nat) :
    (SetBlock blk blkIndex txNum).chainCodeSet.Reads.range = [] ∧
      (SetBlock blk blkIndex txNum).chainCodeSet.Writes.range = [] ∧
      (SetBlock blk blkIndex txNum).assetSet.Reads.range = [] ∧
      (SetBlock blk blkIndex txNum).assetSet.Writes.range = [] ∧
      (SetBlock blk blkIndex txNum).balanceSet.Reads.range = [] ∧
      (SetBlock blk blkIndex txNum).balanceSet.Writes.range = [] ∧
      (SetBlock blk blkIndex txNum).txs = [] ∧
      (SetBlock blk blkIndex txNum).transferTxs = [] ∧
      (SetBlock blk blkIndex txNum).errTxs = [] ∧
      (SetBlock blk blkIndex txNum).curTxIndex = 0 ∧
      (SetBlock blk blkIndex txNum).BlockIndex = blkIndex ∧
      (SetBlock blk blkIndex txNum).TxIndex = txNum :=
  ⟨rfl, rfl, rfl, rfl, rfl, rfl, rfl, rfl,
    Reachable.errTxs_nil ConstructCompositeKey Serialize blk hreach, rfl, rfl, rfl⟩

/-- Witness for C10: `mergedBlock`, a block of one transaction after its merge, has
the transaction on its accepted list; after `SetBlock(5, 3)` the lists are
empty. -/
theorem SetBlock_resets_witness :
    mergedBlock.txs = [⟨7⟩] ∧ mergedBlock.curTxIndex = 1 ∧
      (SetBlock mergedBlock 5 3).txs = [] ∧
      (SetBlock mergedBlock 5 3).errTxs = [] ∧
      (SetBlock mergedBlock 5 3).curTxIndex = 0 ∧
      (SetBlock mergedBlock 5 3).BlockIndex = 5 ∧
      (SetBlock mergedBlock 5 3).TxIndex = 3 :=
  have h := SetBlock_resets specCompositeKey (fun _ => none) mergedBlock
    (Reachable.merge _ _ _ _ _ _ _ (Reachable.SetBlock _ 1 1 Reachable.NewBLKRWSet)) 5 3
  ⟨rfl, rfl, h.2.2.2.2.2.2.1, h.2.2.2.2.2.2.2.2.1, h.2.2.2.2.2.2.2.2.2.1,
    h.2.2.2.2.2.2.2.2.2.2.1, h.2.2.2.2.2.2.2.2.2.2.2⟩

/-- `SetBlock` itself has no assignment for the rejected list: on a block put
together by hand with a rejected transaction, which no call of the methods leads
to, the list would outlive `SetBlock`. -/
theorem SetBlock_keeps_errTxs :
    usedBlock.errTxs = [⟨9⟩] ∧
      (SetBlock usedBlock 5 3).errTxs = [⟨9⟩] ∧
      (SetBlock usedBlock 5 3).errTxs ≠ [] ∧
      (SetBlock usedBlock 5 3).txs = [] ∧
      (SetBlock usedBlock 5 3).transferTxs = [] ∧
      (SetBlock usedBlock 5 3).chainCodeSet.Writes.range = [] ∧
      (SetBlock usedBlock 5 3).balanceSet.Writes.range = [] ∧
      (SetBlock usedBlock 5 3).curTxIndex = 0 ∧
      (SetBlock usedBlock 5 3).BlockIndex = 5 ∧
      (SetBlock usedBlock 5 3).TxIndex = 3 :=
  ⟨rfl, rfl, by decide, rfl, rfl, rfl, rfl, rfl, rfl, rfl⟩

/-! ## Validator: speculative accounts -/

theorem speculativeBalance_fetchAccount {J : Type} (env : ValidatorEnv J) (v : Verification)
    (address a : Address) (assetID : Nat) :
    speculativeBalance env (fetchAccount env v address).2 a assetID
      = speculativeBalance env v a assetID := by
  unfold fetchAccount speculativeBalance
  cases h : v.accounts address with
  | some account => simp
  | none =>
    simp only
    by_cases ha : a = address
    · subst ha; simp [h]
    · simp [ha]

theorem fetchAccount_fst {J : Type} (env : ValidatorEnv J) (v : Verification)
    (address : Address) (assetID : Nat) :
    (fetchAccount env v address).1.map (fun b => b.Get assetID)
      = speculativeBalance env v address assetID := by
  unfold fetchAccount speculativeBalance
  cases h : v.accounts address <;> simp

theorem speculativeBalance_storeAccount {J : Type} (env : ValidatorEnv J) (v : Verification)
    (address a : Address) (b : Balance) (assetID : Nat) :
    speculativeBalance env (storeAccount v address b) a assetID
      = if a = address then some (b.Get assetID) else speculativeBalance env v a assetID := by
  unfold storeAccount speculativeBalance
  by_cases ha : a = address <;> simp [ha]

theorem updateSender_true {J : Type} (env : ValidatorEnv J) (v v1 : Verification)
    (tx : Transaction) (h : updateSender env v tx = (true, v1))
    (hty : env.GetType tx ≠ .TypeIssue ∧ env.GetType tx ≠ .TypeIssueUpdate)
    (hfrom : env.HexToChainCoordinate (env.FromChain tx) = env.ChainID) (x : Int)
    (hx : speculativeBalance env v1 (env.Sender tx) (env.AssetID tx) = some x) : 0 ≤ x := by
  unfold updateSender at h
  simp only [hfrom, if_true] at h
  have hview := speculativeBalance_fetchAccount env v (env.Sender tx) (env.Sender tx)
    (env.AssetID tx)
  cases hf : fetchAccount env v (env.Sender tx) with
  | mk acc v0 =>
    rw [hf] at h hview
    cases acc with
    | none =>
      simp only [Prod.mk.injEq, true_and] at h
      subst h
      have hfst := fetchAccount_fst env v (env.Sender tx) (env.AssetID tx)
      rw [hf] at hfst
      simp only [Option.map_none'] at hfst
      rw [hview, ← hfst] at hx
      cases hx
    | some b =>
      simp only at h
      split_ifs at h with hneg
      · simp at h
      · simp only [Prod.mk.injEq, true_and] at h
        subst h
        rw [speculativeBalance_storeAccount] at hx
        simp only [if_true, Option.some.injEq] at hx
        subst hx
        have : ¬ (((b.Add (env.AssetID tx) (-env.Amount tx)).Add (env.AssetID tx)
            (-env.Fee tx)).Get (env.AssetID tx) < 0) := fun hlt => hneg ⟨hty, hlt⟩
        exact not_lt.1 this

theorem updateReceiver_true {J : Type} (env : ValidatorEnv J) (v v1 : Verification)
    (tx : Transaction) (h : updateReceiver env v tx = (true, v1)) :
    (env.HexToChainCoordinate (env.ToChain tx) = env.ChainID →
      ∀ x, speculativeBalance env v1 (env.Recipient tx) (env.AssetID tx) = some x → 0 ≤ x) ∧
    (∀ a, (env.HexToChainCoordinate (env.ToChain tx) = env.ChainID → a ≠ env.Recipient tx) →
      speculativeBalance env v1 a (env.AssetID tx) = speculativeBalance env v a (env.AssetID tx)) := by
  unfold updateReceiver at h
  by_cases hto : env.HexToChainCoordinate (env.ToChain tx) = env.ChainID
  · simp only [hto, if_true] at h
    have hview := fun a => speculativeBalance_fetchAccount env v (env.Recipient tx) a
      (env.AssetID tx)
    cases hf : fetchAccount env v (env.Recipient tx) with
    | mk acc v0 =>
      rw [hf] at h hview
      cases acc with
      | none =>
        simp only [Prod.mk.injEq, true_and] at h
        subst h
        refine ⟨fun _ x hx => ?_, fun a _ => hview a⟩
        have hfst := fetchAccount_fst env v (env.Recipient tx) (env.AssetID tx)
        rw [hf] at hfst
        simp only [Option.map_none'] at hfst
        rw [hview, ← hfst] at hx
        cases hx
      | some b =>
        simp only at h
        split_ifs at h with hneg
        · simp at h
        · simp only [Prod.mk.injEq, true_and] at h
          subst h
          refine ⟨fun _ x hx => ?_, fun a ha => ?_⟩
          · rw [speculativeBalance_storeAccount] at hx
            simp only [if_true, Option.some.injEq] at hx
            subst hx
            exact not_lt.1 hneg
          · rw [speculativeBalance_storeAccount, if_neg (ha hto)]
            exact hview a
  · simp only [hto, if_false, Prod.mk.injEq, true_and] at h
    subst h
    exact ⟨fun h => absurd h hto, fun _ _ => rfl⟩

/-- C20: whenever `updateAccount(tx)` returns true, the recipient's speculative balance
of the transaction's asset is non-negative afterwards when `toChain` is the local
chain, for every transaction type; and for a transaction that is neither `Issue`
nor `IssueUpdate` so is the sender's when `fromChain` is the local chain. -/
theorem updateAccount_true_nonneg {J : Type} (env : ValidatorEnv J) (v v1 : Verification)
    (tx : Transaction) (h : updateAccount env v tx = (true, v1)) :
    (env.HexToChainCoordinate (env.ToChain tx) = env.ChainID →
      ∀ x, speculativeBalance env v1 (env.Recipient tx) (env.AssetID tx) = some x → 0 ≤ x) ∧
    (env.GetType tx ≠ .TypeIssue ∧ env.GetType tx ≠ .TypeIssueUpdate →
      env.HexToChainCoordinate (env.FromChain tx) = env.ChainID →
      ∀ x, speculativeBalance env v1 (env.Sender tx) (env.AssetID tx) = some x → 0 ≤ x) := by
  unfold updateAccount at h
  cases hs : updateSender env v tx with
  | mk ok v0 =>
    rw [hs] at h
    cases ok with
    | false => simp at h
    | true =>
      simp only at h
      obtain ⟨hrecv, hframe⟩ := updateReceiver_true env v0 v1 tx h
      refine ⟨hrecv, fun hty hfrom x hx => ?_⟩
      by_cases hsame : env.HexToChainCoordinate (env.ToChain tx) = env.ChainID ∧
          env.Sender tx = env.Recipient tx
      · rw [hsame.2] at hx
        exact hrecv hsame.1 x hx
      · rw [hframe (env.Sender tx) (fun hto hEq => hsame ⟨hto, hEq⟩)] at hx
        exact updateSender_true env v v0 tx hs hty hfrom x hx

/-- Witness for C20: 10 of asset 1 move from `"S"`, which holds 100, to `"T"`. -/
theorem updateAccount_true_nonneg_witness :
    updateAccount sampleEnv sampleVerification ⟨4⟩
        = (true, (updateAccount sampleEnv sampleVerification ⟨4⟩).2) ∧
      speculativeBalance sampleEnv (updateAccount sampleEnv sampleVerification ⟨4⟩).2 "T" 1
        = some 10 ∧
      speculativeBalance sampleEnv (updateAccount sampleEnv sampleVerification ⟨4⟩).2 "S" 1
        = some 90 ∧
      (0 : Int) ≤ 10 ∧ (0 : Int) ≤ 90 :=
  ⟨rfl, rfl, rfl,
    (updateAccount_true_nonneg sampleEnv sampleVerification _ ⟨4⟩ rfl).1 rfl 10 rfl,
    (updateAccount_true_nonneg sampleEnv sampleVerification _ ⟨4⟩ rfl).2 (by decide) rfl 90 rfl⟩

/-- C17 at its failing input: `"S"` holds 100 and `"R"` holds -50 of asset 1, and
transaction 1 moves 10 from `"S"` to `"R"`.  `updateAccount` returns false on the
recipient's side, where it restores the recipient's -50, and the sender's balance
stays at 90. -/
theorem updateAccount_false_keeps_sender_debit :
    speculativeBalance sampleEnv sampleVerification "S" 1 = some 100 ∧
      speculativeBalance sampleEnv sampleVerification "R" 1 = some (-50) ∧
      (updateAccount sampleEnv sampleVerification ⟨1⟩).1 = false ∧
      speculativeBalance sampleEnv (updateAccount sampleEnv sampleVerification ⟨1⟩).2 "S" 1
        = some 90 ∧
      speculativeBalance sampleEnv (updateAccount sampleEnv sampleVerification ⟨1⟩).2 "R" 1
        = some (-50) :=
  ⟨rfl, rfl, rfl, rfl, rfl⟩

/-- C18 at its failing input: `"A"` and `"B"` hold `2^64` of asset 1 and transaction 2
moves `2^63` from `"A"` to `"B"`.  `updateAccount` returns true and leaves `2^63` on
each side; `rollBackAccount` then adds `Int64(2^63) = -2^63` to the sender instead
of `2^63`, so both balances end at 0, not at the `2^64` they started from. -/
theorem rollBackAccount_after_updateAccount_large :
    speculativeBalance sampleEnv sampleVerification "A" 1 = some (2 ^ 64) ∧
      (updateAccount sampleEnv sampleVerification ⟨2⟩).1 = true ∧
      speculativeBalance sampleEnv (updateAccount sampleEnv sampleVerification ⟨2⟩).2 "A" 1
        = some (2 ^ 63) ∧
      bigInt64 (2 ^ 63) = -(2 ^ 63) ∧
      speculativeBalance sampleEnv
        (rollBackAccount sampleEnv (updateAccount sampleEnv sampleVerification ⟨2⟩).2 ⟨2⟩) "A" 1
        = some 0 ∧
      speculativeBalance sampleEnv
        (rollBackAccount sampleEnv (updateAccount sampleEnv sampleVerification ⟨2⟩).2 ⟨2⟩) "B" 1
        = some 0 := by
  refine ⟨?_, ?_, ?_, ?_, ?_, ?_⟩ <;> decide

/-- C19 at its failing input: transaction 2 is an ordinary transfer of `2^63` between
two existing accounts of the local chain and `updateAccount` returns true; the
sender loses `2^63`, the recipient gains `Int64(2^63) = -2^63`, and the sum of the
balances of asset 1 over all accounts falls from `2^65 + 50` to `2^64 + 50`. -/
theorem updateAccount_sum_changes_large :
    (updateAccount sampleEnv sampleVerification ⟨2⟩).1 = true ∧
      totalBalance sampleEnv sampleVerification ["S", "R", "T", "A", "B"] 1 = 2 ^ 65 + 50 ∧
      totalBalance sampleEnv (updateAccount sampleEnv sampleVerification ⟨2⟩).2
        ["S", "R", "T", "A", "B"] 1 = 2 ^ 64 + 50 := by
  refine ⟨?_, ?_, ?_⟩ <;> decide

/-! ## Validator: VerifyTxs -/

theorem verifyLoop_partition {J : Type} (env : ValidatorEnv J) (txs : List Transaction) :
    ∀ (v : Verification) (ttxs etxs : List Transaction),
      ∃ mask : List Bool, mask.length = txs.length ∧
        (verifyLoop env v ttxs etxs txs).ttxs = ttxs ++ pickByMask mask txs true ∧
        (verifyLoop env v ttxs etxs txs).etxs = etxs ++ pickByMask mask txs false := by
  induction txs with
  | nil =>
    intro v ttxs etxs
    exact ⟨[], rfl, by simp [verifyLoop, pickByMask], by simp [verifyLoop, pickByMask]⟩
  | cons tx rest ih =>
    intro v ttxs etxs
    simp only [verifyLoop]
    cases hstep : verifyTx env v tx with
    | mk ok v1 =>
      cases ok with
      | true =>
        obtain ⟨mask, hlen, h1, h2⟩ := ih v1 (ttxs ++ [tx]) etxs
        refine ⟨true :: mask, by simp [hlen], ?_, ?_⟩
        · simp only [h1]
          simp [pickByMask, List.filter_cons]
        · simp only [h2]
          simp [pickByMask, List.filter_cons]
      | false =>
        obtain ⟨mask, hlen, h1, h2⟩ := ih v1 ttxs (etxs ++ [tx])
        refine ⟨false :: mask, by simp [hlen], ?_, ?_⟩
        · simp only [h1]
          simp [pickByMask, List.filter_cons]
        · simp only [h2]
          simp [pickByMask, List.filter_cons]

/-- C16: for a non-empty batch with validation enabled, `VerifyTxs` puts every position
of `txs` on exactly one of the two lists it returns and keeps the input order in
each: there is a mask over the positions such that the accepted list is `txs` at
the positions marked true and the rejected list is `txs` at the others. -/
theorem VerifyTxs_partition {J : Type} (env : ValidatorEnv J) (v : Verification)
    (txs : List Transaction) (hne : txs ≠ []) (hvalid : v.IsValid = true) :
    ∃ mask : List Bool, mask.length = txs.length ∧
      (VerifyTxs env v txs).ttxs = pickByMask mask txs true ∧
      (VerifyTxs env v txs).etxs = pickByMask mask txs false := by
  have hlen : txs.length ≠ 0 := fun h => hne (List.length_eq_zero.1 h)
  obtain ⟨mask, h0, h1, h2⟩ := verifyLoop_partition env txs v [] []
  refine ⟨mask, h0, ?_, ?_⟩
  · simp only [VerifyTxs, hlen, hvalid]
    simpa using h1
  · simp only [VerifyTxs, hlen, hvalid]
    simpa using h2

/-- Witness for C16: of the batch 4, 1, 5 the transfers 4 and 5 are accepted and
transaction 1, which would leave the recipient negative, is rejected. -/
theorem VerifyTxs_partition_witness :
    (VerifyTxs sampleEnv sampleVerification [⟨4⟩, ⟨1⟩, ⟨5⟩]).ttxs = [⟨4⟩, ⟨5⟩] ∧
      (VerifyTxs sampleEnv sampleVerification [⟨4⟩, ⟨1⟩, ⟨5⟩]).etxs = [⟨1⟩] ∧
      ∃ mask : List Bool, mask.length = 3 ∧
        (VerifyTxs sampleEnv sampleVerification [⟨4⟩, ⟨1⟩, ⟨5⟩]).ttxs
          = pickByMask mask [⟨4⟩, ⟨1⟩, ⟨5⟩] true ∧
        (VerifyTxs sampleEnv sampleVerification [⟨4⟩, ⟨1⟩, ⟨5⟩]).etxs
          = pickByMask mask [⟨4⟩, ⟨1⟩, ⟨5⟩] false :=
  ⟨by decide, by decide,
    VerifyTxs_partition sampleEnv sampleVerification [⟨4⟩, ⟨1⟩, ⟨5⟩] (by simp) rfl⟩

/-! ## Assets -/

/-- C14: when `a.Update(s)` succeeds, the asset it returns has the ID, the issuer and
the owner of `a`; and an update of a non-empty `s` whose merged asset differs from
`a` in one of the three returns an error and no asset. -/
theorem Asset.Update_readonly {J : Type} (json : JSONLib J) (asset : Asset) (jsonStr : String) :
    (∀ newAsset, asset.Update json jsonStr = .ok newAsset →
      newAsset.ID = asset.ID ∧ newAsset.Issuer = asset.Issuer ∧ newAsset.Owner = asset.Owner) ∧
    (jsonStr.length ≠ 0 →
      ((mergedAsset json asset jsonStr).ID ≠ asset.ID ∨
        (mergedAsset json asset jsonStr).Issuer ≠ asset.Issuer ∨
        (mergedAsset json asset jsonStr).Owner ≠ asset.Owner) →
      ∃ err, asset.Update json jsonStr = .error err) := by
  constructor
  · intro newAsset h
    unfold Asset.Update at h
    split_ifs at h with hlen
    · cases h
      exact ⟨rfl, rfl, rfl⟩
    · cases herr : json.UnmarshalAssetErr jsonStr with
      | some err => rw [herr] at h; cases h
      | none =>
        rw [herr] at h
        simp only at h
        split_ifs at h with hguard
        cases h
        simp only [not_or, not_not] at hguard
        exact ⟨hguard.1.symm, hguard.2.1.symm, hguard.2.2.symm⟩
  · intro hlen hdiff
    unfold Asset.Update
    rw [if_neg hlen]
    cases herr : json.UnmarshalAssetErr jsonStr with
    | some err => exact ⟨_, rfl⟩
    | none =>
      simp only
      have hguard : asset.ID ≠ (mergedAsset json asset jsonStr).ID ∨
          asset.Issuer ≠ (mergedAsset json asset jsonStr).Issuer ∨
          asset.Owner ≠ (mergedAsset json asset jsonStr).Owner := by
        rcases hdiff with h | h | h
        · exact Or.inl (Ne.symm h)
        · exact Or.inr (Or.inl (Ne.symm h))
        · exact Or.inr (Or.inr (Ne.symm h))
      rw [if_pos hguard]
      exact ⟨_, rfl⟩

/-- Witness for C14: the asset 1 takes the name `x` and keeps ID, issuer and owner; the
update `{"id":2}` of it is rejected. -/
theorem Asset.Update_readonly_witness :
    Asset.Update sampleJSON ⟨1, "coin", "", 8, 0, "S", "S"⟩ "\x7b\"name\":\"x\"\x7d"
        = .ok ⟨1, "x", "", 8, 0, "S", "S"⟩ ∧
      ((⟨1, "x", "", 8, 0, "S", "S"⟩ : Asset).ID = 1 ∧
        (⟨1, "x", "", 8, 0, "S", "S"⟩ : Asset).Issuer = "S" ∧
        (⟨1, "x", "", 8, 0, "S", "S"⟩ : Asset).Owner = "S") ∧
      ∃ err, Asset.Update sampleJSON ⟨1, "coin", "", 8, 0, "S", "S"⟩ "\x7b\"id\":2\x7d"
        = .error err :=
  ⟨rfl,
    (Asset.Update_readonly sampleJSON ⟨1, "coin", "", 8, 0, "S", "S"⟩
      "\x7b\"name\":\"x\"\x7d").1 _ rfl,
    (Asset.Update_readonly sampleJSON ⟨1, "coin", "", 8, 0, "S", "S"⟩
      "\x7b\"id\":2\x7d").2 (by decide) (Or.inl (by decide))⟩

theorem mergeKnownKeys_get?_of_not_mem {J : Type} (l : List (String × J)) :
    ∀ (oldVal : GoMap J) (k : String), k ∉ l.map Prod.fst →
      (mergeKnownKeys oldVal l).get? k = oldVal.get? k := by
  induction l with
  | nil => intro oldVal k _; rfl
  | cons e l ih =>
    obtain ⟨k0, val⟩ := e
    intro oldVal k hk
    simp only [List.map_cons, List.mem_cons, not_or] at hk
    simp only [mergeKnownKeys]
    cases hget : oldVal.get? k0 with
    | none => exact ih oldVal k hk.2
    | some j =>
      simp only
      cases hset : oldVal.set k0 val with
      | none => exact ih oldVal k hk.2
      | some m =>
        simp only
        rw [ih m k hk.2]
        exact GoMap.get?_set_ne oldVal m k k0 val hset (fun h => hk.1 h.symm)

theorem mergedAsset_get?_of_absent {J : Type} (json : JSONLib J) (asset : Asset)
    (jsonStr k : String) (hk : (json.UnmarshalMap jsonStr).get? k = none) :
    (mergeKnownKeys (asset.projection json) (json.UnmarshalMap jsonStr).range).get? k
      = (asset.projection json).get? k := by
  apply mergeKnownKeys_get?_of_not_mem
  intro hmem
  obtain ⟨e, he, rfl⟩ := List.mem_map.1 hmem
  have := (GoMap.get?_eq_some_iff (json.UnmarshalMap jsonStr) e.1 e.2).2 he
  rw [hk] at this
  cases this

/-- What `Update` leaves of a field whose JSON key does not occur in `s`: the field of
`a` after its passage through the untyped map, which is the field of `a` exactly
when the field survives that passage. -/
theorem Asset.Update_untouched_fields {J : Type} (json : JSONLib J) (asset newAsset : Asset)
    (jsonStr : String) (hlen : jsonStr.length ≠ 0)
    (h : asset.Update json jsonStr = .ok newAsset) :
    ((json.UnmarshalMap jsonStr).get? "name" = none →
      newAsset.Name = (json.toString (json.ofString asset.Name)).getD "") ∧
    ((json.UnmarshalMap jsonStr).get? "descr" = none →
      newAsset.Descr = (json.toString (json.ofString asset.Descr)).getD "") ∧
    ((json.UnmarshalMap jsonStr).get? "precision" = none →
      newAsset.Precision = (json.toUint64 (json.ofUint asset.Precision)).getD 0) ∧
    ((json.UnmarshalMap jsonStr).get? "expiration" = none →
      newAsset.Expiration = (json.toUint32 (json.ofUint asset.Expiration)).getD 0) := by
  unfold Asset.Update at h
  rw [if_neg hlen] at h
  cases herr : json.UnmarshalAssetErr jsonStr with
  | some err => rw [herr] at h; cases h
  | none =>
    rw [herr] at h
    simp only at h
    split_ifs at h with hguard
    cases h
    have hp : ∀ k, (json.UnmarshalMap jsonStr).get? k = none →
        (mergeKnownKeys (asset.projection json) (json.UnmarshalMap jsonStr).range).get? k
          = (asset.projection json).get? k :=
      fun k hk => mergedAsset_get?_of_absent json asset jsonStr k hk
    refine ⟨fun hk => ?_, fun hk => ?_, fun hk => ?_, fun hk => ?_⟩
    · simp only [mergedAsset, Asset.ofProjection, hp _ hk]
      simp [Asset.projection, GoMap.get?, KVMap.get?_set_same, KVMap.get?_set_other]
    · simp only [mergedAsset, Asset.ofProjection, hp _ hk]
      simp [Asset.projection, GoMap.get?, KVMap.get?_set_same, KVMap.get?_set_other]
    · simp only [mergedAsset, Asset.ofProjection, hp _ hk]
      simp [Asset.projection, GoMap.get?, KVMap.get?_set_same, KVMap.get?_set_other]
    · simp only [mergedAsset, Asset.ofProjection, hp _ hk]
      simp [Asset.projection, GoMap.get?, KVMap.get?_set_same, KVMap.get?_set_other]

/-- C15 at its failing input: the asset has the precision `2^53 + 1` and the update
`{"name":"x"}` names no other key.  `Update` succeeds, and the precision of the
asset it returns is `2^53`: the field went through the untyped map as a
`float64`. -/
theorem Asset.Update_changes_precision :
    float64OfNat 9007199254740993 = 9007199254740992 ∧
      sampleJSON.UnmarshalMap "\x7b\"name\":\"x\"\x7d"
        = .made (KVMap.empty.set "name" (.str "x")) ∧
      Asset.Update sampleJSON ⟨1, "coin", "", 9007199254740993, 0, "S", "S"⟩
          "\x7b\"name\":\"x\"\x7d"
        = .ok ⟨1, "x", "", 9007199254740992, 0, "S", "S"⟩ ∧
      Asset.Update sampleJSON ⟨1, "coin", "", 9007199254740993, 0, "S", "S"⟩ ""
        = .ok ⟨1, "coin", "", 9007199254740993, 0, "S", "S"⟩ :=
  ⟨by decide, rfl, rfl, rfl⟩

/-! ## Contract values: the Lua serializer -/

theorem ByteToFloat64_Float64ToByte (f : Float64) : ByteToFloat64 (Float64ToByte f) = f := by
  apply Fin.ext
  have hf : f.val < 2 ^ 64 := f.isLt
  simp only [ByteToFloat64, Float64ToByte, List.foldr_cons, List.foldr_nil]
  norm_num at hf ⊢
  omega

theorem Float64ToByte_length (f : Float64) : (Float64ToByte f).length = 8 := rfl

theorem readBytes_append (s rest : List Nat) : readBytes s.length (s ++ rest) = (s, rest) := by
  simp [readBytes]

theorem loopCount_of_lt (n : Nat) (h : n < 2 ^ 63) : loopCount n = n := by
  unfold loopCount
  rw [if_pos h]

theorem LValue.one_le_size (v : LValue) : 1 ≤ v.size := by
  cases v <;> simp [LValue.size]

theorem LTable.RawSet_of_not_mem :
    ∀ (acc : LTable) (k v : LValue), k ∉ acc.keys →
      acc.RawSet k v = acc.append (.cons k v .nil)
  | .nil, _, _, _ => rfl
  | .cons k0 v0 rest, k, v, hk => by
    simp only [LTable.keys, List.mem_cons, not_or] at hk
    simp only [LTable.RawSet, LTable.append]
    rw [if_neg (fun h => hk.1 h.symm), LTable.RawSet_of_not_mem rest k v hk.2]

theorem LTable.keys_append : ∀ (a b : LTable), (a.append b).keys = a.keys ++ b.keys
  | .nil, _ => rfl
  | .cons k v rest, b => by
    simp only [LTable.append, LTable.keys, List.cons_append]
    rw [LTable.keys_append rest b]

theorem LTable.append_assoc :
    ∀ (a b c : LTable), (a.append b).append c = a.append (b.append c)
  | .nil, _, _ => rfl
  | .cons k v rest, b, c => by
    simp only [LTable.append]
    rw [LTable.append_assoc rest b c]

theorem LTable.nil_append (tb : LTable) : LTable.nil.append tb = tb := rfl

theorem LTable.append_nil : ∀ (a : LTable), a.append .nil = a
  | .nil => rfl
  | .cons k v rest => by
    simp only [LTable.append]
    rw [LTable.append_nil rest]


mutual
theorem byteToLValueFuel_lvalueToByte (VarInt : Nat → List Nat)
    (ReadVarInt : List Nat → Except String (Nat × List Nat))
    (hcodec : ∀ n rest, n < 2 ^ 64 → ReadVarInt (VarInt n ++ rest) = .ok (n, rest)) :
    ∀ (v : LValue), v.Serializable → ∀ (fuel : Nat) (rest : List Nat), v.size ≤ fuel →
      byteToLValueFuel ReadVarInt fuel ((lvalueToByte VarInt v).content ++ rest)
        = .ok (v, rest)
  | .LString s, hv, fuel, rest, hf => by
    cases fuel with
    | zero => simp [LValue.size] at hf
    | succ f =>
      simp only [LValue.Serializable] at hv
      have hlen : s.length < 2 ^ 64 := by
        have : (2 : Nat) ^ 63 < 2 ^ 64 := by norm_num
        omega
      simp only [lvalueToByte, Bytes.content, Option.getD_some, List.append_assoc,
        List.singleton_append, List.cons_append, List.nil_append, byteToLValueFuel, lstringType, if_true]
      rw [hcodec s.length (s ++ rest) hlen]
      simp only [readBytes_append]
  | .LBool b, _, fuel, rest, hf => by
    cases fuel with
    | zero => simp [LValue.size] at hf
    | succ f => cases b <;> simp [lvalueToByte, Bytes.content, byteToLValueFuel, lstringType, lboolType]
  | .LNumber x, _, fuel, rest, hf => by
    cases fuel with
    | zero => simp [LValue.size] at hf
    | succ f =>
      have h8 : ¬ ((Float64ToByte x ++ rest).length < 8) := by
        simp [Float64ToByte_length]
      have htake : (Float64ToByte x ++ rest).take 8 = Float64ToByte x := by
        rw [← Float64ToByte_length x, List.take_left']
        rfl
      have hdrop : (Float64ToByte x ++ rest).drop 8 = rest := by
        rw [← Float64ToByte_length x, List.drop_left']
        rfl
      simp only [lvalueToByte, Bytes.content, Option.getD_some, List.singleton_append,
        List.cons_append, List.nil_append, byteToLValueFuel, lstringType, lboolType, lnumberType,
        show ¬ ((2 : Nat) = 0) by decide, show ¬ ((2 : Nat) = 1) by decide, if_false,
        if_true, h8, htake, hdrop, ByteToFloat64_Float64ToByte]
  | .LTable tb, hv, fuel, rest, hf => by
    cases fuel with
    | zero => simp [LValue.size] at hf
    | succ f =>
      simp only [LValue.Serializable] at hv
      obtain ⟨hcount, hnodup, htb⟩ := hv
      have hlen : tb.ElementCount < 2 ^ 64 := by
        have : (2 : Nat) ^ 63 < 2 ^ 64 := by norm_num
        omega
      simp only [LValue.size, Nat.add_le_add_iff_right] at hf
      simp only [lvalueToByte, Bytes.content, Option.getD_some, List.append_assoc,
        List.singleton_append, List.cons_append, List.nil_append, byteToLValueFuel, lstringType, lboolType,
        lnumberType, ltableTYpe, show ¬ ((3 : Nat) = 0) by decide,
        show ¬ ((3 : Nat) = 1) by decide, show ¬ ((3 : Nat) = 2) by decide, if_false, if_true]
      rw [hcodec tb.ElementCount (tableToByte VarInt tb ++ rest) hlen]
      simp only [loopCount_of_lt _ hcount]
      have := readEntries_tableToByte VarInt ReadVarInt hcodec tb htb f .nil rest hf
        (fun k _ hk => by simp [LTable.keys] at hk) hnodup
      rw [this, LTable.nil_append]
  | .LOther, hv, _, _, _ => by
    simp [LValue.Serializable] at hv
theorem readEntries_tableToByte (VarInt : Nat → List Nat)
    (ReadVarInt : List Nat → Except String (Nat × List Nat))
    (hcodec : ∀ n rest, n < 2 ^ 64 → ReadVarInt (VarInt n ++ rest) = .ok (n, rest)) :
    ∀ (tb : LTable), LTable.Serializable tb → ∀ (fuel : Nat) (acc : LTable) (rest : List Nat),
      tb.size ≤ fuel → (∀ k ∈ tb.keys, k ∉ acc.keys) → tb.keys.Nodup →
      readEntries ReadVarInt fuel tb.ElementCount acc (tableToByte VarInt tb ++ rest)
        = .ok (.LTable (acc.append tb), rest)
  | .nil, _, fuel, acc, rest, _, _, _ => by
    have happ : ∀ a : LTable, a.append .nil = a := by
      intro a
      have := LTable.append_assoc a .nil .nil
      exact LTable.append_nil a
    simp [LTable.ElementCount, tableToByte, readEntries, happ]
  | .cons k v r, htb, fuel, acc, rest, hf, hdisj, hnodup => by
    simp only [LTable.Serializable] at htb
    obtain ⟨hk, hv, hr⟩ := htb
    simp only [LTable.size] at hf
    have hk1 := LValue.one_le_size k
    have hv1 := LValue.one_le_size v
    cases fuel with
    | zero => omega
    | succ f =>
      simp only [LTable.keys, List.nodup_cons] at hnodup
      simp only [LTable.ElementCount, tableToByte, List.append_assoc, readEntries]
      rw [byteToLValueFuel_lvalueToByte VarInt ReadVarInt hcodec k hk f _ (by omega)]
      simp only
      rw [byteToLValueFuel_lvalueToByte VarInt ReadVarInt hcodec v hv f _ (by omega)]
      simp only
      have hknot : k ∉ acc.keys := hdisj k (by simp [LTable.keys])
      rw [LTable.RawSet_of_not_mem acc k v hknot]
      rw [readEntries_tableToByte VarInt ReadVarInt hcodec r hr f _ rest (by omega) ?_ hnodup.2]
      · rw [LTable.append_assoc]
        rfl
      · intro k1 hk1mem
        rw [LTable.keys_append]
        simp only [LTable.keys, List.mem_append, List.mem_singleton, not_or]
        refine ⟨hdisj k1 (by simp [LTable.keys, hk1mem]), ?_⟩
        intro heq
        exact hnodup.1 (heq ▸ hk1mem)
end

mutual
theorem LValue.size_le_length (VarInt : Nat → List Nat) :
    ∀ (v : LValue), v.Serializable → v.size ≤ (lvalueToByte VarInt v).content.length
  | .LString s, _ => by
    simp only [LValue.size, lvalueToByte, Bytes.content, Option.getD_some, List.length_append,
      List.length_singleton]
    omega
  | .LBool b, _ => by simp [LValue.size, lvalueToByte, Bytes.content]
  | .LNumber x, _ => by simp [LValue.size, lvalueToByte, Bytes.content]
  | .LTable tb, hv => by
    simp only [LValue.Serializable] at hv
    have := LTable.size_le_length_table VarInt tb hv.2.2
    simp only [LValue.size, lvalueToByte, Bytes.content, Option.getD_some, List.length_append,
      List.length_singleton]
    omega
  | .LOther, hv => by simp [LValue.Serializable] at hv
theorem LTable.size_le_length_table (VarInt : Nat → List Nat) :
    ∀ (tb : LTable), LTable.Serializable tb → tb.size ≤ (tableToByte VarInt tb).length
  | .nil, _ => by simp [LTable.size]
  | .cons k v r, htb => by
    simp only [LTable.Serializable] at htb
    have h1 := LValue.size_le_length VarInt k htb.1
    have h2 := LValue.size_le_length VarInt v htb.2.1
    have h3 := LTable.size_le_length_table VarInt r htb.2.2
    simp only [LTable.size, tableToByte, List.length_append]
    omega
end

/-- C11: for every Lua value built from strings, booleans, numbers and tables of such
keys and values, `byteToLValue` applied to the bytes of `lvalueToByte(v)`, whatever
follows them in the buffer, returns `v` without error and leaves what follows in
the buffer (for every length prefix whose reader inverts its writer; numbers are
bit patterns). -/
theorem byteToLValue_lvalueToByte (VarInt : Nat → List Nat)
    (ReadVarInt : List Nat → Except String (Nat × List Nat))
    (hcodec : ∀ n rest, n < 2 ^ 64 → ReadVarInt (VarInt n ++ rest) = .ok (n, rest))
    (v : LValue) (hv : v.Serializable) (rest : List Nat) :
    byteToLValue ReadVarInt ((lvalueToByte VarInt v).content ++ rest) = .ok (v, rest) := by
  unfold byteToLValue
  apply byteToLValueFuel_lvalueToByte VarInt ReadVarInt hcodec v hv
  have := LValue.size_le_length VarInt v hv
  simp only [List.length_append]
  omega

theorem specReadVarInt_specVarIntAux (fuel : Nat) :
    ∀ (n : Nat) (rest : List Nat), n ≤ fuel →
      specReadVarInt (specVarIntAux fuel n ++ rest) = .ok (n, rest) := by
  induction fuel with
  | zero =>
    intro n rest hn
    have : n = 0 := by omega
    subst this
    simp [specVarIntAux, specReadVarInt]
  | succ fuel ih =>
    intro n rest hn
    simp only [specVarIntAux]
    split_ifs with hlt
    · simp [specReadVarInt, hlt]
    · have hdiv : n / 128 ≤ fuel := by omega
      have hih := ih (n / 128) rest hdiv
      have hge : ¬ (n % 128 + 128 < 128) := by omega
      simp only [List.cons_append, specReadVarInt, List.append_eq, hih, hge, if_false,
        Except.ok.injEq, Prod.mk.injEq, and_true]
      omega

theorem specReadVarInt_specVarInt (n : Nat) (rest : List Nat) :
    specReadVarInt (specVarInt n ++ rest) = .ok (n, rest) :=
  specReadVarInt_specVarIntAux n n rest le_rfl

theorem sampleLValue_serializable : sampleLValue.Serializable := by
  norm_num [sampleLValue, LValue.Serializable, LTable.Serializable, LTable.ElementCount,
    LTable.keys]
  intro h
  cases h

/-- Witness for C11: the table `sampleLValue`, followed in the buffer by the byte 9. -/
theorem byteToLValue_lvalueToByte_witness :
    sampleLValue.Serializable ∧
      lvalueToByte specVarInt sampleLValue
        = some [3, 2, 0, 1, 97, 1, 1, 2, 0, 0, 0, 0, 0, 0, 240, 63, 3, 1, 0, 1, 110, 0, 1, 107] ∧
      byteToLValue specReadVarInt ((lvalueToByte specVarInt sampleLValue).content ++ [9])
        = .ok (sampleLValue, [9]) :=
  ⟨sampleLValue_serializable, by decide,
    byteToLValue_lvalueToByte specVarInt specReadVarInt
      (fun n rest _ => specReadVarInt_specVarInt n rest) sampleLValue
      sampleLValue_serializable [9]⟩

/-! ## Contract values: the JS serializer -/

theorem JSValue.one_le_size_js (v : JSValue) : 1 ≤ v.size := by
  cases v <;> simp [JSValue.size]

theorem JSProps.set_of_not_mem :
    ∀ (acc : JSProps) (k : List Nat) (v : JSValue), k ∉ acc.keys →
      acc.set k v = acc.append (.cons k v .nil)
  | .nil, _, _, _ => rfl
  | .cons k0 v0 rest, k, v, hk => by
    simp only [JSProps.keys, List.mem_cons, not_or] at hk
    simp only [JSProps.set, JSProps.append]
    rw [if_neg (fun h => hk.1 h.symm), JSProps.set_of_not_mem rest k v hk.2]

theorem JSProps.keys_append_props : ∀ (a b : JSProps), (a.append b).keys = a.keys ++ b.keys
  | .nil, _ => rfl
  | .cons k v rest, b => by
    simp only [JSProps.append, JSProps.keys, List.cons_append]
    rw [JSProps.keys_append_props rest b]

theorem JSProps.append_assoc_props :
    ∀ (a b c : JSProps), (a.append b).append c = a.append (b.append c)
  | .nil, _, _ => rfl
  | .cons k v rest, b, c => by
    simp only [JSProps.append]
    rw [JSProps.append_assoc_props rest b c]

theorem JSProps.append_nil_props : ∀ (a : JSProps), a.append .nil = a
  | .nil => rfl
  | .cons k v rest => by
    simp only [JSProps.append]
    rw [JSProps.append_nil_props rest]

theorem VarInt_ne_nil (VarInt : Nat → List Nat)
    (ReadVarInt : List Nat → Except String (Nat × List Nat))
    (hcodec : ∀ n rest, n < 2 ^ 64 → ReadVarInt (VarInt n ++ rest) = .ok (n, rest))
    (n : Nat) (hn : n < 2 ^ 64) : 1 ≤ (VarInt n).length := by
  by_contra hlen
  have hnil : VarInt n = [] := List.length_eq_zero.1 (by omega)
  have h1 := hcodec n (VarInt (if n = 0 then 1 else 0)) hn
  have h2 := hcodec (if n = 0 then 1 else 0) [] (by split_ifs <;> norm_num)
  rw [hnil, List.nil_append] at h1
  rw [List.append_nil, h1] at h2
  simp only [Except.ok.injEq, Prod.mk.injEq] at h2
  have := h2.1
  split_ifs at this <;> omega

mutual
theorem byteToJSvalueFuel_jsvalueToByte (VarInt : Nat → List Nat)
    (ReadVarInt : List Nat → Except String (Nat × List Nat))
    (hcodec : ∀ n rest, n < 2 ^ 64 → ReadVarInt (VarInt n ++ rest) = .ok (n, rest)) :
    ∀ (v : JSValue), v.Serializable → ∀ (fuel : Nat) (rest : List Nat), v.size ≤ fuel →
      byteToJSvalueFuel ReadVarInt fuel ((jsvalueToByte VarInt v).content ++ rest)
        = .ok (v, rest)
  | .JSBoolean b, _, fuel, rest, hf => by
    cases fuel with
    | zero => simp [JSValue.size] at hf
    | succ f =>
      cases b <;> simp [jsvalueToByte, Bytes.content, byteToJSvalueFuel, stringType, boolType]
  | .JSNull, _, fuel, rest, hf => by
    cases fuel with
    | zero => simp [JSValue.size] at hf
    | succ f =>
      simp [jsvalueToByte, Bytes.content, byteToJSvalueFuel, stringType, boolType, numberType,
        nullType]
  | .JSNumber x, _, fuel, rest, hf => by
    cases fuel with
    | zero => simp [JSValue.size] at hf
    | succ f =>
      have h8 : ¬ ((Float64ToByte x ++ rest).length < 8) := by
        simp [Float64ToByte_length]
      have htake : (Float64ToByte x ++ rest).take 8 = Float64ToByte x := by
        rw [← Float64ToByte_length x, List.take_left']
        rfl
      have hdrop : (Float64ToByte x ++ rest).drop 8 = rest := by
        rw [← Float64ToByte_length x, List.drop_left']
        rfl
      simp only [jsvalueToByte, Bytes.content, Option.getD_some, List.singleton_append,
        List.cons_append, List.nil_append, byteToJSvalueFuel, stringType, boolType, numberType,
        show ¬ ((2 : Nat) = 0) by decide, show ¬ ((2 : Nat) = 1) by decide, if_false,
        if_true, h8, htake, hdrop, ByteToFloat64_Float64ToByte]
  | .JSString s, hv, fuel, rest, hf => by
    cases fuel with
    | zero => simp [JSValue.size] at hf
    | succ f =>
      simp only [JSValue.Serializable] at hv
      have hlen : s.length < 2 ^ 64 := by
        have : (2 : Nat) ^ 63 < 2 ^ 64 := by norm_num
        omega
      simp only [jsvalueToByte, Bytes.content, Option.getD_some, List.append_assoc,
        List.singleton_append, List.cons_append, List.nil_append, byteToJSvalueFuel,
        stringType, if_true]
      rw [hcodec s.length (s ++ rest) hlen]
      simp only [readBytes_append]
  | .JSObject props, hv, fuel, rest, hf => by
    cases fuel with
    | zero => simp [JSValue.size] at hf
    | succ f =>
      simp only [JSValue.Serializable] at hv
      obtain ⟨hcount, hnodup, hprops⟩ := hv
      have hlen : props.length < 2 ^ 64 := by
        have : (2 : Nat) ^ 63 < 2 ^ 64 := by norm_num
        omega
      simp only [JSValue.size, Nat.add_le_add_iff_right] at hf
      simp only [jsvalueToByte, Bytes.content, Option.getD_some, List.append_assoc,
        List.singleton_append, List.cons_append, List.nil_append, byteToJSvalueFuel,
        stringType, boolType, numberType, nullType, objectType,
        show ¬ ((3 : Nat) = 0) by decide, show ¬ ((3 : Nat) = 1) by decide,
        show ¬ ((3 : Nat) = 2) by decide, show ¬ ((3 : Nat) = 4) by decide, if_false, if_true]
      rw [hcodec props.length (propsToByte VarInt props ++ rest) hlen]
      simp only [loopCount_of_lt _ hcount]
      have := readProps_propsToByte VarInt ReadVarInt hcodec props hprops f .nil rest hf
        (fun k _ hk => by simp [JSProps.keys] at hk) hnodup
      rw [this]
      rfl
  | .JSClassObject _ _, hv, _, _, _ => by
    simp [JSValue.Serializable] at hv
  | .JSOther, hv, _, _, _ => by
    simp [JSValue.Serializable] at hv
theorem readProps_propsToByte (VarInt : Nat → List Nat)
    (ReadVarInt : List Nat → Except String (Nat × List Nat))
    (hcodec : ∀ n rest, n < 2 ^ 64 → ReadVarInt (VarInt n ++ rest) = .ok (n, rest)) :
    ∀ (props : JSProps), JSProps.Serializable props →
      ∀ (fuel : Nat) (acc : JSProps) (rest : List Nat),
      props.size ≤ fuel → (∀ k ∈ props.keys, k ∉ acc.keys) → props.keys.Nodup →
      readProps ReadVarInt fuel props.length acc (propsToByte VarInt props ++ rest)
        = .ok (.JSObject (acc.append props), rest)
  | .nil, _, fuel, acc, rest, _, _, _ => by
    simp [JSProps.length, propsToByte, readProps, JSProps.append_nil_props]
  | .cons k v r, hprops, fuel, acc, rest, hf, hdisj, hnodup => by
    simp only [JSProps.Serializable] at hprops
    obtain ⟨hk, hv, hr⟩ := hprops
    simp only [JSProps.size] at hf
    have hklen : k.length < 2 ^ 64 := by
      have : (2 : Nat) ^ 63 < 2 ^ 64 := by norm_num
      omega
    cases fuel with
    | zero => omega
    | succ f =>
      simp only [JSProps.keys, List.nodup_cons] at hnodup
      simp only [JSProps.length, propsToByte, List.append_assoc, readProps]
      rw [hcodec k.length _ hklen]
      simp only [readBytes_append]
      rw [byteToJSvalueFuel_jsvalueToByte VarInt ReadVarInt hcodec v hv f _ (by omega)]
      simp only
      have hknot : k ∉ acc.keys := hdisj k (by simp [JSProps.keys])
      rw [JSProps.set_of_not_mem acc k v hknot]
      rw [readProps_propsToByte VarInt ReadVarInt hcodec r hr f _ rest (by omega) ?_ hnodup.2]
      · rw [JSProps.append_assoc_props]
        rfl
      · intro k1 hk1mem
        rw [JSProps.keys_append_props]
        simp only [JSProps.keys, List.mem_append, List.mem_singleton, not_or]
        refine ⟨hdisj k1 (by simp [JSProps.keys, hk1mem]), ?_⟩
        intro heq
        exact hnodup.1 (heq ▸ hk1mem)
end

mutual
theorem JSValue.size_le_length_js (VarInt : Nat → List Nat)
    (ReadVarInt : List Nat → Except String (Nat × List Nat))
    (hcodec : ∀ n rest, n < 2 ^ 64 → ReadVarInt (VarInt n ++ rest) = .ok (n, rest)) :
    ∀ (v : JSValue), v.Serializable → v.size ≤ (jsvalueToByte VarInt v).content.length
  | .JSBoolean b, _ => by simp [JSValue.size, jsvalueToByte, Bytes.content]
  | .JSNull, _ => by simp [JSValue.size, jsvalueToByte, Bytes.content]
  | .JSNumber x, _ => by simp [JSValue.size, jsvalueToByte, Bytes.content]
  | .JSString s, _ => by
    simp only [JSValue.size, jsvalueToByte, Bytes.content, Option.getD_some, List.length_append,
      List.length_singleton]
    omega
  | .JSObject props, hv => by
    simp only [JSValue.Serializable] at hv
    have := JSProps.size_le_length_props VarInt ReadVarInt hcodec props hv.2.2
    simp only [JSValue.size, jsvalueToByte, Bytes.content, Option.getD_some, List.length_append,
      List.length_singleton]
    omega
  | .JSClassObject _ _, hv => by simp [JSValue.Serializable] at hv
  | .JSOther, hv => by simp [JSValue.Serializable] at hv
theorem JSProps.size_le_length_props (VarInt : Nat → List Nat)
    (ReadVarInt : List Nat → Except String (Nat × List Nat))
    (hcodec : ∀ n rest, n < 2 ^ 64 → ReadVarInt (VarInt n ++ rest) = .ok (n, rest)) :
    ∀ (props : JSProps), JSProps.Serializable props →
      props.size ≤ (propsToByte VarInt props).length
  | .nil, _ => by simp [JSProps.size]
  | .cons k v r, hprops => by
    simp only [JSProps.Serializable] at hprops
    have hklen : k.length < 2 ^ 64 := by
      have : (2 : Nat) ^ 63 < 2 ^ 64 := by norm_num
      omega
    have h1 := VarInt_ne_nil VarInt ReadVarInt hcodec k.length hklen
    have h2 := JSValue.size_le_length_js VarInt ReadVarInt hcodec v hprops.2.1
    have h3 := JSProps.size_le_length_props VarInt ReadVarInt hcodec r hprops.2.2
    simp only [JSProps.size, propsToByte, List.length_append]
    omega
end

/-- C12, amended: for every JS value built from strings, booleans, numbers, null and
plain objects (class `Object`) of such property values, `byteToJSvalue` applied to
the bytes of `jsvalueToByte(v)`, whatever follows them in the buffer, returns `v`
without error and leaves what follows in the buffer (for every length prefix
whose reader inverts its writer; numbers are bit patterns). -/
theorem byteToJSvalue_jsvalueToByte (VarInt : Nat → List Nat)
    (ReadVarInt : List Nat → Except String (Nat × List Nat))
    (hcodec : ∀ n rest, n < 2 ^ 64 → ReadVarInt (VarInt n ++ rest) = .ok (n, rest))
    (v : JSValue) (hv : v.Serializable) (rest : List Nat) :
    byteToJSvalue ReadVarInt ((jsvalueToByte VarInt v).content ++ rest) = .ok (v, rest) := by
  unfold byteToJSvalue
  apply byteToJSvalueFuel_jsvalueToByte VarInt ReadVarInt hcodec v hv
  have := JSValue.size_le_length_js VarInt ReadVarInt hcodec v hv
  simp only [List.length_append]
  omega

theorem sampleJSValue_serializable : sampleJSValue.Serializable := by
  norm_num [sampleJSValue, JSValue.Serializable, JSProps.Serializable, JSProps.length,
    JSProps.keys]

/-- Witness for C12: the object `sampleJSValue`, followed in the buffer by the byte 9. -/
theorem byteToJSvalue_jsvalueToByte_witness :
    sampleJSValue.Serializable ∧
      jsvalueToByte specVarInt sampleJSValue
        = some [3, 3, 1, 97, 1, 1, 1, 110, 4, 1, 111, 3, 1, 1, 115, 0, 1, 107] ∧
      byteToJSvalue specReadVarInt ((jsvalueToByte specVarInt sampleJSValue).content ++ [9])
        = .ok (sampleJSValue, [9]) :=
  ⟨sampleJSValue_serializable, by decide,
    byteToJSvalue_jsvalueToByte specVarInt specReadVarInt
      (fun n rest _ => specReadVarInt_specVarInt n rest) sampleJSValue
      sampleJSValue_serializable [9]⟩

/-- An array, or another object that is not of class `Object`, is written as the plain
object with its keys and read back as that plain object. -/
theorem byteToJSvalue_jsvalueToByte_classObject (VarInt : Nat → List Nat)
    (ReadVarInt : List Nat → Except String (Nat × List Nat))
    (hcodec : ∀ n rest, n < 2 ^ 64 → ReadVarInt (VarInt n ++ rest) = .ok (n, rest))
    (cls : String) (props : JSProps) (hv : (JSValue.JSObject props).Serializable)
    (rest : List Nat) :
    byteToJSvalue ReadVarInt ((jsvalueToByte VarInt (.JSClassObject cls props)).content ++ rest)
      = .ok (.JSObject props, rest) := by
  have hb : jsvalueToByte VarInt (.JSClassObject cls props)
      = jsvalueToByte VarInt (.JSObject props) := by
    simp only [jsvalueToByte]
  rw [hb]
  unfold byteToJSvalue
  apply byteToJSvalueFuel_jsvalueToByte VarInt ReadVarInt hcodec _ hv
  have := JSValue.size_le_length_js VarInt ReadVarInt hcodec _ hv
  simp only [List.length_append]
  omega

/-- C12 as stated fails: the array `[true]`, an object whose one property value is a
boolean, is written as the object with the key `0` and read back as that plain
object, not as the array. -/
theorem byteToJSvalue_jsvalueToByte_array :
    jsvalueToByte specVarInt sampleJSArray = some [3, 1, 1, 48, 1, 1] ∧
      byteToJSvalue specReadVarInt ((jsvalueToByte specVarInt sampleJSArray).content ++ [])
        = .ok (.JSObject (.cons [48] (.JSBoolean true) .nil), []) ∧
      byteToJSvalue specReadVarInt ((jsvalueToByte specVarInt sampleJSArray).content ++ [])
        ≠ .ok (sampleJSArray, []) := by
  have h := byteToJSvalue_jsvalueToByte_classObject specVarInt specReadVarInt
    (fun n rest _ => specReadVarInt_specVarInt n rest) "Array"
    (.cons [48] (.JSBoolean true) .nil)
    (by norm_num [JSValue.Serializable, JSProps.Serializable, JSProps.length, JSProps.keys]) []
  refine ⟨by decide, h, ?_⟩
  intro h1
  have h2 : sampleJSArray = .JSClassObject "Array" (.cons [48] (.JSBoolean true) .nil) := rfl
  rw [h2, h] at h1
  simp at h1

/-! ## The two serializers compared -/

theorem SEntries.count_toLua_toJS :
    ∀ (entries : SEntries), entries.toLua.ElementCount = entries.toJS.length
  | .nil => rfl
  | .cons k v rest => by
    simp only [SEntries.toLua, SEntries.toJS, LTable.ElementCount, JSProps.length]
    rw [SEntries.count_toLua_toJS rest]

mutual
theorem SValue.length_toLua_toJS (VarInt : Nat → List Nat) :
    ∀ (s : SValue), (lvalueToByte VarInt s.toLua).content.length
      = (jsvalueToByte VarInt s.toJS).content.length + s.entryCount
  | .SString s => by simp [SValue.toLua, SValue.toJS, lvalueToByte, jsvalueToByte,
      SValue.entryCount, Bytes.content]
  | .SBool b => by simp [SValue.toLua, SValue.toJS, lvalueToByte, jsvalueToByte,
      SValue.entryCount, Bytes.content]
  | .SNumber f => by simp [SValue.toLua, SValue.toJS, lvalueToByte, jsvalueToByte,
      SValue.entryCount, Bytes.content]
  | .STable entries => by
    have h := SEntries.length_toLua_toJS_entries VarInt entries
    simp only [SValue.toLua, SValue.toJS, lvalueToByte, jsvalueToByte, SValue.entryCount,
      Bytes.content, Option.getD_some, List.length_append, List.length_singleton,
      SEntries.count_toLua_toJS entries, h]
    omega
theorem SEntries.length_toLua_toJS_entries (VarInt : Nat → List Nat) :
    ∀ (entries : SEntries), (tableToByte VarInt entries.toLua).length
      = (propsToByte VarInt entries.toJS).length + entries.entryCount
  | .nil => rfl
  | .cons k v rest => by
    have h1 := SValue.length_toLua_toJS VarInt v
    have h2 := SEntries.length_toLua_toJS_entries VarInt rest
    simp only [SEntries.toLua, SEntries.toJS, tableToByte, propsToByte, SEntries.entryCount,
      lvalueToByte, Bytes.content, Option.getD_some, List.length_append,
      List.length_singleton] at h1 h2 ⊢
    omega
end

/-- C13, as the code has it: for a value that both flavours can hold, `jsvalueToByte`
and `lvalueToByte` produce the same bytes exactly when the value is a string, a
boolean, a number or a table without entries; for a table with an entry the Lua
bytes are longer by one byte for every key, the tag that `lvalueToByte` writes in
front of a key and `jsvalueToByte` does not. -/
theorem jsvalueToByte_eq_lvalueToByte_iff (VarInt : Nat → List Nat) (s : SValue) :
    (jsvalueToByte VarInt s.toJS = lvalueToByte VarInt s.toLua ↔ s.entryCount = 0) ∧
      (lvalueToByte VarInt s.toLua).content.length
        = (jsvalueToByte VarInt s.toJS).content.length + s.entryCount := by
  refine ⟨⟨fun h => ?_, fun h => ?_⟩, SValue.length_toLua_toJS VarInt s⟩
  · have hlen := SValue.length_toLua_toJS VarInt s
    rw [h] at hlen
    omega
  · cases s with
    | SString s => simp [SValue.toLua, SValue.toJS, lvalueToByte, jsvalueToByte, stringType,
        lstringType]
    | SBool b => simp [SValue.toLua, SValue.toJS, lvalueToByte, jsvalueToByte, boolType,
        lboolType]
    | SNumber f => simp [SValue.toLua, SValue.toJS, lvalueToByte, jsvalueToByte, numberType,
        lnumberType]
    | STable entries =>
      cases entries with
      | nil => simp [SValue.toLua, SValue.toJS, SEntries.toLua, SEntries.toJS, lvalueToByte,
          jsvalueToByte, objectType, ltableTYpe, LTable.ElementCount, JSProps.length,
          tableToByte, propsToByte]
      | cons k v rest => simp [SValue.entryCount, SEntries.entryCount] at h

/-- C13 as stated fails: for the table whose key `a` holds true, the JS serializer
writes the key as length and bytes and the Lua serializer writes the tag 0 in front
of them. -/
theorem jsvalueToByte_ne_lvalueToByte_table :
    jsvalueToByte specVarInt (SValue.STable (.cons [97] (.SBool true) .nil)).toJS
        = some [3, 1, 1, 97, 1, 1] ∧
      lvalueToByte specVarInt (SValue.STable (.cons [97] (.SBool true) .nil)).toLua
        = some [3, 1, 0, 1, 97, 1, 1] ∧
      jsvalueToByte specVarInt (SValue.STable (.cons [97] (.SBool true) .nil)).toJS
        ≠ lvalueToByte specVarInt (SValue.STable (.cons [97] (.SBool true) .nil)).toLua := by
  refine ⟨?_, ?_, ?_⟩ <;> decide

/-! ## Validator: request batches -/

theorem IterElement_requestBatch_prefix {J : Type} (env : ValidatorEnv J) (BatchSize : Int)
    (txpool : List Transaction) :
    ∀ s : RequestBatch, ∃ p,
      (IterElement (requestBatchStep env BatchSize) s txpool).requestBatch = s.requestBatch ++ p ∧
        p <+: txpool := by
  induction txpool with
  | nil => intro s; exact ⟨[], by simp [IterElement], List.prefix_refl _⟩
  | cons tx rest ih =>
    intro s
    by_cases hc : env.ToChain tx = (if s.to_ = "" then env.ToChain tx else s.to_) ∧
        (s.requestBatch.length : Int) ≤ BatchSize
    · obtain ⟨p, hp, hpre⟩ := ih
        ⟨s.requestBatch ++ [tx], if s.to_ = "" then env.ToChain tx else s.to_⟩
      refine ⟨tx :: p, ?_, ?_⟩
      · simp only [IterElement, requestBatchStep, if_pos hc]
        rw [hp]; simp
      · exact List.cons_prefix_cons.2 ⟨rfl, hpre⟩
    · refine ⟨[], ?_, List.nil_prefix⟩
      simp only [IterElement, requestBatchStep, if_neg hc]
      simp

theorem IterElement_requestBatch_length {J : Type} (env : ValidatorEnv J) (BatchSize : Int)
    (txpool : List Transaction) :
    ∀ s : RequestBatch, (s.requestBatch.length : Int) ≤ BatchSize + 1 →
      ((IterElement (requestBatchStep env BatchSize) s txpool).requestBatch.length : Int) ≤
        BatchSize + 1 := by
  induction txpool with
  | nil => intro s hs; simpa [IterElement] using hs
  | cons tx rest ih =>
    intro s hs
    by_cases hc : env.ToChain tx = (if s.to_ = "" then env.ToChain tx else s.to_) ∧
        (s.requestBatch.length : Int) ≤ BatchSize
    · simp only [IterElement, requestBatchStep, if_pos hc]
      apply ih
      simp only [List.length_append, List.length_singleton, Nat.cast_add, Nat.cast_one]
      omega
    · simp only [IterElement, requestBatchStep, if_neg hc]
      exact hs

theorem IterElement_requestBatch_sameToChain {J : Type} (env : ValidatorEnv J) (BatchSize : Int)
    (txpool : List Transaction) :
    ∀ s : RequestBatch, s.to_ ≠ "" → (∀ tx ∈ s.requestBatch, env.ToChain tx = s.to_) →
      ∀ tx ∈ (IterElement (requestBatchStep env BatchSize) s txpool).requestBatch,
        env.ToChain tx = s.to_ := by
  induction txpool with
  | nil => intro s _ hs; simpa [IterElement] using hs
  | cons tx rest ih =>
    intro s hto hs
    by_cases hc : env.ToChain tx = (if s.to_ = "" then env.ToChain tx else s.to_) ∧
        (s.requestBatch.length : Int) ≤ BatchSize
    · simp only [IterElement, requestBatchStep, if_pos hc]
      have hc1 := hc.1
      rw [if_neg hto] at hc1
      have := ih
        ⟨s.requestBatch ++ [tx], if s.to_ = "" then env.ToChain tx else s.to_⟩
        (by simpa [if_neg hto] using hto)
        (by
          intro t ht
          simp only [if_neg hto]
          rcases List.mem_append.1 ht with h | h
          · exact hs t h
          · rw [List.mem_singleton.1 h]; exact hc1)
      simpa [if_neg hto] using this
    · simp only [IterElement, requestBatchStep, if_neg hc]
      exact hs

/-- The batch never holds more than `BatchSize + 1` transactions (for a batch size
that is not negative). -/
theorem makeRequestBatch_length_le {J : Type} (env : ValidatorEnv J) (BatchSize : Int)
    (txpool : List Transaction) (h : 0 ≤ BatchSize) :
    ((makeRequestBatch env BatchSize txpool).length : Int) ≤ BatchSize + 1 := by
  apply IterElement_requestBatch_length
  simp only [List.length_nil, Nat.cast_zero]
  omega

/-- C21, as the code behaves: with a batch size of 2 and four transactions for the
same chain in the mempool, `makeRequestBatch` returns the first three: the test
`len(requestBatch) <= BatchSize` still admits a transaction into a batch that
already holds `BatchSize` of them. -/
theorem makeRequestBatch_exceeds_BatchSize :
    makeRequestBatch sampleEnv 2 [⟨1⟩, ⟨2⟩, ⟨4⟩, ⟨5⟩] = [⟨1⟩, ⟨2⟩, ⟨4⟩] ∧
      ¬ (makeRequestBatch sampleEnv 2 [⟨1⟩, ⟨2⟩, ⟨4⟩, ⟨5⟩]).length ≤ 2 := by
  refine ⟨by decide, by decide⟩

/-- C22, amended: the batch is a prefix of the iteration order of the mempool, and
when the first transaction of the mempool names a destination chain (its `ToChain`
is not the empty string) every transaction of the batch has the `ToChain` of the
first. -/
theorem makeRequestBatch_prefix_sameToChain {J : Type} (env : ValidatorEnv J)
    (BatchSize : Int) (txpool : List Transaction) :
    makeRequestBatch env BatchSize txpool <+: txpool ∧
      ∀ first, txpool.head? = some first → env.ToChain first ≠ "" →
        ∀ tx ∈ makeRequestBatch env BatchSize txpool, env.ToChain tx = env.ToChain first := by
  constructor
  · obtain ⟨p, hp, hpre⟩ := IterElement_requestBatch_prefix env BatchSize txpool
      { requestBatch := [], to_ := "" }
    unfold makeRequestBatch
    rw [hp]; simpa using hpre
  · intro first hfirst hne tx htx
    cases txpool with
    | nil => simp at hfirst
    | cons t rest =>
      simp only [List.head?_cons, Option.some.injEq] at hfirst
      subst hfirst
      unfold makeRequestBatch at htx
      by_cases hc : (0 : Int) ≤ BatchSize
      · have h1 : IterElement (requestBatchStep env BatchSize) ⟨[], ""⟩ (t :: rest) =
            IterElement (requestBatchStep env BatchSize) ⟨[t], env.ToChain t⟩ rest := by
          simp [IterElement, requestBatchStep, hc]
        rw [h1] at htx
        exact IterElement_requestBatch_sameToChain env BatchSize rest ⟨[t], env.ToChain t⟩ hne
          (by simp) tx htx
      · have h1 : IterElement (requestBatchStep env BatchSize) ⟨[], ""⟩ (t :: rest) =
            ⟨[], env.ToChain t⟩ := by
          simp [IterElement, requestBatchStep, hc]
        rw [h1] at htx
        simp at htx

theorem makeRequestBatch_prefix_sameToChain_witness :
    makeRequestBatch sampleEnv 5 [⟨1⟩, ⟨2⟩, ⟨3⟩, ⟨4⟩] <+: [⟨1⟩, ⟨2⟩, ⟨3⟩, ⟨4⟩] ∧
      ∀ tx ∈ makeRequestBatch sampleEnv 5 [⟨1⟩, ⟨2⟩, ⟨3⟩, ⟨4⟩],
        sampleEnv.ToChain tx = sampleEnv.ToChain ⟨1⟩ :=
  ⟨(makeRequestBatch_prefix_sameToChain sampleEnv 5 [⟨1⟩, ⟨2⟩, ⟨3⟩, ⟨4⟩]).1,
    (makeRequestBatch_prefix_sameToChain sampleEnv 5 [⟨1⟩, ⟨2⟩, ⟨3⟩, ⟨4⟩]).2 ⟨1⟩ rfl (by decide)⟩

/-- C22 as stated fails: transaction 0 names no destination chain, so the callback
leaves `to` empty and takes the chain of the next transaction; the batch then
holds transaction 3, for chain `"01"`, behind transaction 0. -/
theorem makeRequestBatch_mixed_ToChain :
    makeRequestBatch batchEnv 5 [⟨0⟩, ⟨3⟩, ⟨1⟩] = [⟨0⟩, ⟨3⟩] ∧
      ¬ (∀ first, (makeRequestBatch batchEnv 5 [⟨0⟩, ⟨3⟩, ⟨1⟩]).head? = some first →
          ∀ tx ∈ makeRequestBatch batchEnv 5 [⟨0⟩, ⟨3⟩, ⟨1⟩],
            batchEnv.ToChain tx = batchEnv.ToChain first) := by
  have hb : makeRequestBatch batchEnv 5 [⟨0⟩, ⟨3⟩, ⟨1⟩] = [⟨0⟩, ⟨3⟩] := by decide
  refine ⟨hb, ?_⟩
  rw [hb]
  intro h
  have := h ⟨0⟩ rfl ⟨3⟩ (by simp)
  revert this
  decide

/-! ## Blockchain coordinator: the orphan buffer -/

theorem processConsensusOutput_orphans {L : Type} (env : ChainEnv L) (bc : Blockchain L)
    (output : OutputTxs) : (processConsensusOutput env bc output).orphans = bc.orphans := by
  unfold processConsensusOutput
  dsimp only
  split <;> rfl

theorem drainOrphans_none {L : Type} (env : ChainEnv L) (fuel : Nat) (st : Drain L) :
    drainOrphans env fuel none st = st := by
  cases fuel <;> rfl

/-- The orphan loop acts on the front element only: it leaves the list as it is or
takes the front element out. -/
theorem drainOrphans_front_orphans {L : Type} (env : ChainEnv L) (fuel : Nat) (st : Drain L) :
    (drainOrphans env fuel (listFront st.bc.orphans.length) st).bc.orphans = st.bc.orphans ∨
      (drainOrphans env fuel (listFront st.bc.orphans.length) st).bc.orphans =
        st.bc.orphans.tail := by
  obtain ⟨⟨hdr, ledger, orphans, synced, cnt, txCnt⟩, height, log⟩ := st
  cases fuel with
  | zero => left; rfl
  | succ fuel =>
    cases orphans with
    | nil => left; rfl
    | cons a rest =>
      by_cases h1 : a.Height < height
      · right
        simp [drainOrphans, listFront, elementNext, drainOrphans_none, h1]
      · by_cases h2 : a.Height = height
        · right
          simp [drainOrphans, listFront, elementNext, drainOrphans_none, h1, h2,
            processConsensusOutput_orphans]
        · left
          simp [drainOrphans, listFront, h1, h2]

theorem consensusBranch_orphans {L : Type} (env : ChainEnv L) (bc : Blockchain L)
    (commitedTxs : OutputTxs) (h0 : bc.orphans.length ≤ 100) :
    (¬ (env.Height bc.ledger + 1) % 2 ^ 32 < commitedTxs.Height →
        (consensusBranch env bc commitedTxs).1.orphans = bc.orphans) ∧
      ((env.Height bc.ledger + 1) % 2 ^ 32 < commitedTxs.Height →
        ((consensusBranch env bc commitedTxs).1.orphans = bc.orphans ++ [commitedTxs] ∧
            bc.orphans.length < 100) ∨
          (consensusBranch env bc commitedTxs).1.orphans = (bc.orphans ++ [commitedTxs]).tail) := by
  unfold consensusBranch
  dsimp only
  by_cases heq : commitedTxs.Height = (env.Height bc.ledger + 1) % 2 ^ 32
  · rw [if_pos heq]
    refine ⟨fun _ => ?_, fun hlt => absurd hlt (by omega)⟩
    rw [processConsensusOutput_orphans]
    split <;> rfl
  · rw [if_neg heq]
    by_cases hgt : commitedTxs.Height > (env.Height bc.ledger + 1) % 2 ^ 32
    · rw [if_pos hgt]
      refine ⟨fun hn => absurd hgt hn, fun _ => ?_⟩
      have hd := drainOrphans_front_orphans env ((bc.orphans ++ [commitedTxs]).length + 1)
        { bc := { bc with orphans := bc.orphans ++ [commitedTxs] }
          height := (env.Height bc.ledger + 1) % 2 ^ 32, log := [] }
      dsimp only at hd
      rcases hd with hd | hd
      · by_cases hlen : (bc.orphans ++ [commitedTxs]).length > 100
        · right
          rw [if_pos (by rw [hd]; exact hlen)]
          dsimp only
          rw [hd]
        · left
          rw [if_neg (by rw [hd]; exact hlen)]
          refine ⟨hd, ?_⟩
          simp only [List.length_append, List.length_singleton] at hlen
          omega
      · right
        have hlen : ¬ (bc.orphans ++ [commitedTxs]).tail.length > 100 := by
          simp only [List.length_tail, List.length_append, List.length_singleton]
          omega
        rw [if_neg (by rw [hd]; exact hlen)]
        exact hd
    · rw [if_neg hgt]
      exact ⟨fun _ => rfl, fun hlt => absurd hlt hgt⟩

/-- What one iteration of the consensus loop does to the orphan list, when the list
held at most 100 outputs before. -/
theorem consensusOutput_orphans {L : Type} (env : ChainEnv L) (bc bc2 : Blockchain L)
    (commitedTxs : OutputTxs) (log : List OutputTxs) (h0 : bc.orphans.length ≤ 100)
    (h : consensusOutput env bc commitedTxs = some (bc2, log)) :
    (¬ (env.Height bc.ledger + 1) % 2 ^ 32 < commitedTxs.Height → bc2.orphans = bc.orphans) ∧
      ((env.Height bc.ledger + 1) % 2 ^ 32 < commitedTxs.Height →
        (bc2.orphans = bc.orphans ++ [commitedTxs] ∧ bc.orphans.length < 100) ∨
          bc2.orphans = (bc.orphans ++ [commitedTxs]).tail) := by
  have hb := consensusBranch_orphans env bc commitedTxs h0
  unfold consensusOutput at h
  dsimp only at h
  split at h
  · exact absurd h (by simp)
  · simp only [Option.some.injEq, Prod.mk.injEq] at h
    obtain ⟨hbc, -⟩ := h
    subst hbc
    exact hb

theorem consensusOutput_orphans_le {L : Type} (env : ChainEnv L) (bc bc2 : Blockchain L)
    (commitedTxs : OutputTxs) (log : List OutputTxs) (h0 : bc.orphans.length ≤ 100)
    (h : consensusOutput env bc commitedTxs = some (bc2, log)) : bc2.orphans.length ≤ 100 := by
  obtain ⟨h1, h2⟩ := consensusOutput_orphans env bc bc2 commitedTxs log h0 h
  by_cases hlt : (env.Height bc.ledger + 1) % 2 ^ 32 < commitedTxs.Height
  · rcases h2 hlt with ⟨h3, h4⟩ | h3
    · rw [h3]; simp only [List.length_append, List.length_singleton]; omega
    · rw [h3]; simp only [List.length_tail, List.length_append, List.length_singleton]; omega
  · rw [h1 hlt]; exact h0

theorem consensusLoop_orphans_le {L : Type} (env : ChainEnv L) (outputs : List OutputTxs) :
    ∀ (bc bcF : Blockchain L) (log : List OutputTxs), bc.orphans.length ≤ 100 →
      consensusLoop env bc outputs = some (bcF, log) → bcF.orphans.length ≤ 100 := by
  induction outputs with
  | nil =>
    intro bc bcF log h0 h
    simp only [consensusLoop, Option.some.injEq, Prod.mk.injEq] at h
    rw [← h.1]; exact h0
  | cons o rest ih =>
    intro bc bcF log h0 h
    simp only [consensusLoop] at h
    cases h1 : consensusOutput env bc o with
    | none => rw [h1] at h; exact absurd h (by simp)
    | some r =>
      obtain ⟨bc1, log1⟩ := r
      rw [h1] at h
      dsimp only at h
      cases h2 : consensusLoop env bc1 rest with
      | none => rw [h2] at h; exact absurd h (by simp)
      | some r2 =>
        obtain ⟨bc2, log2⟩ := r2
        rw [h2] at h
        simp only [Option.some.injEq, Prod.mk.injEq] at h
        rw [← h.1]
        exact ih bc1 bc2 log2 (consensusOutput_orphans_le env bc bc1 o log1 h0 h1) h2

/-- C24: start from a coordinator whose orphan list holds at most 100 outputs (the
list of a new coordinator is empty) and let any outputs arrive.  After every
iteration of the consensus loop the list holds at most 100 outputs, and an output
that is inserted into a list of 100 pushes out the oldest one, the front of the
list: the list is then the old one without its front, followed by the new
output. -/
theorem orphans_at_most_100 {L : Type} (env : ChainEnv L) (bc bc1 bc2 : Blockchain L)
    (outputs log1 log2 : List OutputTxs) (commitedTxs : OutputTxs)
    (h0 : bc.orphans.length ≤ 100)
    (h1 : consensusLoop env bc outputs = some (bc1, log1))
    (h2 : consensusOutput env bc1 commitedTxs = some (bc2, log2)) :
    bc1.orphans.length ≤ 100 ∧ bc2.orphans.length ≤ 100 ∧
      (bc1.orphans.length = 100 → (env.Height bc1.ledger + 1) % 2 ^ 32 < commitedTxs.Height →
        bc2.orphans = bc1.orphans.tail ++ [commitedTxs]) := by
  have hb1 := consensusLoop_orphans_le env outputs bc bc1 log1 h0 h1
  refine ⟨hb1, consensusOutput_orphans_le env bc1 bc2 commitedTxs log2 hb1 h2, ?_⟩
  intro hlen hlt
  rcases (consensusOutput_orphans env bc1 bc2 commitedTxs log2 hb1 h2).2 hlt with ⟨-, h4⟩ | h3
  · omega
  · rw [h3]
    cases hl : bc1.orphans with
    | nil => rw [hl] at hlen; simp at hlen
    | cons a rest => rfl

theorem orphans_at_most_100_witness :
    fullChain.orphans.length = 100 ∧ fullChainAfter.orphans.length ≤ 100 ∧
      fullChainAfter.orphans = fullChain.orphans.tail ++ [sampleOutput 200] :=
  have h := orphans_at_most_100 sampleChainEnv fullChain fullChain fullChainAfter [] [] []
    (sampleOutput 200) (by decide) rfl rfl
  ⟨by decide, h.2.1, h.2.2 (by decide) (by decide)⟩

/-- In the chain of the examples, handing the output of the expected height to
`processConsensusOutput` advances the ledger height by one. -/
theorem processConsensusOutput_sample_advances (bc : Blockchain Nat) (output : OutputTxs)
    (htip : bc.currentBlockHeader.Height = bc.ledger)
    (h : output.Height = (sampleChainEnv.Height bc.ledger + 1) % 2 ^ 32) :
    sampleChainEnv.Height (processConsensusOutput sampleChainEnv bc output).ledger =
        (sampleChainEnv.Height bc.ledger + 1) % 2 ^ 32 ∧
      (processConsensusOutput sampleChainEnv bc output).currentBlockHeader.Height =
        (processConsensusOutput sampleChainEnv bc output).ledger := by
  have h1 : (GenerateBlock sampleChainEnv bc output.Txs output.Time).Header.Height =
      output.Height := by
    rw [h]; simp [GenerateBlock, NewBlock, sampleChainEnv, htip]
  simp only [processConsensusOutput, if_pos h1]
  simp [sampleChainEnv, GenerateBlock, NewBlock, htip]

/-- C23, as the code behaves: the outputs of the heights 3, 2, 4, 5 arrive at a
coordinator that expects height 2.  The outputs 2, 3 and 4 are handed to
`processConsensusOutput`, in that order, and the output 5 is still in the orphan
list when all four have been consumed: the branch for the expected height does
not look at the list, and the loop over the list ends with the first element it
removes. -/
theorem consensusLoop_leaves_orphan :
    (consensusLoop sampleChainEnv sampleChain
        [sampleOutput 3, sampleOutput 2, sampleOutput 4, sampleOutput 5]).map
      (fun r => (r.1.orphans, r.2, r.1.ledger)) =
        some ([sampleOutput 5], [sampleOutput 2, sampleOutput 3, sampleOutput 4], 4) := by
  decide

/-- The shortest case: the output of height 3 arrives before the output of height 2
and stays in the orphan list. -/
theorem consensusLoop_leaves_orphan_short :
    (consensusLoop sampleChainEnv sampleChain [sampleOutput 3, sampleOutput 2]).map
      (fun r => (r.1.orphans, r.2, r.1.ledger)) = some ([sampleOutput 3], [sampleOutput 2], 2) := by
  decide

/-! ## Blockchain coordinator: ProcessBlock -/

/-- C25, amended: `ProcessBlock` accepts a block exactly when its previous hash is
the hash of the current header; an accepted block becomes the current header, so
the block accepted next has the hash of its header as previous hash; a block that
is not accepted leaves the coordinator as it was. -/
theorem ProcessBlock_accepts_iff {L : Type} (env : ChainEnv L) (bc : Blockchain L)
    (b1 b2 : Block) (flag1 flag2 : Bool) :
    ((ProcessBlock env bc b1 flag1).1 = true ↔
        b1.Header.PreviousHash = env.Hash bc.currentBlockHeader) ∧
      ((ProcessBlock env bc b1 flag1).1 = true →
        (ProcessBlock env bc b1 flag1).2.currentBlockHeader = b1.Header ∧
          ((ProcessBlock env (ProcessBlock env bc b1 flag1).2 b2 flag2).1 = true →
            b2.Header.PreviousHash = env.Hash b1.Header)) ∧
      ((ProcessBlock env bc b1 flag1).1 = false → (ProcessBlock env bc b1 flag1).2 = bc) := by
  by_cases h : b1.Header.PreviousHash = env.Hash bc.currentBlockHeader
  · refine ⟨by simp [ProcessBlock, h], fun _ => ⟨by simp [ProcessBlock, h], ?_⟩,
      by simp [ProcessBlock, h]⟩
    intro h2
    by_cases h3 : b2.Header.PreviousHash = env.Hash b1.Header
    · exact h3
    · simp [ProcessBlock, h, h3] at h2
  · refine ⟨by simp [ProcessBlock, h], by simp [ProcessBlock, h], by simp [ProcessBlock, h]⟩

theorem ProcessBlock_accepts_iff_witness :
    (ProcessBlock sampleChainEnv sampleChain
        (NewBlock [1, 0] 2 2 100 [] []) true).2.currentBlockHeader =
          (NewBlock [1, 0] 2 2 100 [] []).Header ∧
      (NewBlock [2, 2] 3 3 100 [] []).Header.PreviousHash =
        sampleChainEnv.Hash (NewBlock [1, 0] 2 2 100 [] []).Header ∧
      (ProcessBlock sampleChainEnv sampleChain (NewBlock [9] 2 2 100 [] []) true).2 =
        sampleChain :=
  ⟨((ProcessBlock_accepts_iff sampleChainEnv sampleChain (NewBlock [1, 0] 2 2 100 [] [])
      (NewBlock [2, 2] 3 3 100 [] []) true true).2.1 (by decide)).1,
    ((ProcessBlock_accepts_iff sampleChainEnv sampleChain (NewBlock [1, 0] 2 2 100 [] [])
      (NewBlock [2, 2] 3 3 100 [] []) true true).2.1 (by decide)).2 (by decide),
    (ProcessBlock_accepts_iff sampleChainEnv sampleChain (NewBlock [9] 2 2 100 [] [])
      (NewBlock [2, 2] 3 3 100 [] []) true true).2.2 (by decide)⟩

/-- C25 as stated fails: a block whose previous hash is the hash of the current header
is accepted whatever height its header carries; here the current height is 1 and
the accepted block has height 7. -/
theorem ProcessBlock_accepts_any_height :
    (ProcessBlock sampleChainEnv sampleChain (NewBlock [1, 0] 2 7 100 [] []) true).1 = true ∧
      (NewBlock [1, 0] 2 7 100 [] []).Header.Height ≠ sampleChain.currentBlockHeader.Height + 1 ∧
      (ProcessBlock sampleChainEnv sampleChain
        (NewBlock [1, 0] 2 7 100 [] []) true).2.currentBlockHeader.Height = 7 := by
  decide

/-! ## Balances of an address -/

/-- All entries of the map that `GetBalanceStates` returns show one and the same
amount: they point to the one variable `amount`. -/
theorem Balances.get?_shared (b : Balances) (id1 id2 : Nat) (x y : Int)
    (h1 : b.get? id1 = some x) (h2 : b.get? id2 = some y) : x = y := by
  unfold Balances.get? at h1 h2
  split at h1 <;> split at h2 <;> simp_all

/-- C26, as the code behaves: asset 1 of address `"a"` is set to 5 in a new block and
the balances of `"a"` are read back.  With a composite key that joins namespace and
key by a separator, the key written is found and `strconv.ParseUint` is applied to
the whole composite key, not to the digits of the asset ID in it: the call returns
the error.  With the length-prefixed composite key the key of `("a", "")` is no
prefix of the key written, and the call returns the empty map.  The call
`GetBalanceState` for the one asset returns 5 on the same block. -/
theorem GetBalanceStates_after_SetBalacneState_fails :
    (SetBalacneState sepCompositeKey NewBLKRWSet "a" 1 5).map
        (fun blk => GetBalanceStates sepCompositeKey sampleDB specTreap blk "a" false) =
      some (.error "invalid syntax") ∧
    (SetBalacneState specCompositeKey NewBLKRWSet "a" 1 5).map
        (fun blk => GetBalanceStates specCompositeKey sampleDB specTreap blk "a" false) =
      some (.ok ⟨[], 0⟩) ∧
    (SetBalacneState sepCompositeKey NewBLKRWSet "a" 1 5).map
        (fun blk => GetBalanceState sepCompositeKey sampleDB blk "a" 1 false) =
      some (.ok (some 5)) := by
  refine ⟨?_, ?_, ?_⟩ <;> with_unfolding_all rfl

/-! ## The JS worker: executions of a job -/

theorem callBacks_append (a b : List JsEvent) : callBacks (a ++ b) = callBacks a ++ callBacks b := by
  induction a with
  | nil => rfl
  | cons e rest ih => cases e <;> simp [callBacks, ih]

theorem Extends.rfl_of_log {W : Type} (w w1 : JsWorker W) (h1 : w1.isCanRedo = w.isCanRedo)
    (h2 : w1.log = w.log) : Extends w w1 :=
  ⟨h1, [], by simp [h2], rfl⟩

theorem Extends.trans_extends {W : Type} {a b c : JsWorker W} (h1 : Extends a b)
    (h2 : Extends b c) : Extends a c := by
  obtain ⟨hr1, e1, hl1, hc1⟩ := h1
  obtain ⟨hr2, e2, hl2, hc2⟩ := h2
  refine ⟨hr2.trans hr1, e1 ++ e2, ?_, ?_⟩
  · rw [hl2, hl1, List.append_assoc]
  · rw [callBacks_append, hc1, hc2]; rfl

theorem txTransfer_extends {W : Type} (env : JsEnv W) (worker worker1 : JsWorker W)
    (err : Option String) (h : txTransfer env worker = .ok (err, worker1)) :
    Extends worker worker1 := by
  unfold txTransfer at h
  split at h
  · rename_i handler cd _ _
    simp only [Except.ok.injEq, Prod.mk.injEq] at h
    obtain ⟨-, hw⟩ := h
    subst hw
    exact ⟨rfl, [.transfer handler cd.Transaction], rfl, rfl⟩
  · exact absurd h (by simp)

theorem resetProc_extends {W : Type} (env : JsEnv W) (worker : JsWorker W) (wp : Nat) :
    Extends worker (resetProc env worker wp) :=
  Extends.rfl_of_log _ _ rfl rfl

theorem execAndCommit_extends {W : Type} (env : JsEnv W) (worker worker1 : JsWorker W)
    (wp : Nat) (funcName : String) (res : GoValue × Option String)
    (h : execAndCommit env worker wp funcName = .ok (res, worker1)) : Extends worker worker1 := by
  unfold execAndCommit at h
  dsimp only at h
  split at h
  · split at h
    · simp only [Except.ok.injEq, Prod.mk.injEq] at h
      rw [← h.2]; exact Extends.rfl_of_log _ _ rfl rfl
    · split at h
      · simp only [Except.ok.injEq, Prod.mk.injEq] at h
        rw [← h.2]; exact Extends.rfl_of_log _ _ rfl rfl
      · simp only [Except.ok.injEq, Prod.mk.injEq] at h
        rw [← h.2]; exact Extends.rfl_of_log _ _ rfl rfl
  · exact absurd h (by simp)

theorem InitContract_extends {W : Type} (env : JsEnv W) (worker worker1 : JsWorker W)
    (wp : Nat) (res : GoValue × Option String)
    (h : InitContract env worker wp = .ok (res, worker1)) : Extends worker worker1 := by
  unfold InitContract at h
  split at h
  · exact absurd h (by simp)
  · rename_i err w1 htx
    simp only [Except.ok.injEq, Prod.mk.injEq] at h
    rw [← h.2]; exact txTransfer_extends env _ _ _ htx
  · rename_i w1 htx
    have h1 := txTransfer_extends env _ _ _ htx
    dsimp only at h
    split at h
    · exact absurd h (by simp)
    · have h3 := execAndCommit_extends env _ _ _ _ _ h
      refine h1.trans_extends (Extends.trans_extends ?_ h3)
      exact Extends.rfl_of_log _ _ rfl rfl

theorem InvokeExecute_extends {W : Type} (env : JsEnv W) (worker worker1 : JsWorker W)
    (wp : Nat) (res : GoValue × Option String)
    (h : InvokeExecute env worker wp = .ok (res, worker1)) : Extends worker worker1 := by
  unfold InvokeExecute at h
  split at h
  · exact absurd h (by simp)
  · rename_i err w1 htx
    simp only [Except.ok.injEq, Prod.mk.injEq] at h
    rw [← h.2]; exact txTransfer_extends env _ _ _ htx
  · rename_i w1 htx
    have h1 := (txTransfer_extends env _ _ _ htx).trans_extends (resetProc_extends env w1 wp)
    dsimp only at h
    split at h
    · exact absurd h (by simp)
    · split at h
      · split at h
        · simp only [Except.ok.injEq, Prod.mk.injEq] at h
          rw [← h.2]
          exact h1.trans_extends (Extends.rfl_of_log _ _ rfl rfl)
        · have h3 := execAndCommit_extends env _ _ _ _ _ h
          refine h1.trans_extends (Extends.trans_extends ?_ h3)
          exact Extends.rfl_of_log _ _ rfl rfl
      · exact h1.trans_extends (execAndCommit_extends env _ _ _ _ _ h)

theorem QueryContract_extends {W : Type} (env : JsEnv W) (worker worker1 : JsWorker W)
    (wp : Nat) (res : GoValue × Option String)
    (h : QueryContract env worker wp = .ok (res, worker1)) : Extends worker worker1 := by
  unfold QueryContract at h
  dsimp only at h
  split at h
  · simp only [Except.ok.injEq, Prod.mk.injEq] at h
    rw [← h.2]
    exact (resetProc_extends env worker wp).trans_extends (Extends.rfl_of_log _ _ rfl rfl)
  · split at h
    · simp only [Except.ok.injEq, Prod.mk.injEq] at h
      rw [← h.2]
      exact (resetProc_extends env worker wp).trans_extends (Extends.rfl_of_log _ _ rfl rfl)
    · exact absurd h (by simp)

/-- `requestHandle` leaves `isCanRedo` alone and calls no `CallBack`. -/
theorem requestHandle_extends {W : Type} (env : JsEnv W) (worker worker1 : JsWorker W)
    (wp : Nat) (res : GoValue × Option String)
    (h : requestHandle env worker wp = .ok (res, worker1)) : Extends worker worker1 := by
  unfold requestHandle at h
  split at h
  · exact absurd h (by simp)
  · dsimp only at h
    split at h
    · exact InitContract_extends env _ _ _ _ h
    · split at h
      · exact InvokeExecute_extends env _ _ _ _ h
      · split at h
        · exact QueryContract_extends env _ _ _ _ h
        · simp only [Except.ok.injEq, Prod.mk.injEq] at h
          rw [← h.2]; exact Extends.rfl_of_log _ _ rfl rfl

theorem txTransfer_fail {W : Type} (env : JsEnv W) (worker : JsWorker W) (f : JsFail)
    (h : txTransfer env worker = .error f) : f = .panic := by
  unfold txTransfer at h
  split at h
  · exact absurd h (by simp)
  · simp only [Except.error.injEq] at h; exact h.symm

theorem execAndCommit_fail {W : Type} (env : JsEnv W) (worker : JsWorker W) (wp : Nat)
    (funcName : String) (f : JsFail) (h : execAndCommit env worker wp funcName = .error f) :
    f = .panic := by
  unfold execAndCommit at h
  dsimp only at h
  split at h
  · split at h
    · exact absurd h (by simp)
    · split at h <;> exact absurd h (by simp)
  · simp only [Except.error.injEq] at h; exact h.symm

theorem InitContract_fail {W : Type} (env : JsEnv W) (worker : JsWorker W) (wp : Nat)
    (f : JsFail) (h : InitContract env worker wp = .error f) : f = .panic := by
  unfold InitContract at h
  split at h
  · rename_i f1 htx
    simp only [Except.error.injEq] at h
    rw [← h]; exact txTransfer_fail env _ _ htx
  · exact absurd h (by simp)
  · dsimp only at h
    split at h
    · simp only [Except.error.injEq] at h; exact h.symm
    · exact execAndCommit_fail env _ _ _ _ h

theorem InvokeExecute_fail {W : Type} (env : JsEnv W) (worker : JsWorker W) (wp : Nat)
    (f : JsFail) (h : InvokeExecute env worker wp = .error f) : f = .panic := by
  unfold InvokeExecute at h
  split at h
  · rename_i f1 htx
    simp only [Except.error.injEq] at h
    rw [← h]; exact txTransfer_fail env _ _ htx
  · exact absurd h (by simp)
  · dsimp only at h
    split at h
    · simp only [Except.error.injEq] at h; exact h.symm
    · split at h
      · split at h
        · exact absurd h (by simp)
        · exact execAndCommit_fail env _ _ _ _ h
      · exact execAndCommit_fail env _ _ _ _ h

theorem QueryContract_fail {W : Type} (env : JsEnv W) (worker : JsWorker W) (wp : Nat)
    (f : JsFail) (h : QueryContract env worker wp = .error f) : f = .panic := by
  unfold QueryContract at h
  dsimp only at h
  split at h
  · exact absurd h (by simp)
  · split at h
    · exact absurd h (by simp)
    · simp only [Except.error.injEq] at h; exact h.symm

/-- `requestHandle` makes no nested call of `ExecJob`: when it does not return, it
has panicked. -/
theorem requestHandle_fail {W : Type} (env : JsEnv W) (worker : JsWorker W) (wp : Nat)
    (f : JsFail) (h : requestHandle env worker wp = .error f) : f = .panic := by
  unfold requestHandle at h
  split at h
  · simp only [Except.error.injEq] at h; exact h.symm
  · dsimp only at h
    split at h
    · exact InitContract_fail env _ _ _ h
    · split at h
      · exact InvokeExecute_fail env _ _ _ h
      · split at h
        · exact QueryContract_fail env _ _ _ h
        · exact absurd h (by simp)

/-- An execution that starts with `isCanRedo` set does not call `ExecJob` again: it
needs no more fuel than 1, and when it returns it has called `CallBack` once, with
`IsCanRedo` false. -/
theorem ExecJob_of_isCanRedo {W : Type} (env : JsEnv W) (fuel : Nat) (worker : JsWorker W)
    (data : Nat) (h : worker.isCanRedo = true) :
    ExecJob env (fuel + 1) worker data = ExecJob env 1 worker data ∧
      ExecJob env (fuel + 1) worker data ≠ .error .outOfFuel ∧
      ∀ result worker1, ExecJob env (fuel + 1) worker data = .ok (result, worker1) →
        ∃ evs r1 e1, worker1.log = worker.log ++ evs ∧ callBacks evs = [(r1, e1)] ∧
          r1.IsCanRedo = false := by
  simp only [ExecJob]
  cases hreq : requestHandle env worker data with
  | error f =>
    have hp : f = .panic := requestHandle_fail env _ _ _ hreq
    subst hp
    simp
  | ok r =>
    obtain ⟨⟨result, err⟩, worker1⟩ := r
    obtain ⟨hredo, evs, hlog, hcb⟩ := requestHandle_extends env _ _ _ _ hreq
    dsimp only
    cases hh : (worker1.heap data).L0Handler with
    | none => simp
    | some handler =>
      have hr : worker1.isCanRedo = true := hredo.trans h
      simp only [hr, Bool.not_true, Bool.and_false, Bool.false_eq_true, if_false, ne_eq,
        not_false_eq_true, true_and, Except.ok.injEq, Prod.mk.injEq, and_imp, reduceCtorEq]
      intro result1 w1 _ hw
      subst hw
      refine ⟨evs ++ [.callBack handler ⟨false, err, result⟩ (env.CallBack worker1.world handler
        ⟨false, err, result⟩).1], ⟨false, err, result⟩,
        (env.CallBack worker1.world handler ⟨false, err, result⟩).1, ?_, ?_, rfl⟩
      · simp [hlog]
      · rw [callBacks_append, hcb]; rfl

theorem ExecJob_succ {W : Type} (env : JsEnv W) (fuel : Nat) (worker : JsWorker W) (data : Nat) :
    ExecJob env (fuel + 1) worker data =
      match requestHandle env worker data with
      | .error f => .error f
      | .ok ((result, err), worker1) =>
        match (worker1.heap data).L0Handler with
        | none => .error .panic
        | some handler =>
          if (env.CallBack worker1.world handler
              ⟨!worker1.isCanRedo, err, result⟩).1.isSome && !worker1.isCanRedo then
            match ExecJob env fuel
              { worker1 with
                world := (env.CallBack worker1.world handler ⟨!worker1.isCanRedo, err, result⟩).2
                log := worker1.log ++ [.callBack handler ⟨!worker1.isCanRedo, err, result⟩
                  (env.CallBack worker1.world handler ⟨!worker1.isCanRedo, err, result⟩).1]
                isCanRedo := true } data with
            | .error f => .error f
            | .ok (_, worker3) => .ok (result, worker3)
          else
            .ok (result,
              { worker1 with
                world := (env.CallBack worker1.world handler ⟨!worker1.isCanRedo, err, result⟩).2
                log := worker1.log ++ [.callBack handler ⟨!worker1.isCanRedo, err, result⟩
                  (env.CallBack worker1.world handler ⟨!worker1.isCanRedo, err, result⟩).1] }) := by
  rfl

/-- C27: a call of `VmJob` needs no more than two nested executions of the job,
whatever the request handler and the callback do: with any bound of at least 2 on
the nesting the call ends as it does with the bound 2, and it does not end for
lack of it.  When the call returns, `CallBack` has been called once, with
`IsCanRedo` true and no error returned, or twice: the first call, with `IsCanRedo`
true, returned an error, and the second call, made by the second execution with
`IsCanRedo` false, is the last whatever it returned. -/
theorem VmJob_at_most_twice {W : Type} (env : JsEnv W) (worker : JsWorker W) (data fuel : Nat)
    (hfuel : 2 ≤ fuel) :
    VmJob env fuel worker data = VmJob env 2 worker data ∧
      VmJob env fuel worker data ≠ .error .outOfFuel ∧
      ∀ result worker1, VmJob env fuel worker data = .ok (result, worker1) →
        ∃ evs, worker1.log = worker.log ++ evs ∧
          ((∃ r1, callBacks evs = [(r1, none)] ∧ r1.IsCanRedo = true) ∨
            (∃ r1 e1 r2 e2, callBacks evs = [(r1, some e1), (r2, e2)] ∧
              r1.IsCanRedo = true ∧ r2.IsCanRedo = false)) := by
  obtain ⟨n, rfl⟩ : ∃ n, fuel = n + 2 := ⟨fuel - 2, by omega⟩
  unfold VmJob
  rw [ExecJob_succ env (n + 1), ExecJob_succ env 1]
  cases hreq : requestHandle env { worker with isCanRedo := false } data with
  | error f =>
    have hp : f = .panic := requestHandle_fail env _ _ _ hreq
    subst hp
    simp
  | ok r =>
    obtain ⟨⟨result, err⟩, worker1⟩ := r
    obtain ⟨hredo, evs, hlog, hcb⟩ := requestHandle_extends env _ _ _ _ hreq
    have hr : worker1.isCanRedo = false := hredo
    have hlog1 : worker1.log = worker.log ++ evs := hlog
    dsimp only
    cases hh : (worker1.heap data).L0Handler with
    | none => simp
    | some handler =>
      dsimp only
      rw [hr]
      cases hcall : (env.CallBack worker1.world handler ⟨!false, err, result⟩).1 with
      | none =>
        simp only [Option.isSome_none, Bool.false_and, Bool.false_eq_true, if_false, ne_eq,
          not_false_eq_true, true_and, Except.ok.injEq, Prod.mk.injEq, and_imp, reduceCtorEq]
        intro result1 w1 _ hw
        subst hw
        refine ⟨evs ++ [.callBack handler ⟨!false, err, result⟩ none], ?_, Or.inl ⟨⟨!false, err, result⟩, ?_, rfl⟩⟩
        · simp [hlog1]
        · rw [callBacks_append, hcb]; rfl
      | some e1 =>
        simp only [Option.isSome_some, Bool.not_false, Bool.and_self, if_true]
        obtain ⟨h1, h2, h3⟩ := ExecJob_of_isCanRedo env n
          { worker1 with
            world := (env.CallBack worker1.world handler ⟨true, err, result⟩).2
            log := worker1.log ++ [.callBack handler ⟨true, err, result⟩ (some e1)]
            isCanRedo := true } data rfl
        simp only [Bool.not_false] at hcall
        rw [h1]
        refine ⟨rfl, ?_, ?_⟩
        · cases h4 : ExecJob env 1
            { worker1 with
              world := (env.CallBack worker1.world handler ⟨true, err, result⟩).2
              log := worker1.log ++ [.callBack handler ⟨true, err, result⟩ (some e1)]
              isCanRedo := true } data with
          | error f =>
            rw [h1, h4] at h2
            simpa using h2
          | ok r2 => simp
        · intro result1 w1 hres
          cases h4 : ExecJob env 1
            { worker1 with
              world := (env.CallBack worker1.world handler ⟨true, err, result⟩).2
              log := worker1.log ++ [.callBack handler ⟨true, err, result⟩ (some e1)]
              isCanRedo := true } data with
          | error f => rw [h4] at hres; exact absurd hres (by simp)
          | ok r2 =>
            obtain ⟨res2, w2⟩ := r2
            rw [h4] at hres
            simp only [Except.ok.injEq, Prod.mk.injEq] at hres
            obtain ⟨-, hw⟩ := hres
            subst hw
            obtain ⟨evs2, r2, e2, hl2, hc2, hi2⟩ := h3 res2 w2 (by rw [h1]; exact h4)
            refine ⟨evs ++ [.callBack handler ⟨true, err, result⟩ (some e1)] ++ evs2, ?_,
              Or.inr ⟨⟨true, err, result⟩, e1, r2, e2, ?_, rfl, hi2⟩⟩
            · rw [hl2]; simp [hlog1]
            · rw [callBacks_append, callBacks_append, hcb, hc2]; rfl

theorem VmJob_at_most_twice_witness :
    VmJob sampleJsEnv 5 usedWorker 9 = VmJob sampleJsEnv 2 usedWorker 9 ∧
      VmJob sampleJsEnv 5 usedWorker 9 ≠ .error .outOfFuel ∧
      (VmJob sampleJsEnv 5 usedWorker 9).toOption.map (fun r => callBacks r.2.log) =
        some [(⟨true, none, .bool true⟩, some "conflict"),
          (⟨false, none, .bool true⟩, some "conflict")] ∧
      (VmJob sampleJsEnv 5 usedWorker 2).toOption.map (fun r => callBacks r.2.log) =
        some [(⟨true, none, .bool true⟩, none)] :=
  ⟨(VmJob_at_most_twice sampleJsEnv usedWorker 9 5 (by decide)).1,
    (VmJob_at_most_twice sampleJsEnv usedWorker 9 5 (by decide)).2.1, by decide, by decide⟩

/-! ## The JS worker: the transfer before an execution -/

/-- The handler and the transaction of the call of `Transfer` that `txTransfer` makes
are those of the worker procedure that `workerProc` points to when `txTransfer` is
called. -/
theorem txTransfer_log {W : Type} (env : JsEnv W) (worker worker1 : JsWorker W)
    (err : Option String) (h : txTransfer env worker = .ok (err, worker1)) :
    ∃ handler cd, (worker.heap worker.workerProc).L0Handler = some handler ∧
      (worker.heap worker.workerProc).ContractData = some cd ∧
      worker1.log = worker.log ++ [.transfer handler cd.Transaction] := by
  unfold txTransfer at h
  split at h
  · rename_i handler cd hh hc
    simp only [Except.ok.injEq, Prod.mk.injEq] at h
    obtain ⟨-, hw⟩ := h
    subst hw
    exact ⟨handler, cd, hh, hc, rfl⟩
  · exact absurd h (by simp)

/-- C28, as the code behaves: the worker last ran the job at address 1 (handler 1,
transaction 1).  `InvokeExecute` for the job at address 2 and `InitContract` for
the job at address 3 call `Transfer` on handler 1 with transaction 1: both call
`txTransfer`, which reads `worker.workerProc`, before `resetProc(wp)` points it
to the new job.  On a new worker, whose `workerProc` is empty, the same calls
panic. -/
theorem InvokeExecute_transfers_previous_job :
    (InvokeExecute sampleJsEnv usedWorker 2).toOption.map (fun r => transfers r.2.log) =
        some [(1, ⟨1⟩)] ∧
      (InitContract sampleJsEnv usedWorker 3).toOption.map (fun r => transfers r.2.log) =
        some [(1, ⟨1⟩)] ∧
      (usedWorker.heap 2).L0Handler = some 2 ∧
      (usedWorker.heap 2).ContractData = some ⟨"c", "", [], ⟨2⟩⟩ ∧
      (InvokeExecute sampleJsEnv sampleWorker 2).toOption.map (fun r => transfers r.2.log) =
        none ∧
      (InitContract sampleJsEnv sampleWorker 3).toOption.map (fun r => transfers r.2.log) =
        none := by
  decide

/-! ## merge: the block after the call -/

theorem mergeFinish_ok_or_blocked (blk : BLKRWSet) (rejected : Bool) (tx : Transaction)
    (ttxs : Option (List Transaction)) (txIndex : Nat) :
    mergeFinish blk rejected tx ttxs txIndex =
        .ok (mergeFinishBlock blk rejected tx ttxs txIndex) ∨
      mergeFinish blk rejected tx ttxs txIndex = .error .blocked := by
  unfold mergeFinish mergeFinishBlock
  dsimp only
  split_ifs <;> simp

theorem mergeFinish_ok_block (blk blk1 : BLKRWSet) (rejected : Bool) (tx : Transaction)
    (ttxs : Option (List Transaction)) (txIndex : Nat)
    (h : mergeFinish blk rejected tx ttxs txIndex = .ok blk1) :
    mergeFinishBlock blk rejected tx ttxs txIndex = blk1 := by
  rcases mergeFinish_ok_or_blocked blk rejected tx ttxs txIndex with h1 | h1
  · rw [h1] at h
    simpa using h
  · rw [h1] at h
    exact absurd h (by simp)

/-- When `merge` returns nil, the block it leaves is the block of the result. -/
theorem merge_ok_block (blk blk1 : BLKRWSet) (cc ast bs : Option KVRWSet) (tx : Transaction)
    (ttxs : Option (List Transaction)) (txIndex : Nat)
    (h : merge blk cc ast bs tx ttxs txIndex = .ok blk1) :
    mergeBlock blk cc ast bs tx ttxs txIndex = blk1 := by
  unfold merge at h
  unfold mergeBlock
  simp only at h
  repeat' split at h
  all_goals first
    | cases h
    | (simp only [*]; exact mergeFinish_ok_block _ _ _ _ _ _ h)

/-- C29: whenever `merge` returns a readset-conflict error, the block is what it was
before the call, field by field: the read and write sets of the three namespaces,
the three transaction lists, `curTxIndex`, and the channel `exit`, so no signal
has been sent. -/
theorem merge_conflict_keeps_block (blk : BLKRWSet) (cc ast bs : Option KVRWSet)
    (tx : Transaction) (ttxs : Option (List Transaction)) (txIndex : Nat) (ns ckey : String)
    (h : merge blk cc ast bs tx ttxs txIndex = .error (.conflict ns ckey)) :
    mergeBlock blk cc ast bs tx ttxs txIndex = blk := by
  unfold merge at h
  unfold mergeBlock
  simp only at h
  repeat' split at h
  all_goals first
    | (cases h; rfl)
    | cases h
    | (exact absurd h (mergeFinish_ne_conflict _ _ _ _ _ _ _))

theorem merge_conflict_keeps_block_witness :
    merge readBlock (some staleSet) (some NewKVRWSet) (some NewKVRWSet) ⟨2⟩ none 1 =
        .error (.conflict "chaincode" "k") ∧
      mergeBlock readBlock (some staleSet) (some NewKVRWSet) (some NewKVRWSet) ⟨2⟩ none 1 =
        readBlock :=
  ⟨rfl, merge_conflict_keeps_block readBlock (some staleSet) (some NewKVRWSet) (some NewKVRWSet)
    ⟨2⟩ none 1 "chaincode" "k" rfl⟩

/-- C30, as the code behaves: called with the rejection marker, a nil `chainCodeSet`
and a nil `assetSet` (whatever the balance set and the transfer transactions),
`merge` panics in its first statement after the locks, the loop over
`chainCodeSet.Reads`; the block is left as it was: the transaction is on no list
and `curTxIndex` is not advanced. -/
theorem merge_rejection_marker_panics (blk : BLKRWSet) (balanceSet : Option KVRWSet)
    (tx : Transaction) (ttxs : Option (List Transaction)) (txIndex : Nat) :
    merge blk none none balanceSet tx ttxs txIndex = .error .panic ∧
      mergeBlock blk none none balanceSet tx ttxs txIndex = blk :=
  ⟨rfl, rfl⟩

end L0
